import Mathlib

/-!
# Model-predictive controller: layout, cost and constraint evaluator, solve orchestration

A shallow embedding of `src/src/MPC.cpp` and of the telemetry handler of
`src/src/main.cpp`.

Modelling conventions.

* `double` and `AD<double>` values are elements of a field `α`; arithmetic is exact
  (no rounding).  `CppAD::cos`, `CppAD::sin`, `CppAD::atan` are passed in as functions
  `cos sin atan : α → α`.
* `size_t` and `int` quantities are natural numbers.  The horizon length `N` and the delay
  count `n_delay` are parameters of the evaluator and of `Solve`; the values the source
  gives them are the constants `MPC.N` and `MPC.n_delay`.  The embedding agrees with the
  source for `2 ≤ N` (below that the source's `N - 1`, `N - 2` wrap around) and as long as
  `8 * N` fits a `size_t`.
* A `CPPAD_TESTVECTOR` is a `List`.  An element access out of range is undefined behaviour
  in the source and makes the embedded function return an error.  A freshly allocated
  `Dvector` holds no values: its elements are `none` until they are assigned.
* `VectorXd state` and `VectorXd coeffs` have the fixed lengths 8 and 4 the caller gives
  them, so they are functions on `Fin 8` and `Fin 4`.
* The external optimiser `CppAD::ipopt::solve` is an arbitrary function of its arguments.
  It calls the evaluator with a decision vector of length `n_vars` and an `fg` of length
  `1 + n_constraints`; the theorems about `FG_eval` assume these two lengths.
-/

namespace MPC

/-! ## Globals of `MPC.cpp` -/

/-- Source: `size_t N = 10;` -/
def N : Nat := 10

/-- Source: `double dt = 0.1;` -/
def dt {α : Type} [Field α] : α := 0.1

/-- Conversion `static_cast<int>` of a rational: rounding toward zero. -/
def static_cast_int (q : ℚ) : ℤ := if 0 ≤ q then ⌊q⌋ else ⌈q⌉

/-- Source: `int n_delay = static_cast<int>(0.1/dt);` (the value is not negative). -/
def n_delay : Nat := (static_cast_int ((0.1 : ℚ) / dt)).toNat

/-- Source: `const double Lf = 2.67;` -/
def Lf {α : Type} [Field α] : α := 2.67

/-- Source: `double ref_v = 60;` -/
def ref_v {α : Type} [Field α] : α := 60

/-- Source: `size_t x_start = 0;` -/
def x_start : Nat := 0

/-- Source: `size_t y_start = x_start + N;` -/
def y_start (N : Nat) : Nat := x_start + N

/-- Source: `size_t psi_start = y_start + N;` -/
def psi_start (N : Nat) : Nat := y_start N + N

/-- Source: `size_t v_start = psi_start + N;` -/
def v_start (N : Nat) : Nat := psi_start N + N

/-- Source: `size_t cte_start = v_start + N;` -/
def cte_start (N : Nat) : Nat := v_start N + N

/-- Source: `size_t epsi_start = cte_start + N;` -/
def epsi_start (N : Nat) : Nat := cte_start N + N

/-- Source: `size_t delta_start = epsi_start + N;` -/
def delta_start (N : Nat) : Nat := epsi_start N + N

/-- Source: `size_t a_start = delta_start + N - 1;` -/
def a_start (N : Nat) : Nat := delta_start N + N - 1

/-- Source: `double kCTE = 600;` -/
def kCTE {α : Type} [Field α] : α := 600

/-- Source: `double kEPSI = 600;` -/
def kEPSI {α : Type} [Field α] : α := 600

/-- Source: `double kRefV = 1.0;` -/
def kRefV {α : Type} [Field α] : α := 1.0

/-- Source: `double kDelta = 1.0;` -/
def kDelta {α : Type} [Field α] : α := 1.0

/-- Source: `double kA = 1.0;` -/
def kA {α : Type} [Field α] : α := 1.0

/-- Source: `double kDeltaCrossA = 300;` -/
def kDeltaCrossA {α : Type} [Field α] : α := 300

/-- Source: `double kSeqDelta = 800;` -/
def kSeqDelta {α : Type} [Field α] : α := 800

/-- Source: `double kSeqA = 50;` -/
def kSeqA {α : Type} [Field α] : α := 50

/-- Local of `MPC::Solve`: `size_t n_vars = 6*N + 2*(N-1);` -/
def n_vars (N : Nat) : Nat := 6 * N + 2 * (N - 1)

/-- Local of `MPC::Solve`: `size_t n_constraints = 6*N;` -/
def n_constraints (N : Nat) : Nat := 6 * N

/-- The eight blocks of the decision vector as (offset, length) pairs, in the order of the
source: six state blocks of length `N`, then the two actuator blocks of length `N - 1`. -/
def blocks (N : Nat) : List (Nat × Nat) :=
  [(x_start, N), (y_start N, N), (psi_start N, N), (v_start N, N), (cte_start N, N),
   (epsi_start N, N), (delta_start N, N - 1), (a_start N, N - 1)]

/-! ## Vectors and loops -/

/-- What makes a run of the source undefined: an element access out of range, or the use
of a vector element that was never assigned. -/
inductive Fault where
  | out_of_range
  | unset
  deriving DecidableEq

section Vectors

variable {β σ : Type}

/-- Element read `v[i]`; an error when `i` is out of range. -/
def rd (v : List β) (i : Nat) : Except Fault β :=
  match v[i]? with
  | some a => Except.ok a
  | none => Except.error Fault.out_of_range

/-- Element assignment `v[i] = a`; an error when `i` is out of range. -/
def wr (v : List β) (i : Nat) (a : β) : Except Fault (List β) :=
  if i < v.length then Except.ok (v.set i a) else Except.error Fault.out_of_range

/-- The loop `for (int t = lo; t < lo + count; ++t) body`, threading the state `s`;
`for (int t = lo; t < hi; ++t)` is `forLoop body lo (hi - lo)`. -/
def forLoop (body : Nat → σ → Except Fault σ) : Nat → Nat → σ → Except Fault σ
  | _, 0, s => Except.ok s
  | lo, count + 1, s => do
    let s ← body lo s
    forLoop body (lo + 1) count s

/-- Allocation `Dvector v(n)`: `n` elements, none of them assigned yet. -/
def Dvector (β : Type) (n : Nat) : List (Option β) := List.replicate n none

/-- The values of a vector handed on to a consumer; an error when an element was never
assigned. -/
def values : List (Option β) → Except Fault (List β)
  | [] => Except.ok []
  | none :: _ => Except.error Fault.unset
  | some a :: rest => do
    let l ← values rest
    pure (a :: l)

end Vectors

/-! ## `FG_eval::operator()` -/

section Evaluator

variable {α : Type} [Field α]

/-- Body of the first cost loop (source lines 69-73). -/
def cost_reference_step (N : Nat) (vars : List α) (t : Nat) (fg : List α) :
    Except Fault (List α) := do
  let fg ← wr fg 0 ((← rd fg 0) + kCTE * (← rd vars (cte_start N + t)) ^ 2)
  let fg ← wr fg 0 ((← rd fg 0) + kEPSI * (← rd vars (epsi_start N + t)) ^ 2)
  wr fg 0 ((← rd fg 0) + kRefV * ((← rd vars (v_start N + t)) - ref_v) ^ 2)

/-- Body of the second cost loop (source lines 76-81). -/
def cost_actuator_step (N : Nat) (vars : List α) (t : Nat) (fg : List α) :
    Except Fault (List α) := do
  let fg ← wr fg 0 ((← rd fg 0) + kDelta * (← rd vars (delta_start N + t)) ^ 2)
  let fg ← wr fg 0 ((← rd fg 0) + kA * (← rd vars (a_start N + t)) ^ 2)
  wr fg 0 ((← rd fg 0) +
    kDeltaCrossA * ((← rd vars (delta_start N + t)) * (← rd vars (v_start N + t))) ^ 2)

/-- Body of the third cost loop (source lines 84-87). -/
def cost_sequential_step (N : Nat) (vars : List α) (t : Nat) (fg : List α) :
    Except Fault (List α) := do
  let fg ← wr fg 0 ((← rd fg 0) +
    kSeqDelta * ((← rd vars (delta_start N + t + 1)) - (← rd vars (delta_start N + t))) ^ 2)
  wr fg 0 ((← rd fg 0) +
    kSeqA * ((← rd vars (a_start N + t + 1)) - (← rd vars (a_start N + t))) ^ 2)

/-- Body of the constraint loop (source lines 104-149). -/
def constraint_step (cos sin atan : α → α) (N n_delay : Nat) (coeffs : Fin 4 → α)
    (vars : List α) (t : Nat) (fg : List α) : Except Fault (List α) := do
  let x1 ← rd vars (x_start + t)
  let y1 ← rd vars (y_start N + t)
  let psi1 ← rd vars (psi_start N + t)
  let v1 ← rd vars (v_start N + t)
  let cte1 ← rd vars (cte_start N + t)
  let epsi1 ← rd vars (epsi_start N + t)
  let x0 ← rd vars (x_start + t - 1)
  let y0 ← rd vars (y_start N + t - 1)
  let psi0 ← rd vars (psi_start N + t - 1)
  let v0 ← rd vars (v_start N + t - 1)
  let _cte0 ← rd vars (cte_start N + t - 1)
  let epsi0 ← rd vars (epsi_start N + t - 1)
  let delta ← rd vars (delta_start N + t - 1)
  let a ← rd vars (a_start N + t - 1)
  let delta ← if t > n_delay then rd vars (delta_start N + t - 1 - n_delay) else pure delta
  let a ← if t > n_delay then rd vars (a_start N + t - 1 - n_delay) else pure a
  let f0 := coeffs 0 + coeffs 1 * x0 + coeffs 2 * x0 ^ 2 + coeffs 3 * x0 ^ 3
  let psides0 := atan (coeffs 1 + 2 * coeffs 2 * x0 + 3 * coeffs 3 * x0 ^ 2)
  let fg ← wr fg (1 + x_start + t) (x1 - (x0 + v0 * cos psi0 * dt))
  let fg ← wr fg (1 + y_start N + t) (y1 - (y0 + v0 * sin psi0 * dt))
  let fg ← wr fg (1 + psi_start N + t) (psi1 - (psi0 - v0 * delta / Lf * dt))
  let fg ← wr fg (1 + v_start N + t) (v1 - (v0 + a * dt))
  let fg ← wr fg (1 + cte_start N + t) (cte1 - ((f0 - y0) + (v0 * sin epsi0 * dt)))
  wr fg (1 + epsi_start N + t) (epsi1 - ((psi0 - psides0) - v0 * delta / Lf * dt))

/-- Source: `void FG_eval::operator()(ADvector& fg, const ADvector& vars)`.  The result is
the content of `fg` on return. -/
def FG_eval (cos sin atan : α → α) (N n_delay : Nat) (coeffs : Fin 4 → α)
    (fg vars : List α) : Except Fault (List α) := do
  let fg ← wr fg 0 0
  let fg ← forLoop (cost_reference_step N vars) 0 (N - 0) fg
  let fg ← forLoop (cost_actuator_step N vars) 0 (N - 1 - 0) fg
  let fg ← forLoop (cost_sequential_step N vars) 0 (N - 2 - 0) fg
  let fg ← wr fg (1 + x_start) (← rd vars x_start)
  let fg ← wr fg (1 + y_start N) (← rd vars (y_start N))
  let fg ← wr fg (1 + psi_start N) (← rd vars (psi_start N))
  let fg ← wr fg (1 + v_start N) (← rd vars (v_start N))
  let fg ← wr fg (1 + cte_start N) (← rd vars (cte_start N))
  let fg ← wr fg (1 + epsi_start N) (← rd vars (epsi_start N))
  forLoop (constraint_step cos sin atan N n_delay coeffs vars) 1 (N - 1) fg

/-! ### Closed forms used to state what `FG_eval` computes

They are related to `FG_eval` by the theorem `FG_eval_spec`. -/

/-- Closed form of the objective: the three sums the cost loops accumulate. -/
def cost_sum (N : Nat) (vars : List α) : α :=
  (∑ t in Finset.range N,
      (kCTE * (vars.getD (cte_start N + t) 0) ^ 2 + kEPSI * (vars.getD (epsi_start N + t) 0) ^ 2 +
        kRefV * (vars.getD (v_start N + t) 0 - ref_v) ^ 2)) +
    (∑ t in Finset.range (N - 1),
      (kDelta * (vars.getD (delta_start N + t) 0) ^ 2 + kA * (vars.getD (a_start N + t) 0) ^ 2 +
        kDeltaCrossA * (vars.getD (delta_start N + t) 0 * vars.getD (v_start N + t) 0) ^ 2)) +
    (∑ t in Finset.range (N - 2),
      (kSeqDelta * (vars.getD (delta_start N + t + 1) 0 - vars.getD (delta_start N + t) 0) ^ 2 +
        kSeqA * (vars.getD (a_start N + t + 1) 0 - vars.getD (a_start N + t) 0) ^ 2))

/-- Index, inside the two actuator blocks, of the actuator values the constraint loop
uses at step `t`: the outcome of the test `t > n_delay` of source line 123. -/
def actuator_index (n_delay t : Nat) : Nat :=
  if t > n_delay then t - 1 - n_delay else t - 1

/-- Closed form of the six values the constraint loop writes at step `t`, in the order
x, y, psi, v, cte, epsi. -/
def residuals (cos sin atan : α → α) (N n_delay : Nat) (coeffs : Fin 4 → α)
    (vars : List α) (t : Nat) : List α :=
  let x1 := vars.getD (x_start + t) 0
  let y1 := vars.getD (y_start N + t) 0
  let psi1 := vars.getD (psi_start N + t) 0
  let v1 := vars.getD (v_start N + t) 0
  let cte1 := vars.getD (cte_start N + t) 0
  let epsi1 := vars.getD (epsi_start N + t) 0
  let x0 := vars.getD (x_start + t - 1) 0
  let y0 := vars.getD (y_start N + t - 1) 0
  let psi0 := vars.getD (psi_start N + t - 1) 0
  let v0 := vars.getD (v_start N + t - 1) 0
  let epsi0 := vars.getD (epsi_start N + t - 1) 0
  let delta := vars.getD (delta_start N + actuator_index n_delay t) 0
  let a := vars.getD (a_start N + actuator_index n_delay t) 0
  let f0 := coeffs 0 + coeffs 1 * x0 + coeffs 2 * x0 ^ 2 + coeffs 3 * x0 ^ 3
  let psides0 := atan (coeffs 1 + 2 * coeffs 2 * x0 + 3 * coeffs 3 * x0 ^ 2)
  [x1 - (x0 + v0 * cos psi0 * dt), y1 - (y0 + v0 * sin psi0 * dt),
   psi1 - (psi0 - v0 * delta / Lf * dt), v1 - (v0 + a * dt),
   cte1 - ((f0 - y0) + (v0 * sin epsi0 * dt)),
   epsi1 - ((psi0 - psides0) - v0 * delta / Lf * dt)]

/-- The six entries of `fg` that belong to step `t`: `fg[1 + x_start + t]`, ...,
`fg[1 + epsi_start + t]`. -/
def rows (fg : List α) (N t : Nat) : List (Option α) :=
  [fg[1 + x_start + t]?, fg[1 + y_start N + t]?, fg[1 + psi_start N + t]?,
   fg[1 + v_start N + t]?, fg[1 + cte_start N + t]?, fg[1 + epsi_start N + t]?]

/-- The six entries of the decision vector that belong to step `t`. -/
def state_at (vars : List α) (N t : Nat) : List α :=
  [vars.getD (x_start + t) 0, vars.getD (y_start N + t) 0, vars.getD (psi_start N + t) 0,
   vars.getD (v_start N + t) 0, vars.getD (cte_start N + t) 0, vars.getD (epsi_start N + t) 0]

end Evaluator

/-! ## `MPC::Solve` -/

/-- Status reported by the external optimiser: success or some kind of failure. -/
inductive status_type where
  | success
  | failure (kind : Nat)
  deriving DecidableEq

/-- The fields of `CppAD::ipopt::solve_result<Dvector>` that `MPC::Solve` reads. -/
structure solve_result (α : Type) where
  status : status_type
  x : List α
  obj_value : α

/-- The arguments `MPC::Solve` hands to `CppAD::ipopt::solve`. -/
structure solve_args (α : Type) where
  options : String
  xi : List α
  xl : List α
  xu : List α
  gl : List α
  gu : List α
  fg_eval : List α → List α → Except Fault (List α)

section Solve

variable {α : Type} [Field α]

/-- Initial value of the independent variables (source lines 184-196). -/
def Solve_vars (N : Nat) (state : Fin 8 → α) : Except Fault (List (Option α)) := do
  let x := state 0
  let y := state 1
  let psi := state 2
  let v := state 3
  let cte := state 4
  let epsi := state 5
  let delta := state 6
  let a := state 7
  let vars := Dvector α (n_vars N)
  let vars ← forLoop (fun i vars => wr vars i (some 0)) 0 (n_vars N - 0) vars
  let vars ← wr vars x_start (some x)
  let vars ← wr vars (y_start N) (some y)
  let vars ← wr vars (psi_start N) (some psi)
  let vars ← wr vars (v_start N) (some v)
  let vars ← wr vars (cte_start N) (some cte)
  let vars ← wr vars (epsi_start N) (some epsi)
  let vars ← wr vars (delta_start N) (some delta)
  wr vars (a_start N) (some a)

/-- Body of a loop that assigns `lower` and `upper` to element `i` of the two bound
vectors. -/
def bounds_step (lower upper : α) (i : Nat) (b : List (Option α) × List (Option α)) :
    Except Fault (List (Option α) × List (Option α)) := do
  let lowerbound ← wr b.1 i (some lower)
  let upperbound ← wr b.2 i (some upper)
  pure (lowerbound, upperbound)

/-- Lower and upper limits for the variables (source lines 198-219): the pair
`(vars_lowerbound, vars_upperbound)`. -/
def Solve_vars_bounds (N : Nat) : Except Fault (List (Option α) × List (Option α)) := do
  let vars_lowerbound := Dvector α (n_vars N)
  let vars_upperbound := Dvector α (n_vars N)
  let b ← forLoop (bounds_step (-1.0e19) 1.0e19) 0 (delta_start N - 0)
    (vars_lowerbound, vars_upperbound)
  let b ← forLoop (bounds_step (-0.436332) 0.436332) (delta_start N)
    (a_start N - delta_start N) b
  forLoop (bounds_step (-1.0) 1.0) (a_start N) (n_vars N - a_start N) b

/-- Lower and upper limits for the constraints (source lines 223-241): the pair
`(constraints_lowerbound, constraints_upperbound)`. -/
def Solve_constraints_bounds (N : Nat) (state : Fin 8 → α) :
    Except Fault (List (Option α) × List (Option α)) := do
  let x := state 0
  let y := state 1
  let psi := state 2
  let v := state 3
  let cte := state 4
  let epsi := state 5
  let constraints_lowerbound := Dvector α (n_constraints N)
  let constraints_upperbound := Dvector α (n_constraints N)
  let b ← forLoop (bounds_step 0 0) 0 (n_constraints N - 0)
    (constraints_lowerbound, constraints_upperbound)
  let constraints_lowerbound := b.1
  let constraints_upperbound := b.2
  let constraints_lowerbound ← wr constraints_lowerbound x_start (some x)
  let constraints_lowerbound ← wr constraints_lowerbound (y_start N) (some y)
  let constraints_lowerbound ← wr constraints_lowerbound (psi_start N) (some psi)
  let constraints_lowerbound ← wr constraints_lowerbound (v_start N) (some v)
  let constraints_lowerbound ← wr constraints_lowerbound (cte_start N) (some cte)
  let constraints_lowerbound ← wr constraints_lowerbound (epsi_start N) (some epsi)
  let constraints_upperbound ← wr constraints_upperbound x_start (some x)
  let constraints_upperbound ← wr constraints_upperbound (y_start N) (some y)
  let constraints_upperbound ← wr constraints_upperbound (psi_start N) (some psi)
  let constraints_upperbound ← wr constraints_upperbound (v_start N) (some v)
  let constraints_upperbound ← wr constraints_upperbound (cte_start N) (some cte)
  let constraints_upperbound ← wr constraints_upperbound (epsi_start N) (some epsi)
  pure (constraints_lowerbound, constraints_upperbound)

/-- The option string `MPC::Solve` builds (source lines 248-259). -/
def Solve_options : String :=
  "" ++ "Integer print_level  0\n" ++ "Sparse  true        forward\n" ++
    "Sparse  true        reverse\n" ++ "Numeric max_cpu_time          0.5\n"

/-- Everything `MPC::Solve` passes to the optimiser (source lines 184-267). -/
def Solve_args (cos sin atan : α → α) (N n_delay : Nat) (state : Fin 8 → α)
    (coeffs : Fin 4 → α) : Except Fault (solve_args α) := do
  let vars ← Solve_vars N state
  let vb ← Solve_vars_bounds N
  let cb ← Solve_constraints_bounds N state
  let fg_eval := FG_eval cos sin atan N n_delay coeffs
  let xi ← values vars
  let xl ← values vb.1
  let xu ← values vb.2
  let gl ← values cb.1
  let gu ← values cb.2
  pure ⟨Solve_options, xi, xl, xu, gl, gu, fg_eval⟩

/-- Body of the loop that appends the predicted points (source lines 286-289). -/
def result_step (N : Nat) (x : List α) (i : Nat) (result : List α) :
    Except Fault (List α) := do
  let result := result ++ [← rd x (x_start + i)]
  let result := result ++ [← rd x (y_start N + i)]
  pure result

/-- What `MPC::Solve` does with the optimiser's result (source lines 269-290). -/
def Solve_result (N : Nat) (solution : solve_result α) : Except Fault (List α) := do
  let ok := true
  let _ok := ok && decide (solution.status = status_type.success)
  let _cost := solution.obj_value
  let result : List α := []
  let result := result ++ [← rd solution.x (delta_start N)]
  let result := result ++ [← rd solution.x (a_start N)]
  let result ← forLoop (result_step N solution.x) 1 (N - 1) result
  pure result

/-- Source: `std::vector<double> MPC::Solve(const VectorXd &state, const VectorXd &coeffs)`,
with the external optimiser `solve` as a parameter. -/
def Solve (solve : solve_args α → solve_result α) (cos sin atan : α → α) (N n_delay : Nat)
    (state : Fin 8 → α) (coeffs : Fin 4 → α) : Except Fault (List α) := do
  let args ← Solve_args cos sin atan N n_delay state coeffs
  let solution := solve args
  Solve_result N solution

/-! ### Closed forms used to state what `Solve` assembles

They are related to `Solve` by the theorem `Solve_args_ok`. -/

/-- Closed form of element `j` of the initial point: the state and the previous actuator
values at the eight offsets, 0 elsewhere. -/
def initial_value (N : Nat) (state : Fin 8 → α) (j : Nat) : α :=
  if j = x_start then state 0 else if j = y_start N then state 1
  else if j = psi_start N then state 2 else if j = v_start N then state 3
  else if j = cte_start N then state 4 else if j = epsi_start N then state 5
  else if j = delta_start N then state 6 else if j = a_start N then state 7 else 0

/-- Closed form of element `j` of `vars_lowerbound`. -/
def vars_lower (N : Nat) (j : Nat) : α :=
  if j < delta_start N then -1.0e19 else if j < a_start N then -0.436332 else -1.0

/-- Closed form of element `j` of `vars_upperbound`. -/
def vars_upper (N : Nat) (j : Nat) : α :=
  if j < delta_start N then 1.0e19 else if j < a_start N then 0.436332 else 1.0

/-- Closed form of element `j` of `constraints_lowerbound` and of
`constraints_upperbound`. -/
def constraints_bound (N : Nat) (state : Fin 8 → α) (j : Nat) : α :=
  if j = x_start then state 0 else if j = y_start N then state 1
  else if j = psi_start N then state 2 else if j = v_start N then state 3
  else if j = cte_start N then state 4 else if j = epsi_start N then state 5 else 0

end Solve

/-! ## Telemetry handler of `main.cpp` -/

section Handler

variable {α : Type}

/-- The loop `for (int i=2; i<result.size(); i+=2)` of the handler (source lines 108-112),
from index `i` on, with the two lists built so far. -/
def mpc_vals_loop (result : List α) (i : Nat) (mpc_x_vals mpc_y_vals : List α) :
    Except Fault (List α × List α) :=
  if i < result.length then
    match rd result i, rd result (i + 1) with
    | Except.ok xv, Except.ok yv =>
      mpc_vals_loop result (i + 2) (mpc_x_vals ++ [xv]) (mpc_y_vals ++ [yv])
    | _, _ => Except.error Fault.out_of_range
  else Except.ok (mpc_x_vals, mpc_y_vals)
termination_by result.length - i
decreasing_by omega

/-- The predicted trajectory `(mpc_x_vals, mpc_y_vals)` the handler reads out of the list
returned by `Solve`. -/
def mpc_vals (result : List α) : Except Fault (List α × List α) :=
  mpc_vals_loop result 2 [] []

end Handler

/-! ## Globals and waypoint handling of `main.cpp` -/

/-- Source: `size_t MAX_POLY_FIT_NUM = 10;` -/
def MAX_POLY_FIT_NUM : Nat := 10

section Telemetry

variable {α : Type} [Field α]

/-- Source: `double deg2rad(double x) { return x * pi() / 180; }`, with the value `M_PI`
of `pi()` as the parameter `pi`. -/
def deg2rad (pi x : α) : α := x * pi / 180

/-- Body of the waypoint loop (source lines 65-70); `b` is the pair
`(trans_ptsx, trans_ptsy)`. -/
def transform_step (cos sin : α → α) (ptsx ptsy : List α) (px py psi : α) (i : Nat)
    (b : List (Option α) × List (Option α)) :
    Except Fault (List (Option α) × List (Option α)) := do
  let dx := (← rd ptsx i) - px
  let dy := (← rd ptsy i) - py
  let trans_ptsx ← wr b.1 i (some (dx * cos (-psi) - dy * sin (-psi)))
  let trans_ptsy ← wr b.2 i (some (dx * sin (-psi) + dy * cos (-psi)))
  pure (trans_ptsx, trans_ptsy)

/-- Transform of the waypoints to the vehicle frame (source lines 62-70): the pair
`(trans_ptsx, trans_ptsy)`. -/
def transform_waypoints (cos sin : α → α) (ptsx ptsy : List α) (px py psi : α) :
    Except Fault (List (Option α) × List (Option α)) := do
  let n_pts := min ptsx.length MAX_POLY_FIT_NUM
  let trans_ptsx := Dvector α n_pts
  let trans_ptsy := Dvector α n_pts
  forLoop (transform_step cos sin ptsx ptsy px py psi) 0 (n_pts - 0) (trans_ptsx, trans_ptsy)

/-- Modelled from the spec: `polyeval` of `helpers.h`, a file of the repository that is not
among the sources.  The spec calls it `evaluate(c, x)` and gives the fitted curve as
`c0 + c1·x + c2·x² + c3·x³`. -/
def polyeval (coeffs : Fin 4 → α) (x : α) : α :=
  coeffs 0 + coeffs 1 * x + coeffs 2 * x ^ 2 + coeffs 3 * x ^ 3

/-- The state the handler builds for `Solve` (source lines 79-84). -/
def telemetry_state (atan : α → α) (coeffs : Fin 4 → α) (v steer_value throttle_value : α) :
    Fin 8 → α :=
  let cte := polyeval coeffs 0
  let epsi := -atan (coeffs 1)
  ![0, 0, 0, v, cte, epsi, steer_value, throttle_value]

/-- The two commands the handler puts in the reply (source lines 89-97): the pair
`(msgJson["steering_angle"], msgJson["throttle"])`. -/
def command (pi : α) (result : List α) : Except Fault (α × α) := do
  let steer_value ← rd result 0
  let throttle_value ← rd result 1
  pure (steer_value / deg2rad pi 25, throttle_value)

/-- The telemetry branch of the handler (source lines 50-115), from the decoded message to
the steering command, the throttle command and the predicted trajectory.  `polyfit` of
`helpers.h` is not among the sources and is a parameter. -/
def on_telemetry (solve : solve_args α → solve_result α)
    (polyfit : List α → List α → Nat → Fin 4 → α) (cos sin atan : α → α) (pi : α)
    (N n_delay : Nat) (ptsx ptsy : List α) (px py psi v steer_value throttle_value : α) :
    Except Fault ((α × α) × (List α × List α)) := do
  let trans ← transform_waypoints cos sin ptsx ptsy px py psi
  let trans_ptsx ← values trans.1
  let trans_ptsy ← values trans.2
  let coeffs := polyfit trans_ptsx trans_ptsy 3
  let state := telemetry_state atan coeffs v steer_value throttle_value
  let result ← Solve solve cos sin atan N n_delay state coeffs
  let steer_throttle ← command pi result
  let mpc_xy ← mpc_vals result
  pure (steer_throttle, mpc_xy)

end Telemetry

/-! ## Index traces of `FG_eval::operator()` -/

/-- Indices of `vars` read by the three cost loops (source lines 69-87), in source order. -/
def cost_reads (N : Nat) : List Nat :=
  (List.range' 0 (N - 0)).flatMap (fun t => [cte_start N + t, epsi_start N + t, v_start N + t]) ++
  (List.range' 0 (N - 1 - 0)).flatMap (fun t =>
    [delta_start N + t, a_start N + t, delta_start N + t, v_start N + t]) ++
  (List.range' 0 (N - 2 - 0)).flatMap (fun t =>
    [delta_start N + t + 1, delta_start N + t, a_start N + t + 1, a_start N + t])

/-- Indices of `vars` read by iteration `t` of the constraint loop (source lines 106-126), in
source order; the last two are read only when `t > n_delay`. -/
def constraint_step_reads (N n_delay t : Nat) : List Nat :=
  [x_start + t, y_start N + t, psi_start N + t, v_start N + t, cte_start N + t,
   epsi_start N + t, x_start + t - 1, y_start N + t - 1, psi_start N + t - 1,
   v_start N + t - 1, cte_start N + t - 1, epsi_start N + t - 1, delta_start N + t - 1,
   a_start N + t - 1] ++
  (if t > n_delay then [delta_start N + t - 1 - n_delay, a_start N + t - 1 - n_delay] else [])

/-- Indices of `fg` written by iteration `t` of the constraint loop (source lines 143-148). -/
def constraint_step_writes (N t : Nat) : List Nat :=
  [1 + x_start + t, 1 + y_start N + t, 1 + psi_start N + t, 1 + v_start N + t,
   1 + cte_start N + t, 1 + epsi_start N + t]

/-- All indices of `vars` that `FG_eval` reads, in source order. -/
def FG_eval_reads (N n_delay : Nat) : List Nat :=
  cost_reads N ++
  [x_start, y_start N, psi_start N, v_start N, cte_start N, epsi_start N] ++
  (List.range' 1 (N - 1)).flatMap (constraint_step_reads N n_delay)

/-- All indices of `fg` that the constraint part of `FG_eval` writes (source lines 97-149),
in source order. -/
def FG_eval_writes (N : Nat) : List Nat :=
  [1 + x_start, 1 + y_start N, 1 + psi_start N, 1 + v_start N, 1 + cte_start N,
   1 + epsi_start N] ++
  (List.range' 1 (N - 1)).flatMap (constraint_step_writes N)

/-! ## `FG_eval::operator()` with a record of its element accesses -/

/-- Record of the element accesses of a run: the indices of `vars` read and the indices of
`fg` assigned, each in the order of execution. -/
structure Trace where
  reads : List Nat
  writes : List Nat
  deriving DecidableEq

/-- Indices of `fg` assigned by the cost part (source lines 66-87): all are index 0. -/
def cost_writes (N : Nat) : List Nat :=
  [0] ++ (List.range' 0 (N - 0)).flatMap (fun _ => [0, 0, 0]) ++
  (List.range' 0 (N - 1 - 0)).flatMap (fun _ => [0, 0, 0]) ++
  (List.range' 0 (N - 2 - 0)).flatMap (fun _ => [0, 0])

/-- Element read `vars[i]`, recorded in the trace. -/
def rd_vars {β : Type} (vars : List β) (i : Nat) (tr : Trace) : Except Fault (β × Trace) := do
  let a ← rd vars i
  pure (a, ⟨tr.reads ++ [i], tr.writes⟩)

/-- Element assignment `fg[i] = a`, recorded in the trace. -/
def wr_fg {β : Type} (fg : List β) (i : Nat) (a : β) (tr : Trace) :
    Except Fault (List β × Trace) := do
  let fg ← wr fg i a
  pure (fg, ⟨tr.reads, tr.writes ++ [i]⟩)

section Traced

variable {α : Type} [Field α]

/-- Body of the first cost loop (source lines 69-73), accesses recorded. -/
def cost_reference_step_traced (N : Nat) (vars : List α) (t : Nat) (s : List α × Trace) :
    Except Fault (List α × Trace) := do
  let (fg, tr) := s
  let f ← rd fg 0
  let (cte, tr) ← rd_vars vars (cte_start N + t) tr
  let (fg, tr) ← wr_fg fg 0 (f + kCTE * cte ^ 2) tr
  let f ← rd fg 0
  let (epsi, tr) ← rd_vars vars (epsi_start N + t) tr
  let (fg, tr) ← wr_fg fg 0 (f + kEPSI * epsi ^ 2) tr
  let f ← rd fg 0
  let (v, tr) ← rd_vars vars (v_start N + t) tr
  wr_fg fg 0 (f + kRefV * (v - ref_v) ^ 2) tr

/-- Body of the second cost loop (source lines 76-81), accesses recorded. -/
def cost_actuator_step_traced (N : Nat) (vars : List α) (t : Nat) (s : List α × Trace) :
    Except Fault (List α × Trace) := do
  let (fg, tr) := s
  let f ← rd fg 0
  let (delta, tr) ← rd_vars vars (delta_start N + t) tr
  let (fg, tr) ← wr_fg fg 0 (f + kDelta * delta ^ 2) tr
  let f ← rd fg 0
  let (a, tr) ← rd_vars vars (a_start N + t) tr
  let (fg, tr) ← wr_fg fg 0 (f + kA * a ^ 2) tr
  let f ← rd fg 0
  let (delta, tr) ← rd_vars vars (delta_start N + t) tr
  let (v, tr) ← rd_vars vars (v_start N + t) tr
  wr_fg fg 0 (f + kDeltaCrossA * (delta * v) ^ 2) tr

/-- Body of the third cost loop (source lines 84-87), accesses recorded. -/
def cost_sequential_step_traced (N : Nat) (vars : List α) (t : Nat) (s : List α × Trace) :
    Except Fault (List α × Trace) := do
  let (fg, tr) := s
  let f ← rd fg 0
  let (delta1, tr) ← rd_vars vars (delta_start N + t + 1) tr
  let (delta0, tr) ← rd_vars vars (delta_start N + t) tr
  let (fg, tr) ← wr_fg fg 0 (f + kSeqDelta * (delta1 - delta0) ^ 2) tr
  let f ← rd fg 0
  let (a1, tr) ← rd_vars vars (a_start N + t + 1) tr
  let (a0, tr) ← rd_vars vars (a_start N + t) tr
  wr_fg fg 0 (f + kSeqA * (a1 - a0) ^ 2) tr

/-- Body of the constraint loop (source lines 104-149), accesses recorded. -/
def constraint_step_traced (cos sin atan : α → α) (N n_delay : Nat) (coeffs : Fin 4 → α)
    (vars : List α) (t : Nat) (s : List α × Trace) : Except Fault (List α × Trace) := do
  let (fg, tr) := s
  let (x1, tr) ← rd_vars vars (x_start + t) tr
  let (y1, tr) ← rd_vars vars (y_start N + t) tr
  let (psi1, tr) ← rd_vars vars (psi_start N + t) tr
  let (v1, tr) ← rd_vars vars (v_start N + t) tr
  let (cte1, tr) ← rd_vars vars (cte_start N + t) tr
  let (epsi1, tr) ← rd_vars vars (epsi_start N + t) tr
  let (x0, tr) ← rd_vars vars (x_start + t - 1) tr
  let (y0, tr) ← rd_vars vars (y_start N + t - 1) tr
  let (psi0, tr) ← rd_vars vars (psi_start N + t - 1) tr
  let (v0, tr) ← rd_vars vars (v_start N + t - 1) tr
  let (_cte0, tr) ← rd_vars vars (cte_start N + t - 1) tr
  let (epsi0, tr) ← rd_vars vars (epsi_start N + t - 1) tr
  let (delta, tr) ← rd_vars vars (delta_start N + t - 1) tr
  let (a, tr) ← rd_vars vars (a_start N + t - 1) tr
  let (delta, tr) ← if t > n_delay then rd_vars vars (delta_start N + t - 1 - n_delay) tr
    else pure (delta, tr)
  let (a, tr) ← if t > n_delay then rd_vars vars (a_start N + t - 1 - n_delay) tr
    else pure (a, tr)
  let f0 := coeffs 0 + coeffs 1 * x0 + coeffs 2 * x0 ^ 2 + coeffs 3 * x0 ^ 3
  let psides0 := atan (coeffs 1 + 2 * coeffs 2 * x0 + 3 * coeffs 3 * x0 ^ 2)
  let (fg, tr) ← wr_fg fg (1 + x_start + t) (x1 - (x0 + v0 * cos psi0 * dt)) tr
  let (fg, tr) ← wr_fg fg (1 + y_start N + t) (y1 - (y0 + v0 * sin psi0 * dt)) tr
  let (fg, tr) ← wr_fg fg (1 + psi_start N + t) (psi1 - (psi0 - v0 * delta / Lf * dt)) tr
  let (fg, tr) ← wr_fg fg (1 + v_start N + t) (v1 - (v0 + a * dt)) tr
  let (fg, tr) ← wr_fg fg (1 + cte_start N + t)
    (cte1 - ((f0 - y0) + (v0 * sin epsi0 * dt))) tr
  wr_fg fg (1 + epsi_start N + t) (epsi1 - ((psi0 - psides0) - v0 * delta / Lf * dt)) tr

/-- Source: `void FG_eval::operator()(ADvector& fg, const ADvector& vars)`, statement by
statement as `FG_eval`, with every read `vars[i]` and every assignment `fg[i] = ...`
recorded in the trace.  The result is the content of `fg` on return and the trace. -/
def FG_eval_traced (cos sin atan : α → α) (N n_delay : Nat) (coeffs : Fin 4 → α)
    (fg vars : List α) (tr : Trace) : Except Fault (List α × Trace) := do
  let (fg, tr) ← wr_fg fg 0 0 tr
  let (fg, tr) ← forLoop (cost_reference_step_traced N vars) 0 (N - 0) (fg, tr)
  let (fg, tr) ← forLoop (cost_actuator_step_traced N vars) 0 (N - 1 - 0) (fg, tr)
  let (fg, tr) ← forLoop (cost_sequential_step_traced N vars) 0 (N - 2 - 0) (fg, tr)
  let (x, tr) ← rd_vars vars x_start tr
  let (fg, tr) ← wr_fg fg (1 + x_start) x tr
  let (y, tr) ← rd_vars vars (y_start N) tr
  let (fg, tr) ← wr_fg fg (1 + y_start N) y tr
  let (psi, tr) ← rd_vars vars (psi_start N) tr
  let (fg, tr) ← wr_fg fg (1 + psi_start N) psi tr
  let (v, tr) ← rd_vars vars (v_start N) tr
  let (fg, tr) ← wr_fg fg (1 + v_start N) v tr
  let (cte, tr) ← rd_vars vars (cte_start N) tr
  let (fg, tr) ← wr_fg fg (1 + cte_start N) cte tr
  let (epsi, tr) ← rd_vars vars (epsi_start N) tr
  let (fg, tr) ← wr_fg fg (1 + epsi_start N) epsi tr
  forLoop (constraint_step_traced cos sin atan N n_delay coeffs vars) 1 (N - 1) (fg, tr)

end Traced

/-! ## The optimisation problem -/

section Problem

variable {α : Type} [LinearOrderedField α]

/-- The content of `fg` after the evaluator passed to the optimiser ran on `vars`: the
objective at index 0 and constraint `k` at index `1 + k`. -/
def evaluate (args : solve_args α) (vars : List α) : Except Fault (List α) :=
  args.fg_eval (List.replicate (1 + args.gl.length) 0) vars

/-- The problem `Solve` poses through the arguments of `CppAD::ipopt::solve`: `vars` is
feasible when it has the length of the initial point, lies within the variable bounds
`xl`, `xu`, and every constraint value lies within the constraint bounds `gl`, `gu`. -/
def feasible (args : solve_args α) (vars : List α) : Prop :=
  vars.length = args.xi.length ∧
  (∀ j, j < vars.length →
    args.xl.getD j 0 ≤ vars.getD j 0 ∧ vars.getD j 0 ≤ args.xu.getD j 0) ∧
  ∃ fg, evaluate args vars = Except.ok fg ∧
    ∀ k, k < args.gl.length →
      args.gl.getD k 0 ≤ fg.getD (1 + k) 0 ∧ fg.getD (1 + k) 0 ≤ args.gu.getD k 0

/-- The objective value of `vars`: element 0 of what the evaluator leaves in `fg`. -/
def objective (args : solve_args α) (vars : List α) : Option α :=
  match evaluate args vars with
  | Except.ok fg => fg[0]?
  | Except.error _ => none

/-- The decision vector of length `n_vars N` whose element `j` is `f j`. -/
def decision_vector (N : Nat) (f : Nat → α) : List α := (List.range (n_vars N)).map f

/-- The straight-line decision vector of the end-to-end scenario for speed `v`:
`x[t] = t * v * dt`, `v[t] = v`, every other entry 0. -/
def straight_line (N : Nat) (v : α) : List α :=
  decision_vector N (fun j =>
    if j < y_start N then (j : α) * v * dt
    else if v_start N ≤ j ∧ j < cte_start N then v else 0)

end Problem

section Scenario

variable {α : Type} [LinearOrderedField α]

/-- The decision vector that holds full throttle from speed `v`: `throttle[t] = 1`,
`v[t] = v + t * dt`, `x[t] = t * v * dt + t (t - 1) / 2 * dt^2`, every other entry 0. -/
def full_throttle_line (N : Nat) (v : α) : List α :=
  decision_vector N (fun j =>
    if j < y_start N then (j : α) * v * dt + (j : α) * ((j : α) - 1) / 2 * dt ^ 2
    else if v_start N ≤ j ∧ j < cte_start N then v + ((j - v_start N : Nat) : α) * dt
    else if a_start N ≤ j then 1 else 0)

end Scenario


section Optimality

variable {α : Type} [LinearOrderedField α]

/-- The vector `w` solves the problem `args`: it is feasible, and no feasible vector has a
smaller objective value. -/
def optimal (args : solve_args α) (w : List α) : Prop :=
  feasible args w ∧
    ∀ w', feasible args w' → ∀ c c', objective args w = some c →
      objective args w' = some c' → c ≤ c'

end Optimality

/-! ## Layout -/

theorem y_start_eq (N : Nat) : y_start N = N := by simp [y_start, x_start]

theorem psi_start_eq (N : Nat) : psi_start N = 2 * N := by
  simp only [psi_start, y_start_eq]; omega

theorem v_start_eq (N : Nat) : v_start N = 3 * N := by
  simp only [v_start, psi_start_eq]; omega

theorem cte_start_eq (N : Nat) : cte_start N = 4 * N := by
  simp only [cte_start, v_start_eq]; omega

theorem epsi_start_eq (N : Nat) : epsi_start N = 5 * N := by
  simp only [epsi_start, cte_start_eq]; omega

theorem delta_start_eq (N : Nat) : delta_start N = 6 * N := by
  simp only [delta_start, epsi_start_eq]; omega

theorem a_start_eq (N : Nat) : a_start N = 7 * N - 1 := by
  simp only [a_start, delta_start_eq]; omega

theorem n_delay_eq : n_delay = 1 := by
  unfold n_delay static_cast_int dt
  norm_num

/-- C1: for every horizon length `N ≥ 2` the chained offset definitions give
`x_start = 0`, `y_start = N`, `psi_start = 2N`, `v_start = 3N`, `cte_start = 4N`,
`epsi_start = 5N`, `delta_start = 6N`, `a_start = 7N - 1`; the sizes of `Solve` are
`n_vars = 6N + 2(N-1)` and `n_constraints = 6N`; and the eight blocks tile `[0, n_vars)`:
an index lies below `n_vars` exactly when some block holds it, and each block ends at or
before the start of every later block. -/
theorem layout_tiles (N : Nat) (hN : 2 ≤ N) :
    x_start = 0 ∧ y_start N = N ∧ psi_start N = 2 * N ∧ v_start N = 3 * N ∧
    cte_start N = 4 * N ∧ epsi_start N = 5 * N ∧ delta_start N = 6 * N ∧
    a_start N = 7 * N - 1 ∧ n_vars N = 6 * N + 2 * (N - 1) ∧ n_constraints N = 6 * N ∧
    (∀ i, i < n_vars N ↔ ∃ b ∈ blocks N, b.1 ≤ i ∧ i < b.1 + b.2) ∧
    (blocks N).Pairwise (fun b c => b.1 + b.2 ≤ c.1) := by
  refine ⟨rfl, y_start_eq N, psi_start_eq N, v_start_eq N, cte_start_eq N, epsi_start_eq N,
    delta_start_eq N, a_start_eq N, rfl, rfl, ?_, ?_⟩
  · intro i
    simp only [blocks, List.mem_cons, List.mem_singleton, exists_eq_or_imp, List.not_mem_nil,
      false_and, exists_false, or_false, exists_eq_left, y_start_eq, psi_start_eq, v_start_eq,
      cte_start_eq, epsi_start_eq, delta_start_eq, a_start_eq, x_start, n_vars]
    omega
  · simp only [blocks, List.pairwise_cons, List.mem_cons, List.mem_singleton, forall_eq_or_imp,
      forall_eq, List.not_mem_nil, false_implies, implies_true, List.Pairwise.nil, and_true,
      y_start_eq, psi_start_eq, v_start_eq, cte_start_eq, epsi_start_eq, delta_start_eq,
      a_start_eq, x_start]
    omega

theorem layout_tiles_witness :
    2 ≤ 10 ∧ a_start 10 = 7 * 10 - 1 ∧ n_vars 10 = 6 * 10 + 2 * (10 - 1) :=
  ⟨by decide, (layout_tiles 10 (by decide)).2.2.2.2.2.2.2.1,
    (layout_tiles 10 (by decide)).2.2.2.2.2.2.2.2.1⟩

/-! ## Reads, writes and loops -/

section Tools

variable {β σ γ : Type}

theorem ok_bind (a : β) (f : β → Except Fault γ) : (Except.ok a >>= f) = f a := rfl

theorem pure_eq_ok (a : β) : (pure a : Except Fault β) = Except.ok a := rfl

theorem rd_ok [Zero β] (v : List β) (i : Nat) (h : i < v.length) :
    rd v i = Except.ok (v.getD i 0) := by
  simp [rd, List.getD_eq_getElem?_getD, List.getElem?_eq_getElem h]

theorem rd_of_get (v : List β) (i : Nat) (a : β) (h : v[i]? = some a) :
    rd v i = Except.ok a := by
  simp [rd, h]

theorem rd_set_self (v : List β) (i : Nat) (a : β) (h : i < v.length) :
    rd (v.set i a) i = Except.ok a := by
  simp [rd, List.getElem?_set_self h]

theorem wr_ok (v : List β) (i : Nat) (a : β) (h : i < v.length) :
    wr v i a = Except.ok (v.set i a) := by
  simp [wr, h]

theorem bind_rd_ok [Zero β] (v : List β) (i : Nat) (f : β → Except Fault γ)
    (h : i < v.length) : (rd v i >>= f) = f (v.getD i 0) := by
  rw [rd_ok v i h, ok_bind]

theorem bind_pure_ok (a : β) (f : β → Except Fault γ) : (pure a >>= f) = f a := rfl

theorem bind_wr_ok (v : List β) (i : Nat) (a : β) (f : List β → Except Fault γ)
    (h : i < v.length) : (wr v i a >>= f) = f (v.set i a) := by
  rw [wr_ok v i a h, ok_bind]

theorem getD_replicate_self {β : Type} (n i : Nat) (c : β) :
    (List.replicate n c).getD i c = c := by
  rw [List.getD_eq_getElem?_getD, List.getElem?_replicate]
  split <;> rfl

theorem length_pos_of_get (v : List β) (i : Nat) (a : β) (h : v[i]? = some a) :
    i < v.length := by
  by_contra hc
  rw [List.getElem?_eq_none (by omega)] at h
  exact Option.noConfusion h

/-- Invariant rule for `forLoop`: an invariant that every iteration re-establishes holds
when the loop ends, and the loop does end without a fault. -/
theorem forLoop_inv (body : Nat → σ → Except Fault σ) (Inv : Nat → σ → Prop) :
    ∀ (count lo : Nat) (s : σ), Inv lo s →
      (∀ t s, lo ≤ t → t < lo + count → Inv t s →
        ∃ s', body t s = Except.ok s' ∧ Inv (t + 1) s') →
      ∃ s', forLoop body lo count s = Except.ok s' ∧ Inv (lo + count) s' := by
  intro count
  induction count with
  | zero => intro lo s h _; exact ⟨s, rfl, h⟩
  | succ k ih =>
    intro lo s h step
    obtain ⟨s1, h1, i1⟩ := step lo s (Nat.le_refl lo) (by omega) h
    obtain ⟨s2, h2, i2⟩ := ih (lo + 1) s1 i1
      (fun t s ht1 ht2 hi => step t s (by omega) (by omega) hi)
    refine ⟨s2, ?_, ?_⟩
    · simp only [forLoop, h1, ok_bind, h2]
    · have e : lo + (k + 1) = lo + 1 + k := by omega
      rw [e]; exact i2

end Tools

/-! ## The cost loops -/

section CostLemmas

variable {α : Type} [Field α]

/-- A loop from 0 whose body adds `term t` to element 0 leaves the sum of the terms
there. -/
theorem forLoop_accumulate (body : Nat → List α → Except Fault (List α)) (term : Nat → α)
    (count : Nat)
    (hbody : ∀ t fg c, t < count → fg[0]? = some c →
      ∃ fg', body t fg = Except.ok fg' ∧ fg'.length = fg.length ∧
        fg'[0]? = some (c + term t))
    (fg : List α) (c : α) (h0 : fg[0]? = some c) :
    ∃ fg', forLoop body 0 count fg = Except.ok fg' ∧ fg'.length = fg.length ∧
      fg'[0]? = some (c + ∑ t in Finset.range count, term t) := by
  have h := forLoop_inv body
    (fun t g => g.length = fg.length ∧ g[0]? = some (c + ∑ s in Finset.range t, term s))
    count 0 fg ⟨rfl, by simpa using h0⟩
    (fun t g _ ht hi => by
      obtain ⟨g', e, hl, hg⟩ := hbody t g _ (by omega) hi.2
      refine ⟨g', e, hl.trans hi.1, ?_⟩
      rw [hg, Finset.sum_range_succ, add_assoc])
  simpa using h

theorem cost_reference_step_ok (N : Nat) (vars fg : List α) (t : Nat) (c : α)
    (ht : t < N) (hv : vars.length = n_vars N) (h0 : fg[0]? = some c) :
    ∃ fg', cost_reference_step N vars t fg = Except.ok fg' ∧ fg'.length = fg.length ∧
      fg'[0]? = some (c + (kCTE * (vars.getD (cte_start N + t) 0) ^ 2 +
        kEPSI * (vars.getD (epsi_start N + t) 0) ^ 2 +
        kRefV * (vars.getD (v_start N + t) 0 - ref_v) ^ 2)) := by
  have e3 := v_start_eq N
  have e4 := cte_start_eq N
  have e5 := epsi_start_eq N
  have en : n_vars N = 6 * N + 2 * (N - 1) := rfl
  have hl := length_pos_of_get _ _ _ h0
  have r0 : rd fg 0 = Except.ok c := rd_of_get _ _ _ h0
  have h : cost_reference_step N vars t fg = Except.ok
      (((fg.set 0 (c + kCTE * (vars.getD (cte_start N + t) 0) ^ 2)).set 0
        (c + kCTE * (vars.getD (cte_start N + t) 0) ^ 2 +
          kEPSI * (vars.getD (epsi_start N + t) 0) ^ 2)).set 0
        (c + kCTE * (vars.getD (cte_start N + t) 0) ^ 2 +
          kEPSI * (vars.getD (epsi_start N + t) 0) ^ 2 +
          kRefV * (vars.getD (v_start N + t) 0 - ref_v) ^ 2)) := by
    simp (disch := first | omega | (simp only [List.length_set]; omega)) only
      [cost_reference_step, r0, rd_set_self, rd_ok vars, wr_ok, ok_bind]
  refine ⟨_, h, by simp, ?_⟩
  rw [List.getElem?_set_self (by simpa using hl)]
  congr 1; ring

theorem cost_actuator_step_ok (N : Nat) (vars fg : List α) (t : Nat) (c : α)
    (ht : t < N - 1) (hv : vars.length = n_vars N) (h0 : fg[0]? = some c) :
    ∃ fg', cost_actuator_step N vars t fg = Except.ok fg' ∧ fg'.length = fg.length ∧
      fg'[0]? = some (c + (kDelta * (vars.getD (delta_start N + t) 0) ^ 2 +
        kA * (vars.getD (a_start N + t) 0) ^ 2 +
        kDeltaCrossA * (vars.getD (delta_start N + t) 0 * vars.getD (v_start N + t) 0) ^ 2)) := by
  have e3 := v_start_eq N
  have e6 := delta_start_eq N
  have e7 := a_start_eq N
  have en : n_vars N = 6 * N + 2 * (N - 1) := rfl
  have hl := length_pos_of_get _ _ _ h0
  have r0 : rd fg 0 = Except.ok c := rd_of_get _ _ _ h0
  have h : cost_actuator_step N vars t fg = Except.ok
      (((fg.set 0 (c + kDelta * (vars.getD (delta_start N + t) 0) ^ 2)).set 0
        (c + kDelta * (vars.getD (delta_start N + t) 0) ^ 2 +
          kA * (vars.getD (a_start N + t) 0) ^ 2)).set 0
        (c + kDelta * (vars.getD (delta_start N + t) 0) ^ 2 +
          kA * (vars.getD (a_start N + t) 0) ^ 2 +
          kDeltaCrossA *
            (vars.getD (delta_start N + t) 0 * vars.getD (v_start N + t) 0) ^ 2)) := by
    simp (disch := first | omega | (simp only [List.length_set]; omega)) only
      [cost_actuator_step, r0, rd_set_self, rd_ok vars, wr_ok, ok_bind]
  refine ⟨_, h, by simp, ?_⟩
  rw [List.getElem?_set_self (by simpa using hl)]
  congr 1; ring

theorem cost_sequential_step_ok (N : Nat) (vars fg : List α) (t : Nat) (c : α)
    (ht : t < N - 2) (hv : vars.length = n_vars N) (h0 : fg[0]? = some c) :
    ∃ fg', cost_sequential_step N vars t fg = Except.ok fg' ∧ fg'.length = fg.length ∧
      fg'[0]? = some (c +
        (kSeqDelta *
            (vars.getD (delta_start N + t + 1) 0 - vars.getD (delta_start N + t) 0) ^ 2 +
          kSeqA * (vars.getD (a_start N + t + 1) 0 - vars.getD (a_start N + t) 0) ^ 2)) := by
  have e6 := delta_start_eq N
  have e7 := a_start_eq N
  have en : n_vars N = 6 * N + 2 * (N - 1) := rfl
  have hl := length_pos_of_get _ _ _ h0
  have r0 : rd fg 0 = Except.ok c := rd_of_get _ _ _ h0
  have h : cost_sequential_step N vars t fg = Except.ok
      ((fg.set 0 (c + kSeqDelta *
          (vars.getD (delta_start N + t + 1) 0 - vars.getD (delta_start N + t) 0) ^ 2)).set 0
        (c + kSeqDelta *
            (vars.getD (delta_start N + t + 1) 0 - vars.getD (delta_start N + t) 0) ^ 2 +
          kSeqA * (vars.getD (a_start N + t + 1) 0 - vars.getD (a_start N + t) 0) ^ 2)) := by
    simp (disch := first | omega | (simp only [List.length_set]; omega)) only
      [cost_sequential_step, r0, rd_set_self, rd_ok vars, wr_ok, ok_bind]
  refine ⟨_, h, by simp, ?_⟩
  rw [List.getElem?_set_self (by simpa using hl)]
  congr 1; ring

/-- The cost part of `FG_eval` (source lines 66-87) runs without a fault and leaves
`cost_sum` in `fg[0]`. -/
theorem cost_loops_ok (N : Nat) (vars fg : List α) (hv : vars.length = n_vars N)
    (hfg : 0 < fg.length) :
    ∃ fg1 fg2 fg3 fg4, wr fg 0 0 = Except.ok fg1 ∧
      forLoop (cost_reference_step N vars) 0 (N - 0) fg1 = Except.ok fg2 ∧
      forLoop (cost_actuator_step N vars) 0 (N - 1 - 0) fg2 = Except.ok fg3 ∧
      forLoop (cost_sequential_step N vars) 0 (N - 2 - 0) fg3 = Except.ok fg4 ∧
      fg4.length = fg.length ∧ fg4[0]? = some (cost_sum N vars) := by
  have h1 : (fg.set 0 (0 : α))[0]? = some 0 := List.getElem?_set_self hfg
  obtain ⟨fg2, e2, l2, g2⟩ := forLoop_accumulate (cost_reference_step N vars) _ (N - 0)
    (fun t g c ht h => cost_reference_step_ok N vars g t c (by omega) hv h) _ _ h1
  obtain ⟨fg3, e3, l3, g3⟩ := forLoop_accumulate (cost_actuator_step N vars) _ (N - 1 - 0)
    (fun t g c ht h => cost_actuator_step_ok N vars g t c (by omega) hv h) _ _ g2
  obtain ⟨fg4, e4, l4, g4⟩ := forLoop_accumulate (cost_sequential_step N vars) _ (N - 2 - 0)
    (fun t g c ht h => cost_sequential_step_ok N vars g t c (by omega) hv h) _ _ g3
  refine ⟨_, fg2, fg3, fg4, wr_ok _ _ _ hfg, e2, e3, e4, ?_, ?_⟩
  · rw [l4, l3, l2]; simp
  · rw [g4]; simp [cost_sum]

end CostLemmas

/-! ## The constraint rows -/

section ConstraintLemmas

variable {α : Type} [Field α]

/-- Writing six values at the six rows of step `t`. -/
theorem constraint_step_ok (cos sin atan : α → α) (N n_delay : Nat) (coeffs : Fin 4 → α)
    (vars fg : List α) (t : Nat) (ht1 : 1 ≤ t) (ht : t < N) (hv : vars.length = n_vars N)
    (hfg : fg.length = 1 + n_constraints N) :
    ∃ fg', constraint_step cos sin atan N n_delay coeffs vars t fg = Except.ok fg' ∧
      fg'.length = fg.length ∧ fg'[0]? = fg[0]? ∧
      rows fg' N t = (residuals cos sin atan N n_delay coeffs vars t).map some ∧
      ∀ s, s < N → s ≠ t → rows fg' N s = rows fg N s := by
  have e0 : x_start = 0 := rfl
  have e1 := y_start_eq N
  have e2 := psi_start_eq N
  have e3 := v_start_eq N
  have e4 := cte_start_eq N
  have e5 := epsi_start_eq N
  have e6 := delta_start_eq N
  have e7 := a_start_eq N
  have en : n_vars N = 6 * N + 2 * (N - 1) := rfl
  have ec : n_constraints N = 6 * N := rfl
  have h : constraint_step cos sin atan N n_delay coeffs vars t fg = Except.ok
      ((((((fg.set (1 + x_start + t) ((residuals cos sin atan N n_delay coeffs vars t).getD 0 0)).set
        (1 + y_start N + t) ((residuals cos sin atan N n_delay coeffs vars t).getD 1 0)).set
        (1 + psi_start N + t) ((residuals cos sin atan N n_delay coeffs vars t).getD 2 0)).set
        (1 + v_start N + t) ((residuals cos sin atan N n_delay coeffs vars t).getD 3 0)).set
        (1 + cte_start N + t) ((residuals cos sin atan N n_delay coeffs vars t).getD 4 0)).set
        (1 + epsi_start N + t) ((residuals cos sin atan N n_delay coeffs vars t).getD 5 0)) := by
    unfold constraint_step residuals
    by_cases hc : t > n_delay
    · have hi : actuator_index n_delay t = t - 1 - n_delay := by simp [actuator_index, hc]
      have hd : delta_start N + t - 1 - n_delay = delta_start N + (t - 1 - n_delay) := by omega
      have ha : a_start N + t - 1 - n_delay = a_start N + (t - 1 - n_delay) := by omega
      rw [hi]
      simp (disch := first | omega | (simp only [List.length_set]; omega)) only
        [↓bind_rd_ok, ↓bind_pure_ok, ↓bind_wr_ok, wr_ok, hc, ↓reduceIte]
      simp only [hd, ha]
      rfl
    · have hi : actuator_index n_delay t = t - 1 := by simp [actuator_index, hc]
      have hd : delta_start N + t - 1 = delta_start N + (t - 1) := by omega
      have ha : a_start N + t - 1 = a_start N + (t - 1) := by omega
      rw [hi]
      simp (disch := first | omega | (simp only [List.length_set]; omega)) only
        [↓bind_rd_ok, ↓bind_pure_ok, ↓bind_wr_ok, wr_ok, hc, ↓reduceIte]
      simp only [hd, ha]
      rfl
  refine ⟨_, h, by simp, ?_, ?_, ?_⟩
  · simp (disch := omega) only [List.getElem?_set_ne]
  · simp (disch := first | omega | (simp only [List.length_set]; omega)) only
      [rows, List.getElem?_set_ne, List.getElem?_set_self]
    rfl
  · intro s hs hst
    simp (disch := omega) only [rows, List.getElem?_set_ne]

/-- What `FG_eval` computes.  For `2 ≤ N`, a decision vector of length `n_vars` and an `fg`
of length `1 + n_constraints`, the evaluator returns without a fault; on return `fg[0]` is
`cost_sum`, the rows of step 0 are the step-0 entries of the decision vector, and the rows
of every step `1 ≤ t < N` are `residuals`. -/
theorem FG_eval_spec (cos sin atan : α → α) (N n_delay : Nat) (coeffs : Fin 4 → α)
    (fg vars : List α) (hN : 2 ≤ N) (hv : vars.length = n_vars N)
    (hfg : fg.length = 1 + n_constraints N) :
    ∃ fg', FG_eval cos sin atan N n_delay coeffs fg vars = Except.ok fg' ∧
      fg'.length = 1 + n_constraints N ∧ fg'[0]? = some (cost_sum N vars) ∧
      rows fg' N 0 = (state_at vars N 0).map some ∧
      ∀ t, 1 ≤ t → t < N →
        rows fg' N t = (residuals cos sin atan N n_delay coeffs vars t).map some := by
  have e0 : x_start = 0 := rfl
  have e1 := y_start_eq N
  have e2 := psi_start_eq N
  have e3 := v_start_eq N
  have e4 := cte_start_eq N
  have e5 := epsi_start_eq N
  have en : n_vars N = 6 * N + 2 * (N - 1) := rfl
  have ec : n_constraints N = 6 * N := rfl
  obtain ⟨fg1, fg2, fg3, fg4, c1, c2, c3, c4, l4, g4⟩ := cost_loops_ok N vars fg hv (by omega)
  have hI := forLoop_inv (constraint_step cos sin atan N n_delay coeffs vars)
    (fun t g => g.length = 1 + n_constraints N ∧ g[0]? = some (cost_sum N vars) ∧
      rows g N 0 = (state_at vars N 0).map some ∧
      ∀ s, 1 ≤ s → s < t →
        rows g N s = (residuals cos sin atan N n_delay coeffs vars s).map some)
    (N - 1) 1
    ((((((fg4.set (1 + x_start) (vars.getD x_start 0)).set
      (1 + y_start N) (vars.getD (y_start N) 0)).set
      (1 + psi_start N) (vars.getD (psi_start N) 0)).set
      (1 + v_start N) (vars.getD (v_start N) 0)).set
      (1 + cte_start N) (vars.getD (cte_start N) 0)).set
      (1 + epsi_start N) (vars.getD (epsi_start N) 0))
    (by
      refine ⟨?_, ?_, ?_, ?_⟩
      · simp only [List.length_set]; omega
      · simp (disch := omega) only [List.getElem?_set_ne]; exact g4
      · simp (disch := first | omega | (simp only [List.length_set]; omega)) only
          [rows, state_at, Nat.add_zero, List.getElem?_set_ne, List.getElem?_set_self]
        rfl
      · intro s h1 h2; omega)
    (by
      intro t g h1 h2 hi
      obtain ⟨il, ic, ir0, irs⟩ := hi
      obtain ⟨g', eg, gl, gc, gr, gf⟩ := constraint_step_ok cos sin atan N n_delay coeffs vars g t
        h1 (by omega) hv il
      refine ⟨g', eg, gl.trans il, gc.trans ic, ?_, ?_⟩
      · rw [gf 0 (by omega) (by omega)]; exact ir0
      · intro s hs1 hs2
        by_cases hst : s = t
        · rw [hst]; exact gr
        · rw [gf s (by omega) hst]; exact irs s hs1 (by omega))
  obtain ⟨fg', ef, i1, i2, i3, i4⟩ := hI
  refine ⟨fg', ?_, i1, i2, i3, fun t h1 h2 => i4 t h1 (by omega)⟩
  unfold FG_eval
  simp only [c1, c2, c3, c4, ↓ok_bind]
  simp (disch := first | omega | (simp only [List.length_set]; omega)) only
    [↓bind_rd_ok, ↓bind_wr_ok]
  exact ef

end ConstraintLemmas

/-! ## Bounds and initial values assembled by `Solve` -/

section SolveLemmas

theorem values_ok {β : Type} : ∀ (l : List (Option β)),
    (∀ j, j < l.length → ∃ a, l[j]? = some (some a)) →
    ∃ xs, values l = Except.ok xs ∧ xs.length = l.length ∧
      ∀ j, j < l.length → l[j]? = some xs[j]?
  | [], _ => ⟨[], rfl, rfl, fun j hj => absurd hj (Nat.not_lt_zero j)⟩
  | none :: rest, h => by
    obtain ⟨a, ha⟩ := h 0 (by simp)
    simp at ha
  | some a :: rest, h => by
    obtain ⟨xs, e, hl, hx⟩ := values_ok rest (fun j hj => by
      have := h (j + 1) (by simpa using hj)
      simpa using this)
    refine ⟨a :: xs, ?_, by simp [hl], ?_⟩
    · simp only [values, e, ok_bind, pure_eq_ok]
    · intro j hj
      cases j with
      | zero => simp
      | succ k =>
        have := hx k (by simpa using hj)
        simpa using this

theorem set_fill_step {β : Type} (c : β) (lo t j : Nat) (w v : List β) (hlo : lo ≤ t)
    (ht : t < w.length) (hw : w[j]? = if lo ≤ j ∧ j < t then some c else v[j]?) :
    (w.set t c)[j]? = if lo ≤ j ∧ j < t + 1 then some c else v[j]? := by
  rw [List.getElem?_set, hw]
  by_cases hj : t = j
  · have h5 : lo ≤ j ∧ j < t + 1 := by omega
    simp [hj ▸ ht, hj, h5]
  · by_cases h5 : lo ≤ j ∧ j < t
    · have h6 : lo ≤ j ∧ j < t + 1 := by omega
      simp [hj, h5, h6]
    · have h6 : ¬ (lo ≤ j ∧ j < t + 1) := by omega
      simp [hj, h5, h6]

/-- A loop that assigns the constant `c` to the elements `lo, ..., lo + count - 1`. -/
theorem forLoop_fill {β : Type} (c : β) (count lo : Nat) (v : List β)
    (h : lo + count ≤ v.length) :
    ∃ v', forLoop (fun i v => wr v i c) lo count v = Except.ok v' ∧ v'.length = v.length ∧
      ∀ j, v'[j]? = if lo ≤ j ∧ j < lo + count then some c else v[j]? := by
  have hI := forLoop_inv (fun i v => wr v i c)
    (fun t w => w.length = v.length ∧ ∀ j, w[j]? = if lo ≤ j ∧ j < t then some c else v[j]?)
    count lo v ⟨rfl, fun j => by
      have : ¬ (lo ≤ j ∧ j < lo) := by omega
      simp [this]⟩
    (fun t w h1 h2 hi =>
      ⟨w.set t c, wr_ok _ _ _ (by omega), by simpa using hi.1,
        fun j => set_fill_step c lo t j w v h1 (by omega) (hi.2 j)⟩)
  exact hI

/-- A loop of `bounds_step` assigns `lower` and `upper` to the elements
`lo, ..., lo + count - 1` of the two bound vectors. -/
theorem forLoop_bounds_step {α : Type} (lower upper : α) (count lo : Nat)
    (b : List (Option α) × List (Option α))
    (h1 : lo + count ≤ b.1.length) (h2 : lo + count ≤ b.2.length) :
    ∃ b', forLoop (bounds_step lower upper) lo count b = Except.ok b' ∧
      b'.1.length = b.1.length ∧ b'.2.length = b.2.length ∧
      (∀ j, b'.1[j]? = if lo ≤ j ∧ j < lo + count then some (some lower) else b.1[j]?) ∧
      (∀ j, b'.2[j]? = if lo ≤ j ∧ j < lo + count then some (some upper) else b.2[j]?) := by
  have hI := forLoop_inv (bounds_step lower upper)
    (fun t w => w.1.length = b.1.length ∧ w.2.length = b.2.length ∧
      (∀ j, w.1[j]? = if lo ≤ j ∧ j < t then some (some lower) else b.1[j]?) ∧
      (∀ j, w.2[j]? = if lo ≤ j ∧ j < t then some (some upper) else b.2[j]?))
    count lo b ⟨rfl, rfl, fun j => by
      have : ¬ (lo ≤ j ∧ j < lo) := by omega
      simp [this], fun j => by
      have : ¬ (lo ≤ j ∧ j < lo) := by omega
      simp [this]⟩
    (fun t w t1 t2 hi => by
      obtain ⟨l1, l2, g1, g2⟩ := hi
      refine ⟨(w.1.set t (some lower), w.2.set t (some upper)), ?_, by simpa using l1,
        by simpa using l2,
        fun j => set_fill_step _ lo t j w.1 b.1 t1 (by omega) (g1 j),
        fun j => set_fill_step _ lo t j w.2 b.2 t1 (by omega) (g2 j)⟩
      simp only [bounds_step, wr_ok w.1 t _ (show t < w.1.length by omega),
        wr_ok w.2 t _ (show t < w.2.length by omega), ok_bind, pure_eq_ok])
  exact hI

variable {α : Type} [Field α]

/-- The variable bounds of `Solve` (source lines 198-219) in closed form. -/
theorem Solve_vars_bounds_ok (N : Nat) (hN : 2 ≤ N) :
    ∃ lb ub : List (Option α), Solve_vars_bounds N = Except.ok (lb, ub) ∧
      lb.length = n_vars N ∧ ub.length = n_vars N ∧
      (∀ j, j < n_vars N → lb[j]? = some (some (vars_lower N j))) ∧
      (∀ j, j < n_vars N → ub[j]? = some (some (vars_upper N j))) := by
  have e6 := delta_start_eq N
  have e7 := a_start_eq N
  have en : n_vars N = 6 * N + 2 * (N - 1) := rfl
  have hD : (Dvector α (n_vars N)).length = n_vars N := by simp [Dvector]
  obtain ⟨b1, c1, l1, u1, gl1, gu1⟩ := forLoop_bounds_step (-1.0e19 : α) 1.0e19
    (delta_start N - 0) 0 (Dvector α (n_vars N), Dvector α (n_vars N))
    (by simp only [hD]; omega) (by simp only [hD]; omega)
  obtain ⟨b2, c2, l2, u2, gl2, gu2⟩ := forLoop_bounds_step (-0.436332 : α) 0.436332
    (a_start N - delta_start N) (delta_start N) b1
    (by rw [l1]; simp only [hD]; omega) (by rw [u1]; simp only [hD]; omega)
  obtain ⟨b3, c3, l3, u3, gl3, gu3⟩ := forLoop_bounds_step (-1.0 : α) 1.0
    (n_vars N - a_start N) (a_start N) b2
    (by rw [l2, l1]; simp only [hD]; omega) (by rw [u2, u1]; simp only [hD]; omega)
  refine ⟨b3.1, b3.2, ?_, by rw [l3, l2, l1]; exact hD, by rw [u3, u2, u1]; exact hD, ?_, ?_⟩
  · simp only [Solve_vars_bounds, c1, c2, c3, ok_bind]
  · intro j hj
    unfold vars_lower
    rw [gl3 j, gl2 j, gl1 j]
    by_cases h1 : j < delta_start N
    · have p1 : ¬ (a_start N ≤ j ∧ j < a_start N + (n_vars N - a_start N)) := by omega
      have p2 : ¬ (delta_start N ≤ j ∧ j < delta_start N + (a_start N - delta_start N)) := by
        omega
      have p3 : 0 ≤ j ∧ j < 0 + (delta_start N - 0) := by omega
      rw [if_neg p1, if_neg p2, if_pos p3, if_pos h1]
    · by_cases h2 : j < a_start N
      · have p1 : ¬ (a_start N ≤ j ∧ j < a_start N + (n_vars N - a_start N)) := by omega
        have p2 : delta_start N ≤ j ∧ j < delta_start N + (a_start N - delta_start N) := by
          omega
        rw [if_neg p1, if_pos p2, if_neg h1, if_pos h2]
      · have p1 : a_start N ≤ j ∧ j < a_start N + (n_vars N - a_start N) := by omega
        rw [if_pos p1, if_neg h1, if_neg h2]
  · intro j hj
    unfold vars_upper
    rw [gu3 j, gu2 j, gu1 j]
    by_cases h1 : j < delta_start N
    · have p1 : ¬ (a_start N ≤ j ∧ j < a_start N + (n_vars N - a_start N)) := by omega
      have p2 : ¬ (delta_start N ≤ j ∧ j < delta_start N + (a_start N - delta_start N)) := by
        omega
      have p3 : 0 ≤ j ∧ j < 0 + (delta_start N - 0) := by omega
      rw [if_neg p1, if_neg p2, if_pos p3, if_pos h1]
    · by_cases h2 : j < a_start N
      · have p1 : ¬ (a_start N ≤ j ∧ j < a_start N + (n_vars N - a_start N)) := by omega
        have p2 : delta_start N ≤ j ∧ j < delta_start N + (a_start N - delta_start N) := by
          omega
        rw [if_neg p1, if_pos p2, if_neg h1, if_pos h2]
      · have p1 : a_start N ≤ j ∧ j < a_start N + (n_vars N - a_start N) := by omega
        rw [if_pos p1, if_neg h1, if_neg h2]

end SolveLemmas


section SolveLemmas2

variable {α : Type} [Field α]

/-- The constraint bounds of `Solve` (source lines 223-241) in closed form. -/
theorem Solve_constraints_bounds_ok (N : Nat) (state : Fin 8 → α) (hN : 2 ≤ N) :
    ∃ gl gu : List (Option α), Solve_constraints_bounds N state = Except.ok (gl, gu) ∧
      gl.length = n_constraints N ∧ gu.length = n_constraints N ∧
      (∀ j, j < n_constraints N → gl[j]? = some (some (constraints_bound N state j)) ∧
        gu[j]? = some (some (constraints_bound N state j))) := by
  have e0 : x_start = 0 := rfl
  have e1 := y_start_eq N
  have e2 := psi_start_eq N
  have e3 := v_start_eq N
  have e4 := cte_start_eq N
  have e5 := epsi_start_eq N
  have ec : n_constraints N = 6 * N := rfl
  have hD : (Dvector α (n_constraints N)).length = n_constraints N := by simp [Dvector]
  obtain ⟨b, c1, l1, u1, gl1, gu1⟩ := forLoop_bounds_step (0 : α) 0
    (n_constraints N - 0) 0 (Dvector α (n_constraints N), Dvector α (n_constraints N))
    (by simp only [hD]; omega) (by simp only [hD]; omega)
  simp only [hD] at l1 u1
  have key : ∀ (w : List (Option α)), w.length = n_constraints N →
      (∀ j, w[j]? = if 0 ≤ j ∧ j < 0 + (n_constraints N - 0) then some (some (0 : α))
        else (Dvector α (n_constraints N))[j]?) →
      ∀ j, j < n_constraints N →
        ((((((w.set x_start (some (state 0))).set (y_start N) (some (state 1))).set
          (psi_start N) (some (state 2))).set (v_start N) (some (state 3))).set
          (cte_start N) (some (state 4))).set (epsi_start N) (some (state 5)))[j]? =
        some (some (constraints_bound N state j)) := by
    intro w hw hg j hj
    unfold constraints_bound
    have p : 0 ≤ j ∧ j < 0 + (n_constraints N - 0) := by omega
    have hc : j = x_start ∨ j = y_start N ∨ j = psi_start N ∨ j = v_start N ∨
        j = cte_start N ∨ j = epsi_start N ∨
        (j ≠ x_start ∧ j ≠ y_start N ∧ j ≠ psi_start N ∧ j ≠ v_start N ∧
          j ≠ cte_start N ∧ j ≠ epsi_start N) := by omega
    rcases hc with rfl | rfl | rfl | rfl | rfl | rfl | h
    all_goals simp (disch := first | omega | (simp only [List.length_set]; omega)) only
      [List.getElem?_set_ne, List.getElem?_set_self, if_neg, if_pos, if_true, if_false]
    rw [hg j, if_pos p]
  refine ⟨((((((b.1.set x_start (some (state 0))).set (y_start N) (some (state 1))).set
      (psi_start N) (some (state 2))).set (v_start N) (some (state 3))).set
      (cte_start N) (some (state 4))).set (epsi_start N) (some (state 5))),
    ((((((b.2.set x_start (some (state 0))).set (y_start N) (some (state 1))).set
      (psi_start N) (some (state 2))).set (v_start N) (some (state 3))).set
      (cte_start N) (some (state 4))).set (epsi_start N) (some (state 5))),
    ?_, ?_, ?_, fun j hj => ⟨key b.1 l1 gl1 j hj, key b.2 u1 gu1 j hj⟩⟩
  · simp (disch := first | omega | (simp only [List.length_set]; omega)) only
      [Solve_constraints_bounds, c1, ↓ok_bind, ↓bind_wr_ok, pure_eq_ok]
  · simp only [List.length_set]; exact l1
  · simp only [List.length_set]; exact u1

/-- The initial point of `Solve` (source lines 184-196) in closed form. -/
theorem Solve_vars_ok (N : Nat) (state : Fin 8 → α) (hN : 2 ≤ N) :
    ∃ vars : List (Option α), Solve_vars N state = Except.ok vars ∧
      vars.length = n_vars N ∧
      ∀ j, j < n_vars N → vars[j]? = some (some (initial_value N state j)) := by
  have e0 : x_start = 0 := rfl
  have e1 := y_start_eq N
  have e2 := psi_start_eq N
  have e3 := v_start_eq N
  have e4 := cte_start_eq N
  have e5 := epsi_start_eq N
  have e6 := delta_start_eq N
  have e7 := a_start_eq N
  have en : n_vars N = 6 * N + 2 * (N - 1) := rfl
  have hD : (Dvector α (n_vars N)).length = n_vars N := by simp [Dvector]
  obtain ⟨w, c1, l1, g1⟩ := forLoop_fill (some (0 : α)) (n_vars N - 0) 0 (Dvector α (n_vars N))
    (by simp only [hD]; omega)
  rw [hD] at l1
  refine ⟨((((((((w.set x_start (some (state 0))).set (y_start N) (some (state 1))).set
      (psi_start N) (some (state 2))).set (v_start N) (some (state 3))).set
      (cte_start N) (some (state 4))).set (epsi_start N) (some (state 5))).set
      (delta_start N) (some (state 6))).set (a_start N) (some (state 7))), ?_, ?_, ?_⟩
  · simp (disch := first | omega | (simp only [List.length_set]; omega)) only
      [Solve_vars, c1, ↓ok_bind, ↓bind_wr_ok, wr_ok]
  · simp only [List.length_set]; exact l1
  · intro j hj
    unfold initial_value
    have p : 0 ≤ j ∧ j < 0 + (n_vars N - 0) := by omega
    have hc : j = x_start ∨ j = y_start N ∨ j = psi_start N ∨ j = v_start N ∨
        j = cte_start N ∨ j = epsi_start N ∨ j = delta_start N ∨ j = a_start N ∨
        (j ≠ x_start ∧ j ≠ y_start N ∧ j ≠ psi_start N ∧ j ≠ v_start N ∧
          j ≠ cte_start N ∧ j ≠ epsi_start N ∧ j ≠ delta_start N ∧ j ≠ a_start N) := by omega
    rcases hc with rfl | rfl | rfl | rfl | rfl | rfl | rfl | rfl | h
    all_goals simp (disch := first | omega | (simp only [List.length_set]; omega)) only
      [List.getElem?_set_ne, List.getElem?_set_self, if_neg, if_pos, if_true, if_false]
    rw [g1 j, if_pos p]

/-- The arguments `Solve` hands to the optimiser, in closed form: for `2 ≤ N` they are
assembled without a fault, every element of the five vectors is assigned, and the vectors
have the lengths `n_vars` and `n_constraints`. -/
theorem Solve_args_ok (cos sin atan : α → α) (N n_delay : Nat) (state : Fin 8 → α)
    (coeffs : Fin 4 → α) (hN : 2 ≤ N) :
    ∃ args : solve_args α, Solve_args cos sin atan N n_delay state coeffs = Except.ok args ∧
      args.fg_eval = FG_eval cos sin atan N n_delay coeffs ∧
      args.xi.length = n_vars N ∧ args.xl.length = n_vars N ∧ args.xu.length = n_vars N ∧
      args.gl.length = n_constraints N ∧ args.gu.length = n_constraints N ∧
      (∀ j, j < n_vars N → args.xi[j]? = some (initial_value N state j) ∧
        args.xl[j]? = some (vars_lower N j) ∧ args.xu[j]? = some (vars_upper N j)) ∧
      (∀ j, j < n_constraints N → args.gl[j]? = some (constraints_bound N state j) ∧
        args.gu[j]? = some (constraints_bound N state j)) := by
  obtain ⟨vars, cv, lv, gv⟩ := Solve_vars_ok N state hN
  obtain ⟨lb, ub, cb, llb, lub, glb, gub⟩ := Solve_vars_bounds_ok (α := α) N hN
  obtain ⟨gl, gu, cc, lgl, lgu, gg⟩ := Solve_constraints_bounds_ok N state hN
  obtain ⟨xi, vxi, lxi, gxi⟩ := values_ok vars (fun j hj => ⟨_, gv j (lv ▸ hj)⟩)
  obtain ⟨xl, vxl, lxl, gxl⟩ := values_ok lb (fun j hj => ⟨_, glb j (llb ▸ hj)⟩)
  obtain ⟨xu, vxu, lxu, gxu⟩ := values_ok ub (fun j hj => ⟨_, gub j (lub ▸ hj)⟩)
  obtain ⟨xgl, vgl, lxgl, gxgl⟩ := values_ok gl (fun j hj => ⟨_, (gg j (lgl ▸ hj)).1⟩)
  obtain ⟨xgu, vgu, lxgu, gxgu⟩ := values_ok gu (fun j hj => ⟨_, (gg j (lgu ▸ hj)).2⟩)
  refine ⟨⟨Solve_options, xi, xl, xu, xgl, xgu, FG_eval cos sin atan N n_delay coeffs⟩,
    ?_, rfl, lxi.trans lv, lxl.trans llb, lxu.trans lub, lxgl.trans lgl, lxgu.trans lgu,
    fun j hj => ⟨?_, ?_, ?_⟩, fun j hj => ⟨?_, ?_⟩⟩
  · simp only [Solve_args, cv, cb, cc, vxi, vxl, vxu, vgl, vgu, ok_bind, pure_eq_ok]
  · have h := gxi j (lv ▸ hj); rw [gv j hj] at h; exact (Option.some.inj h).symm
  · have h := gxl j (llb ▸ hj); rw [glb j hj] at h; exact (Option.some.inj h).symm
  · have h := gxu j (lub ▸ hj); rw [gub j hj] at h; exact (Option.some.inj h).symm
  · have h := gxgl j (lgl ▸ hj); rw [(gg j hj).1] at h; exact (Option.some.inj h).symm
  · have h := gxgu j (lgu ▸ hj); rw [(gg j hj).2] at h; exact (Option.some.inj h).symm

end SolveLemmas2


/-! ## The returned list and its unpacking -/

section ResultLemmas

variable {α : Type} [Field α]

/-- The extraction part of `Solve` (source lines 282-290) in closed form. -/
theorem Solve_result_ok (N : Nat) (solution : solve_result α) (hN : 2 ≤ N)
    (hx : solution.x.length = n_vars N) :
    Solve_result N solution = Except.ok
      ([solution.x.getD (delta_start N) 0, solution.x.getD (a_start N) 0] ++
        (List.range' 1 (N - 1)).flatMap (fun i =>
          [solution.x.getD (x_start + i) 0, solution.x.getD (y_start N + i) 0])) := by
  have e0 : x_start = 0 := rfl
  have e1 := y_start_eq N
  have e6 := delta_start_eq N
  have e7 := a_start_eq N
  have en : n_vars N = 6 * N + 2 * (N - 1) := rfl
  have hI := forLoop_inv (result_step N solution.x)
    (fun t r => r = [solution.x.getD (delta_start N) 0, solution.x.getD (a_start N) 0] ++
        (List.range' 1 (t - 1)).flatMap (fun i =>
          [solution.x.getD (x_start + i) 0, solution.x.getD (y_start N + i) 0]))
    (N - 1) 1 [solution.x.getD (delta_start N) 0, solution.x.getD (a_start N) 0]
    (by simp)
    (fun t r h1 h2 hi => by
      refine ⟨r ++ [solution.x.getD (x_start + t) 0] ++ [solution.x.getD (y_start N + t) 0],
        ?_, ?_⟩
      · simp (disch := omega) only [result_step, ↓bind_rd_ok, pure_eq_ok]
      · have ht : t + 1 - 1 = (t - 1) + 1 := by omega
        have ht' : 1 + (t - 1) = t := by omega
        beta_reduce at hi ⊢
        rw [hi, ht, List.range'_concat]
        simp [List.flatMap_append, ht'])
  obtain ⟨r, er, hr⟩ := hI
  have hN1 : 1 + (N - 1) - 1 = N - 1 := by omega
  rw [hN1] at hr
  subst hr
  simp (disch := omega) only [Solve_result, ↓bind_rd_ok, pure_eq_ok]
  exact (congrArg (fun z => z >>= fun result => Except.ok result) er).trans rfl

omit [Field α] in
/-- The handler's loop on a list made of a prefix followed by pairs: it appends the first
components to `mpc_x_vals` and the second components to `mpc_y_vals`. -/
theorem mpc_vals_loop_pairs : ∀ (ps : List (α × α)) (pre xs ys : List α),
    mpc_vals_loop (pre ++ ps.flatMap (fun p => [p.1, p.2])) pre.length xs ys =
      Except.ok (xs ++ ps.map Prod.fst, ys ++ ps.map Prod.snd)
  | [], pre, xs, ys => by
    rw [mpc_vals_loop]
    simp
  | p :: ps, pre, xs, ys => by
    rw [mpc_vals_loop]
    have h1 : pre.length < (pre ++ (p :: ps).flatMap (fun p => [p.1, p.2])).length := by
      simp
    have r1 : rd (pre ++ (p :: ps).flatMap (fun p => [p.1, p.2])) pre.length = Except.ok p.1 := by
      apply rd_of_get
      rw [List.getElem?_append_right (Nat.le_refl _)]
      simp
    have r2 : rd (pre ++ (p :: ps).flatMap (fun p => [p.1, p.2])) (pre.length + 1) =
        Except.ok p.2 := by
      apply rd_of_get
      rw [List.getElem?_append_right (by omega)]
      simp
    have e : pre ++ (p :: ps).flatMap (fun p => [p.1, p.2]) =
        (pre ++ [p.1, p.2]) ++ ps.flatMap (fun p => [p.1, p.2]) := by
      simp
    have l : pre.length + 2 = (pre ++ [p.1, p.2]).length := by simp
    rw [if_pos h1, r1, r2]
    simp only
    rw [e, l, mpc_vals_loop_pairs ps (pre ++ [p.1, p.2]) (xs ++ [p.1]) (ys ++ [p.2])]
    simp

end ResultLemmas


/-! ## Claims about `Solve` -/

section SolveClaims

theorem flatMap_pairs_length {ι β : Type} (f g : ι → β) (l : List ι) :
    (l.flatMap (fun i => [f i, g i])).length = 2 * l.length := by
  induction l with
  | nil => rfl
  | cons a l ih => simp only [List.flatMap_cons, List.length_append, ih, List.length_cons,
      List.length_nil]; omega

theorem flatMap_pairs_eq {ι β : Type} (f g : ι → β) (l : List ι) :
    l.flatMap (fun i => [f i, g i]) =
      (l.map (fun i => (f i, g i))).flatMap (fun p => [p.1, p.2]) := by
  induction l with
  | nil => rfl
  | cons a l ih => simp only [List.flatMap_cons, List.map_cons, ih]

variable {α : Type} [Field α]

/-- Closed form of `Solve`: with the arguments assembled and an optimiser result of length
`n_vars`, `Solve` returns the two first actuator values followed by the predicted points. -/
theorem Solve_ok (solve : solve_args α → solve_result α) (cos sin atan : α → α)
    (N n_delay : Nat) (state : Fin 8 → α) (coeffs : Fin 4 → α) (hN : 2 ≤ N)
    (args : solve_args α)
    (ha : Solve_args cos sin atan N n_delay state coeffs = Except.ok args)
    (hlen : (solve args).x.length = n_vars N) :
    Solve solve cos sin atan N n_delay state coeffs = Except.ok
      ([(solve args).x.getD (delta_start N) 0, (solve args).x.getD (a_start N) 0] ++
        (List.range' 1 (N - 1)).flatMap (fun i =>
          [(solve args).x.getD (x_start + i) 0, (solve args).x.getD (y_start N + i) 0])) := by
  simp only [Solve, ha, ok_bind]
  exact Solve_result_ok N (solve args) hN hlen

/-- C2: when the optimiser hands back a vector `x` of length `n_vars`, `Solve` returns the
list `[x[delta_start], x[a_start], x[x_start+1], x[y_start+1], ..., x[x_start+N-1],
x[y_start+N-1]]`, of length `2 + 2(N-1)`, and the handler's unpacking of that list gives
the `N-1` points `(x[x_start+i], x[y_start+i])`, `i = 1..N-1`, in order. -/
theorem Solve_returns_command_and_trajectory (solve : solve_args α → solve_result α)
    (cos sin atan : α → α) (N n_delay : Nat) (state : Fin 8 → α) (coeffs : Fin 4 → α)
    (hN : 2 ≤ N)
    (hlen : ∀ args, Solve_args cos sin atan N n_delay state coeffs = Except.ok args →
      (solve args).x.length = n_vars N) :
    ∃ args result, Solve_args cos sin atan N n_delay state coeffs = Except.ok args ∧
      Solve solve cos sin atan N n_delay state coeffs = Except.ok result ∧
      result = [(solve args).x.getD (delta_start N) 0, (solve args).x.getD (a_start N) 0] ++
        (List.range' 1 (N - 1)).flatMap (fun i =>
          [(solve args).x.getD (x_start + i) 0, (solve args).x.getD (y_start N + i) 0]) ∧
      result.length = 2 + 2 * (N - 1) ∧
      mpc_vals result = Except.ok
        ((List.range' 1 (N - 1)).map (fun i => (solve args).x.getD (x_start + i) 0),
         (List.range' 1 (N - 1)).map (fun i => (solve args).x.getD (y_start N + i) 0)) := by
  obtain ⟨args, ha, -⟩ := Solve_args_ok cos sin atan N n_delay state coeffs hN
  refine ⟨args, _, ha, ?_, rfl, ?_, ?_⟩
  · exact Solve_ok solve cos sin atan N n_delay state coeffs hN args ha (hlen args ha)
  · simp only [List.length_append, flatMap_pairs_length, List.length_range', List.length_cons,
      List.length_nil]
  · rw [flatMap_pairs_eq]
    have h := mpc_vals_loop_pairs
      ((List.range' 1 (N - 1)).map (fun i =>
        ((solve args).x.getD (x_start + i) 0, (solve args).x.getD (y_start N + i) 0)))
      [(solve args).x.getD (delta_start N) 0, (solve args).x.getD (a_start N) 0] [] []
    simp only [List.map_map, List.nil_append] at h
    exact h

theorem Solve_returns_command_and_trajectory_witness :
    2 ≤ 2 ∧
    (∀ args, Solve_args (fun x : ℚ => x) (fun x => x) (fun x => x) 2 1 (fun _ => 0)
        (fun _ => 0) = Except.ok args →
      ((fun _ => ⟨status_type.success, List.replicate 14 0, 0⟩ :
        solve_args ℚ → solve_result ℚ) args).x.length = n_vars 2) ∧
    ∃ result, Solve (fun _ => ⟨status_type.success, List.replicate 14 0, 0⟩) (fun x : ℚ => x)
        (fun x => x) (fun x => x) 2 1 (fun _ => 0) (fun _ => 0) = Except.ok result ∧
      result.length = 2 + 2 * (2 - 1) := by
  refine ⟨by decide, fun _ _ => rfl, ?_⟩
  obtain ⟨args, result, -, h2, -, h4, -⟩ :=
    Solve_returns_command_and_trajectory (fun _ => ⟨status_type.success, List.replicate 14 0, 0⟩)
      (fun x : ℚ => x) (fun x => x) (fun x => x) 2 1 (fun _ => 0) (fun _ => 0) (by decide)
      (fun _ _ => rfl)
  exact ⟨result, h2, h4⟩

/-- C3 (as stated, refuted): with the source's `N` and `n_delay`, an optimiser that reports
a failure and hands back the vector of ones makes `Solve` return the steering value 1 and
the throttle value 1; the steering value is above 0.436332. -/
theorem Solve_steering_not_clamped :
    ∃ result, Solve (fun _ => ⟨status_type.failure 1, List.replicate (n_vars N) 1, 0⟩)
        Real.cos Real.sin Real.arctan N n_delay (fun _ => 0) (fun _ => 0) = Except.ok result ∧
      result.getD 0 0 = 1 ∧ result.getD 1 0 = 1 ∧ ¬ (result.getD 0 0 ≤ (0.436332 : ℝ)) := by
  obtain ⟨args, ha, -⟩ :=
    Solve_args_ok Real.cos Real.sin Real.arctan N n_delay (fun _ => 0) (fun _ => 0)
      (by decide)
  have h := Solve_ok (fun _ => ⟨status_type.failure 1, List.replicate (n_vars N) 1, 0⟩)
    Real.cos Real.sin Real.arctan N n_delay (fun _ => 0) (fun _ => 0) (by decide) args ha
    (by simp)
  refine ⟨_, h, ?_, ?_, ?_⟩
  · simp [delta_start_eq, N, n_vars]
  · simp [a_start_eq, N, n_vars]
  · simp [delta_start_eq, N, n_vars]; norm_num

end SolveClaims

section OrderedClaims

variable {α : Type} [LinearOrderedField α]

theorem vars_lower_delta (N : Nat) (hN : 2 ≤ N) :
    (vars_lower N (delta_start N) : α) = -0.436332 ∧
      (vars_upper N (delta_start N) : α) = 0.436332 := by
  have e6 := delta_start_eq N
  have e7 := a_start_eq N
  have h1 : ¬ (delta_start N < delta_start N) := by omega
  have h2 : delta_start N < a_start N := by omega
  simp only [vars_lower, vars_upper, h1, h2, if_true, if_false, and_self]

theorem vars_lower_a (N : Nat) :
    (vars_lower N (a_start N) : α) = -1.0 ∧ (vars_upper N (a_start N) : α) = 1.0 := by
  have e6 := delta_start_eq N
  have e7 := a_start_eq N
  have h1 : ¬ (a_start N < delta_start N) := by omega
  have h2 : ¬ (a_start N < a_start N) := by omega
  simp only [vars_lower, vars_upper, h1, h2, if_true, if_false, and_self]

/-- Whatever `Solve_args` returns has the closed form of `Solve_args_ok`. -/
theorem Solve_args_spec (cos sin atan : α → α) (N n_delay : Nat) (state : Fin 8 → α)
    (coeffs : Fin 4 → α) (hN : 2 ≤ N) (args : solve_args α)
    (ha : Solve_args cos sin atan N n_delay state coeffs = Except.ok args) :
    args.fg_eval = FG_eval cos sin atan N n_delay coeffs ∧
      args.xi.length = n_vars N ∧ args.xl.length = n_vars N ∧ args.xu.length = n_vars N ∧
      args.gl.length = n_constraints N ∧ args.gu.length = n_constraints N ∧
      (∀ j, j < n_vars N → args.xi[j]? = some (initial_value N state j) ∧
        args.xl[j]? = some (vars_lower N j) ∧ args.xu[j]? = some (vars_upper N j)) ∧
      (∀ j, j < n_constraints N → args.gl[j]? = some (constraints_bound N state j) ∧
        args.gu[j]? = some (constraints_bound N state j)) := by
  obtain ⟨args', ha', h⟩ := Solve_args_ok cos sin atan N n_delay state coeffs hN
  rw [ha] at ha'
  cases ha'
  exact h

theorem zero_within_vars_bounds (cos sin atan : α → α) (N n_delay : Nat)
    (state : Fin 8 → α) (coeffs : Fin 4 → α) (hN : 2 ≤ N) (args : solve_args α)
    (ha : Solve_args cos sin atan N n_delay state coeffs = Except.ok args) (j : Nat)
    (hj : j < n_vars N) : args.xl.getD j 0 ≤ 0 ∧ 0 ≤ args.xu.getD j 0 := by
  obtain ⟨-, -, -, -, -, -, hx, -⟩ :=
    Solve_args_spec cos sin atan N n_delay state coeffs hN args ha
  rw [List.getD_eq_getElem?_getD, List.getD_eq_getElem?_getD, (hx j hj).2.1, (hx j hj).2.2]
  simp only [Option.getD_some, vars_lower, vars_upper]
  constructor
  · split_ifs <;> norm_num
  · split_ifs <;> norm_num

/-- C3 (amended): if the vector the optimiser hands back has length `n_vars` and lies
within the variable bounds `Solve` passed to it, then, whatever the status, the steering
value `Solve` returns lies in `[-0.436332, 0.436332]` and the throttle value in
`[-1.0, 1.0]`. -/
theorem Solve_command_within_bounds (solve : solve_args α → solve_result α)
    (cos sin atan : α → α) (N n_delay : Nat) (state : Fin 8 → α) (coeffs : Fin 4 → α)
    (hN : 2 ≤ N)
    (hlen : ∀ args, Solve_args cos sin atan N n_delay state coeffs = Except.ok args →
      (solve args).x.length = n_vars N)
    (hbox : ∀ args, Solve_args cos sin atan N n_delay state coeffs = Except.ok args →
      ∀ j, j < n_vars N → args.xl.getD j 0 ≤ (solve args).x.getD j 0 ∧
        (solve args).x.getD j 0 ≤ args.xu.getD j 0) :
    ∃ result, Solve solve cos sin atan N n_delay state coeffs = Except.ok result ∧
      -0.436332 ≤ result.getD 0 0 ∧ result.getD 0 0 ≤ 0.436332 ∧
      -1.0 ≤ result.getD 1 0 ∧ result.getD 1 0 ≤ 1.0 := by
  have e6 := delta_start_eq N
  have e7 := a_start_eq N
  have en : n_vars N = 6 * N + 2 * (N - 1) := rfl
  obtain ⟨args, ha, -, -, -, -, -, -, hx, -⟩ :=
    Solve_args_ok cos sin atan N n_delay state coeffs hN
  have h := Solve_ok solve cos sin atan N n_delay state coeffs hN args ha (hlen args ha)
  have hd := hbox args ha (delta_start N) (by omega)
  have hA := hbox args ha (a_start N) (by omega)
  have xd := hx (delta_start N) (by omega)
  have xa := hx (a_start N) (by omega)
  rw [List.getD_eq_getElem?_getD args.xl, List.getD_eq_getElem?_getD args.xu, xd.2.1, xd.2.2,
    (vars_lower_delta N hN).1, (vars_lower_delta N hN).2] at hd
  rw [List.getD_eq_getElem?_getD args.xl, List.getD_eq_getElem?_getD args.xu, xa.2.1, xa.2.2,
    (vars_lower_a N).1, (vars_lower_a N).2] at hA
  exact ⟨_, h, hd.1, hd.2, hA.1, hA.2⟩

theorem Solve_command_within_bounds_witness :
    2 ≤ 2 ∧
    (∀ args, Solve_args (fun x : ℚ => x) (fun x => x) (fun x => x) 2 1 (fun _ => 0)
        (fun _ => 0) = Except.ok args →
      ((fun _ => ⟨status_type.failure 1, List.replicate 14 0, 0⟩ :
        solve_args ℚ → solve_result ℚ) args).x.length = n_vars 2) ∧
    (∀ args, Solve_args (fun x : ℚ => x) (fun x => x) (fun x => x) 2 1 (fun _ => 0)
        (fun _ => 0) = Except.ok args →
      ∀ j, j < n_vars 2 →
        args.xl.getD j 0 ≤ ((fun _ => ⟨status_type.failure 1, List.replicate 14 0, 0⟩ :
          solve_args ℚ → solve_result ℚ) args).x.getD j 0 ∧
        ((fun _ => ⟨status_type.failure 1, List.replicate 14 0, 0⟩ :
          solve_args ℚ → solve_result ℚ) args).x.getD j 0 ≤ args.xu.getD j 0) ∧
    ∃ result, Solve (fun _ => ⟨status_type.failure 1, List.replicate 14 0, 0⟩)
        (fun x : ℚ => x) (fun x => x) (fun x => x) 2 1 (fun _ => 0) (fun _ => 0) =
          Except.ok result ∧
      -0.436332 ≤ result.getD 0 0 ∧ result.getD 0 0 ≤ 0.436332 ∧
      -1.0 ≤ result.getD 1 0 ∧ result.getD 1 0 ≤ 1.0 := by
  have hbox : ∀ args, Solve_args (fun x : ℚ => x) (fun x => x) (fun x => x) 2 1 (fun _ => 0)
        (fun _ => 0) = Except.ok args →
      ∀ j, j < n_vars 2 →
        args.xl.getD j 0 ≤ ((fun _ => ⟨status_type.failure 1, List.replicate 14 0, 0⟩ :
          solve_args ℚ → solve_result ℚ) args).x.getD j 0 ∧
        ((fun _ => ⟨status_type.failure 1, List.replicate 14 0, 0⟩ :
          solve_args ℚ → solve_result ℚ) args).x.getD j 0 ≤ args.xu.getD j 0 := by
    intro args ha j hj
    have h := zero_within_vars_bounds _ _ _ 2 1 _ _ (by decide) args ha j hj
    simp only [getD_replicate_self]
    exact h
  exact ⟨by decide, fun _ _ => rfl, hbox,
    Solve_command_within_bounds (fun _ => ⟨status_type.failure 1, List.replicate 14 0, 0⟩)
      (fun x : ℚ => x) (fun x => x) (fun x => x) 2 1 (fun _ => 0) (fun _ => 0) (by decide)
      (fun _ _ => rfl) hbox⟩

end OrderedClaims


/-! ## Claims about `FG_eval` -/

section EvaluatorClaims

variable {α : Type} [Field α]

/-- C4 (as stated, refuted): with the source's `N = 10` and `n_delay = 1`, take the decision
vector that is 0 except for the first throttle `vars[a_start] = 1`.  At step `t = 2` the claim
reads the actuators at index `t - 1 = 1` (since `t - 1 = 1` does not exceed `n_delay`), which
would make the v row `v[2] - (v[1] + throttle[1] * dt) = 0`; the evaluator writes `-0.1`,
the value for `throttle[0]`. -/
theorem FG_eval_step_two_reads_first_actuation :
    ∃ fg', FG_eval Real.cos Real.sin Real.arctan N n_delay (fun _ => 0)
        (List.replicate (1 + n_constraints N) 0)
        ((List.replicate (n_vars N) (0 : ℝ)).set (a_start N) 1) = Except.ok fg' ∧
      fg'[1 + v_start N + 2]? = some (-0.1) ∧
      fg'[1 + v_start N + 2]? ≠ some
        (((List.replicate (n_vars N) (0 : ℝ)).set (a_start N) 1).getD (v_start N + 2) 0 -
          (((List.replicate (n_vars N) (0 : ℝ)).set (a_start N) 1).getD (v_start N + 2 - 1) 0 +
            ((List.replicate (n_vars N) (0 : ℝ)).set (a_start N) 1).getD
              (a_start N + (if 2 - 1 > n_delay then 2 - 1 - n_delay else 2 - 1)) 0 * dt)) := by
  obtain ⟨fg', e, -, -, -, hr⟩ := FG_eval_spec Real.cos Real.sin Real.arctan N n_delay
    (fun _ => 0) (List.replicate (1 + n_constraints N) 0)
    ((List.replicate (n_vars N) (0 : ℝ)).set (a_start N) 1) (by decide)
    (by simp) (by simp)
  have h := hr 2 (by decide) (by decide)
  simp only [rows, residuals, List.map_cons, List.map_nil, List.cons.injEq, and_true] at h
  obtain ⟨-, -, -, hv, -, -⟩ := h
  have hv' : fg'[1 + v_start N + 2]? = some (-0.1) := by
    rw [hv]
    simp [v_start_eq, a_start_eq, actuator_index, n_delay_eq, N, n_vars,
      List.getD_eq_getElem?_getD, List.getElem?_set, List.getElem?_replicate, dt]
  refine ⟨fg', e, hv', ?_⟩
  rw [hv']
  simp [v_start_eq, a_start_eq, n_delay_eq, N, n_vars, List.getD_eq_getElem?_getD,
    List.getElem?_set, List.getElem?_replicate, dt]
  norm_num

/-- C4 (amended): for every step `t` in `[1, N)` the actuator values used in the psi, v and
epsi rows of step `t` are those at index `t - 1`, unless `t` exceeds `n_delay`, in which
case they are those at index `t - 1 - n_delay`. -/
theorem FG_eval_delayed_actuation (cos sin atan : α → α) (N n_delay : Nat)
    (coeffs : Fin 4 → α) (fg vars : List α) (hN : 2 ≤ N) (hv : vars.length = n_vars N)
    (hfg : fg.length = 1 + n_constraints N) :
    ∃ fg', FG_eval cos sin atan N n_delay coeffs fg vars = Except.ok fg' ∧
      ∀ t, 1 ≤ t → t < N →
        fg'[1 + psi_start N + t]? = some (vars.getD (psi_start N + t) 0 -
          (vars.getD (psi_start N + t - 1) 0 - vars.getD (v_start N + t - 1) 0 *
            vars.getD (delta_start N + (if t > n_delay then t - 1 - n_delay else t - 1)) 0 /
              Lf * dt)) ∧
        fg'[1 + v_start N + t]? = some (vars.getD (v_start N + t) 0 -
          (vars.getD (v_start N + t - 1) 0 +
            vars.getD (a_start N + (if t > n_delay then t - 1 - n_delay else t - 1)) 0 * dt)) ∧
        fg'[1 + epsi_start N + t]? = some (vars.getD (epsi_start N + t) 0 -
          ((vars.getD (psi_start N + t - 1) 0 -
            atan (coeffs 1 + 2 * coeffs 2 * vars.getD (x_start + t - 1) 0 +
              3 * coeffs 3 * vars.getD (x_start + t - 1) 0 ^ 2)) -
            vars.getD (v_start N + t - 1) 0 *
              vars.getD (delta_start N + (if t > n_delay then t - 1 - n_delay else t - 1)) 0 /
                Lf * dt)) := by
  obtain ⟨fg', e, -, -, -, hr⟩ := FG_eval_spec cos sin atan N n_delay coeffs fg vars hN hv hfg
  refine ⟨fg', e, fun t h1 h2 => ?_⟩
  have h := hr t h1 h2
  simp only [rows, residuals, actuator_index, List.map_cons, List.map_nil, List.cons.injEq,
    and_true] at h
  exact ⟨h.2.2.1, h.2.2.2.1, h.2.2.2.2.2⟩

theorem FG_eval_delayed_actuation_witness :
    2 ≤ 2 ∧ (List.replicate 14 (0 : ℚ)).length = n_vars 2 ∧
    (List.replicate 13 (0 : ℚ)).length = 1 + n_constraints 2 ∧
    ∃ fg', FG_eval (fun x : ℚ => x) (fun x => x) (fun x => x) 2 1 (fun _ => 0)
      (List.replicate 13 0) (List.replicate 14 0) = Except.ok fg' := by
  refine ⟨by decide, by decide, by decide, ?_⟩
  obtain ⟨fg', e, -⟩ := FG_eval_delayed_actuation (fun x : ℚ => x) (fun x => x) (fun x => x)
    2 1 (fun _ => 0) (List.replicate 13 0) (List.replicate 14 0) (by decide) (by decide)
    (by decide)
  exact ⟨fg', e⟩

end EvaluatorClaims


section EvaluatorClaims2

variable {α : Type} [Field α]

/-- C5: with `dt = 0.1` the delay-step count `n_delay = static_cast<int>(0.1/dt)` is 1, and
with that `n_delay` the psi, v and epsi rows of step `t = 1` and of step `t = 2` both use
the first actuator pair `delta[0] = vars[delta_start]`, `throttle[0] = vars[a_start]`. -/
theorem FG_eval_first_steps_use_first_actuation (cos sin atan : α → α) (N : Nat)
    (coeffs : Fin 4 → α) (fg vars : List α) (hN : 3 ≤ N) (hv : vars.length = n_vars N)
    (hfg : fg.length = 1 + n_constraints N) :
    n_delay = 1 ∧ static_cast_int ((0.1 : ℚ) / dt) = 1 ∧
    ∃ fg', FG_eval cos sin atan N n_delay coeffs fg vars = Except.ok fg' ∧
      ∀ t, t = 1 ∨ t = 2 →
        fg'[1 + psi_start N + t]? = some (vars.getD (psi_start N + t) 0 -
          (vars.getD (psi_start N + t - 1) 0 - vars.getD (v_start N + t - 1) 0 *
            vars.getD (delta_start N + 0) 0 / Lf * dt)) ∧
        fg'[1 + v_start N + t]? = some (vars.getD (v_start N + t) 0 -
          (vars.getD (v_start N + t - 1) 0 + vars.getD (a_start N + 0) 0 * dt)) ∧
        fg'[1 + epsi_start N + t]? = some (vars.getD (epsi_start N + t) 0 -
          ((vars.getD (psi_start N + t - 1) 0 -
            atan (coeffs 1 + 2 * coeffs 2 * vars.getD (x_start + t - 1) 0 +
              3 * coeffs 3 * vars.getD (x_start + t - 1) 0 ^ 2)) -
            vars.getD (v_start N + t - 1) 0 * vars.getD (delta_start N + 0) 0 / Lf * dt)) := by
  refine ⟨n_delay_eq, by unfold static_cast_int dt; norm_num, ?_⟩
  obtain ⟨fg', e, -, -, -, hr⟩ :=
    FG_eval_spec cos sin atan N n_delay coeffs fg vars (by omega) hv hfg
  refine ⟨fg', e, fun t ht => ?_⟩
  have h := hr t (by omega) (by omega)
  have hi : actuator_index n_delay t = 0 := by
    rw [n_delay_eq]
    rcases ht with rfl | rfl <;> rfl
  simp only [rows, residuals, hi, List.map_cons, List.map_nil, List.cons.injEq,
    and_true] at h
  exact ⟨h.2.2.1, h.2.2.2.1, h.2.2.2.2.2⟩

theorem FG_eval_first_steps_use_first_actuation_witness :
    3 ≤ 3 ∧ (List.replicate 22 (0 : ℚ)).length = n_vars 3 ∧
    (List.replicate 19 (0 : ℚ)).length = 1 + n_constraints 3 ∧ n_delay = 1 :=
  ⟨by decide, by decide, by decide,
    (FG_eval_first_steps_use_first_actuation (fun x : ℚ => x) (fun x => x) (fun x => x) 3
      (fun _ => 0) (List.replicate 19 0) (List.replicate 22 0) (by decide) (by decide)
      (by decide)).1⟩

/-- C6: over the reals, for every coefficient vector, decision vector and step `t` in
`[1, N)`, the six constraint rows of step `t` are all zero if and only if the state at `t`
is the forward substitution of the bicycle model from the state at `t - 1`, with
`f0 = c0 + c1 x0 + c2 x0^2 + c3 x0^3`, `psides0 = atan(c1 + 2 c2 x0 + 3 c3 x0^2)` and the
effective actuators `delta_eff`, `a_eff` of step `t` (those at index `t - 1 - n_delay` when
`t > n_delay`, at index `t - 1` otherwise). -/
theorem FG_eval_rows_zero_iff_forward_substitution (N n_delay : Nat) (coeffs : Fin 4 → ℝ)
    (fg vars : List ℝ) (hN : 2 ≤ N) (hv : vars.length = n_vars N)
    (hfg : fg.length = 1 + n_constraints N) (t : Nat) (ht1 : 1 ≤ t) (ht : t < N) :
    ∃ fg', FG_eval Real.cos Real.sin Real.arctan N n_delay coeffs fg vars = Except.ok fg' ∧
      ((fg'[1 + x_start + t]? = some 0 ∧ fg'[1 + y_start N + t]? = some 0 ∧
        fg'[1 + psi_start N + t]? = some 0 ∧ fg'[1 + v_start N + t]? = some 0 ∧
        fg'[1 + cte_start N + t]? = some 0 ∧ fg'[1 + epsi_start N + t]? = some 0) ↔
      (vars.getD (x_start + t) 0 = vars.getD (x_start + t - 1) 0 +
          vars.getD (v_start N + t - 1) 0 * Real.cos (vars.getD (psi_start N + t - 1) 0) * dt ∧
        vars.getD (y_start N + t) 0 = vars.getD (y_start N + t - 1) 0 +
          vars.getD (v_start N + t - 1) 0 * Real.sin (vars.getD (psi_start N + t - 1) 0) * dt ∧
        vars.getD (psi_start N + t) 0 = vars.getD (psi_start N + t - 1) 0 -
          vars.getD (v_start N + t - 1) 0 / Lf *
            vars.getD (delta_start N + (if t > n_delay then t - 1 - n_delay else t - 1)) 0 * dt ∧
        vars.getD (v_start N + t) 0 = vars.getD (v_start N + t - 1) 0 +
          vars.getD (a_start N + (if t > n_delay then t - 1 - n_delay else t - 1)) 0 * dt ∧
        vars.getD (cte_start N + t) 0 =
          ((coeffs 0 + coeffs 1 * vars.getD (x_start + t - 1) 0 +
              coeffs 2 * vars.getD (x_start + t - 1) 0 ^ 2 +
              coeffs 3 * vars.getD (x_start + t - 1) 0 ^ 3) -
            vars.getD (y_start N + t - 1) 0) +
          vars.getD (v_start N + t - 1) 0 *
            Real.sin (vars.getD (epsi_start N + t - 1) 0) * dt ∧
        vars.getD (epsi_start N + t) 0 =
          (vars.getD (psi_start N + t - 1) 0 -
            Real.arctan (coeffs 1 + 2 * coeffs 2 * vars.getD (x_start + t - 1) 0 +
              3 * coeffs 3 * vars.getD (x_start + t - 1) 0 ^ 2)) -
          vars.getD (v_start N + t - 1) 0 *
            vars.getD (delta_start N + (if t > n_delay then t - 1 - n_delay else t - 1)) 0 / Lf * dt)) := by
  obtain ⟨fg', e, -, -, -, hr⟩ :=
    FG_eval_spec Real.cos Real.sin Real.arctan N n_delay coeffs fg vars hN hv hfg
  refine ⟨fg', e, ?_⟩
  have h := hr t ht1 ht
  simp only [rows, residuals, actuator_index, List.map_cons, List.map_nil, List.cons.injEq,
    and_true] at h
  obtain ⟨h1, h2, h3, h4, h5, h6⟩ := h
  rw [h1, h2, h3, h4, h5, h6]
  simp only [Option.some.injEq, sub_eq_zero]
  have e3 : vars.getD (v_start N + t - 1) 0 *
      vars.getD (delta_start N + (if t > n_delay then t - 1 - n_delay else t - 1)) 0 / Lf * dt =
      vars.getD (v_start N + t - 1) 0 / Lf *
        vars.getD (delta_start N + (if t > n_delay then t - 1 - n_delay else t - 1)) 0 * dt := by ring
  rw [e3]

theorem FG_eval_rows_zero_iff_forward_substitution_witness :
    2 ≤ 2 ∧ (List.replicate 14 (0 : ℝ)).length = n_vars 2 ∧
    (List.replicate 13 (0 : ℝ)).length = 1 + n_constraints 2 ∧ 1 ≤ 1 ∧ 1 < 2 ∧
    ∃ fg', FG_eval Real.cos Real.sin Real.arctan 2 1 (fun _ => 0) (List.replicate 13 0)
      (List.replicate 14 0) = Except.ok fg' := by
  refine ⟨by decide, by simp [n_vars], by simp [n_constraints], by decide, by decide, ?_⟩
  obtain ⟨fg', e, -⟩ := FG_eval_rows_zero_iff_forward_substitution 2 1 (fun _ => 0)
    (List.replicate 13 0) (List.replicate 14 0) (by decide) (by simp [n_vars])
    (by simp [n_constraints]) 1 (by decide) (by decide)
  exact ⟨fg', e⟩

end EvaluatorClaims2

section CostClaim

variable {α : Type} [LinearOrderedField α]

/-- C9: for every decision vector of length `n_vars`, the objective `fg[0]` computed by
`FG_eval` is the sum over `t` in `[0,N)` of `600 cte[t]^2 + 600 epsi[t]^2 + 1 (v[t]-60)^2`,
plus the sum over `t` in `[0,N-1)` of `1 delta[t]^2 + 1 throttle[t]^2 + 300 (delta[t] v[t])^2`,
plus the sum over `t` in `[0,N-2)` of
`800 (delta[t+1]-delta[t])^2 + 50 (throttle[t+1]-throttle[t])^2`. -/
theorem FG_eval_objective (cos sin atan : α → α) (N n_delay : Nat) (coeffs : Fin 4 → α)
    (fg vars : List α) (hN : 2 ≤ N) (hv : vars.length = n_vars N)
    (hfg : fg.length = 1 + n_constraints N) :
    ∃ fg', FG_eval cos sin atan N n_delay coeffs fg vars = Except.ok fg' ∧
      fg'[0]? = some
        ((∑ t in Finset.range N,
          (600 * (vars.getD (cte_start N + t) 0) ^ 2 +
            600 * (vars.getD (epsi_start N + t) 0) ^ 2 +
            1 * (vars.getD (v_start N + t) 0 - 60) ^ 2)) +
        (∑ t in Finset.range (N - 1),
          (1 * (vars.getD (delta_start N + t) 0) ^ 2 +
            1 * (vars.getD (a_start N + t) 0) ^ 2 +
            300 * (vars.getD (delta_start N + t) 0 * vars.getD (v_start N + t) 0) ^ 2)) +
        (∑ t in Finset.range (N - 2),
          (800 * (vars.getD (delta_start N + t + 1) 0 - vars.getD (delta_start N + t) 0) ^ 2 +
            50 * (vars.getD (a_start N + t + 1) 0 - vars.getD (a_start N + t) 0) ^ 2))) := by
  obtain ⟨fg', e, -, hc, -⟩ := FG_eval_spec cos sin atan N n_delay coeffs fg vars hN hv hfg
  refine ⟨fg', e, ?_⟩
  rw [hc]
  have k1 : (kRefV : α) = 1 := by unfold kRefV; norm_num
  have k2 : (kDelta : α) = 1 := by unfold kDelta; norm_num
  have k3 : (kA : α) = 1 := by unfold kA; norm_num
  simp only [cost_sum, k1, k2, k3, kCTE, kEPSI, kDeltaCrossA, kSeqDelta, kSeqA, ref_v]

theorem FG_eval_objective_witness :
    2 ≤ 2 ∧ (List.replicate 14 (0 : ℚ)).length = n_vars 2 ∧
    (List.replicate 13 (0 : ℚ)).length = 1 + n_constraints 2 ∧
    ∃ fg', FG_eval (fun x : ℚ => x) (fun x => x) (fun x => x) 2 1 (fun _ => 0)
      (List.replicate 13 0) (List.replicate 14 0) = Except.ok fg' ∧ fg'[0]? = some 7200 := by
  refine ⟨by decide, by decide, by decide, ?_⟩
  obtain ⟨fg', e, h⟩ := FG_eval_objective (fun x : ℚ => x) (fun x => x) (fun x => x)
    2 1 (fun _ => 0) (List.replicate 13 0) (List.replicate 14 0) (by decide) (by decide)
    (by decide)
  refine ⟨fg', e, ?_⟩
  rw [h]
  simp only [getD_replicate_self, Finset.sum_range_succ, Finset.sum_range_zero]
  norm_num

end CostClaim


section BoundsClaims

variable {α : Type} [LinearOrderedField α]

/-- C7: the six constraint rows of step 0 written by `FG_eval` lie within the constraint
bounds `Solve` assembles at the matching indices if and only if the step-0 entries of the
decision vector equal the components 0..5 of the state; every other constraint bound is 0
on both sides; and both bound vectors have length `n_constraints = 6N`. -/
theorem initial_rows_pinned_to_state (cos sin atan : α → α) (N n_delay : Nat)
    (state : Fin 8 → α) (coeffs : Fin 4 → α) (fg vars : List α) (hN : 2 ≤ N)
    (hv : vars.length = n_vars N) (hfg : fg.length = 1 + n_constraints N) :
    ∃ args fg', Solve_args cos sin atan N n_delay state coeffs = Except.ok args ∧
      args.fg_eval fg vars = Except.ok fg' ∧
      args.gl.length = n_constraints N ∧ args.gu.length = n_constraints N ∧
      n_constraints N = 6 * N ∧
      ((∀ k ∈ [x_start, y_start N, psi_start N, v_start N, cte_start N, epsi_start N],
          args.gl.getD k 0 ≤ fg'.getD (1 + k) 0 ∧ fg'.getD (1 + k) 0 ≤ args.gu.getD k 0) ↔
        (vars.getD x_start 0 = state 0 ∧ vars.getD (y_start N) 0 = state 1 ∧
          vars.getD (psi_start N) 0 = state 2 ∧ vars.getD (v_start N) 0 = state 3 ∧
          vars.getD (cte_start N) 0 = state 4 ∧ vars.getD (epsi_start N) 0 = state 5)) ∧
      (∀ k, k < n_constraints N →
        k ∉ [x_start, y_start N, psi_start N, v_start N, cte_start N, epsi_start N] →
        args.gl[k]? = some 0 ∧ args.gu[k]? = some 0) := by
  have e0 : x_start = 0 := rfl
  have e1 := y_start_eq N
  have e2 := psi_start_eq N
  have e3 := v_start_eq N
  have e4 := cte_start_eq N
  have e5 := epsi_start_eq N
  have ec : n_constraints N = 6 * N := rfl
  obtain ⟨args, ha, hf, -, -, -, lgl, lgu, -, hg⟩ :=
    Solve_args_ok cos sin atan N n_delay state coeffs hN
  obtain ⟨fg', e, -, -, hr, -⟩ := FG_eval_spec cos sin atan N n_delay coeffs fg vars hN hv hfg
  refine ⟨args, fg', ha, by rw [hf]; exact e, lgl, lgu, rfl, ?_, ?_⟩
  · simp only [rows, state_at, Nat.add_zero, List.map_cons, List.map_nil, List.cons.injEq,
      and_true] at hr
    obtain ⟨r0, r1, r2, r3, r4, r5⟩ := hr
    have b0 : constraints_bound N state x_start = state 0 := by
      simp (disch := omega) only [constraints_bound, if_true]
    have b1 : constraints_bound N state (y_start N) = state 1 := by
      simp (disch := omega) only [constraints_bound, if_neg, if_true]
    have b2 : constraints_bound N state (psi_start N) = state 2 := by
      simp (disch := omega) only [constraints_bound, if_neg, if_true]
    have b3 : constraints_bound N state (v_start N) = state 3 := by
      simp (disch := omega) only [constraints_bound, if_neg, if_true]
    have b4 : constraints_bound N state (cte_start N) = state 4 := by
      simp (disch := omega) only [constraints_bound, if_neg, if_true]
    have b5 : constraints_bound N state (epsi_start N) = state 5 := by
      simp (disch := omega) only [constraints_bound, if_neg, if_true]
    simp only [List.mem_cons, List.mem_singleton, List.not_mem_nil, or_false, forall_eq_or_imp,
      forall_eq, List.getD_eq_getElem?_getD args.gl, List.getD_eq_getElem?_getD args.gu,
      List.getD_eq_getElem?_getD fg', (hg x_start (by omega)).1, (hg x_start (by omega)).2,
      (hg (y_start N) (by omega)).1, (hg (y_start N) (by omega)).2,
      (hg (psi_start N) (by omega)).1, (hg (psi_start N) (by omega)).2,
      (hg (v_start N) (by omega)).1, (hg (v_start N) (by omega)).2,
      (hg (cte_start N) (by omega)).1, (hg (cte_start N) (by omega)).2,
      (hg (epsi_start N) (by omega)).1, (hg (epsi_start N) (by omega)).2,
      r0, r1, r2, r3, r4, r5, Option.getD_some, b0, b1, b2, b3, b4, b5]
    constructor
    · rintro ⟨⟨a0, c0⟩, ⟨a1, c1⟩, ⟨a2, c2⟩, ⟨a3, c3⟩, ⟨a4, c4⟩, ⟨a5, c5⟩⟩
      exact ⟨le_antisymm c0 a0, le_antisymm c1 a1, le_antisymm c2 a2, le_antisymm c3 a3,
        le_antisymm c4 a4, le_antisymm c5 a5⟩
    · rintro ⟨h0, h1, h2, h3, h4, h5⟩
      rw [h0, h1, h2, h3, h4, h5]
      exact ⟨⟨le_refl _, le_refl _⟩, ⟨le_refl _, le_refl _⟩, ⟨le_refl _, le_refl _⟩,
        ⟨le_refl _, le_refl _⟩, ⟨le_refl _, le_refl _⟩, ⟨le_refl _, le_refl _⟩⟩
  · intro k hk hnot
    simp only [List.mem_cons, List.mem_singleton, List.not_mem_nil, or_false, not_or] at hnot
    obtain ⟨n0, n1, n2, n3, n4, n5⟩ := hnot
    have b : constraints_bound N state k = 0 := by
      simp only [constraints_bound, n0, n1, n2, n3, n4, n5, if_false]
    rw [(hg k hk).1, (hg k hk).2, b]
    exact ⟨rfl, rfl⟩

theorem initial_rows_pinned_to_state_witness :
    2 ≤ 2 ∧ (List.replicate 14 (0 : ℚ)).length = n_vars 2 ∧
    (List.replicate 13 (0 : ℚ)).length = 1 + n_constraints 2 ∧
    ∃ args, Solve_args (fun x : ℚ => x) (fun x => x) (fun x => x) 2 1 (fun _ => 0)
      (fun _ => 0) = Except.ok args ∧ args.gl.length = n_constraints 2 := by
  refine ⟨by decide, by decide, by decide, ?_⟩
  obtain ⟨args, fg', ha, -, hl, -⟩ := initial_rows_pinned_to_state (fun x : ℚ => x)
    (fun x => x) (fun x => x) 2 1 (fun _ => 0) (fun _ => 0) (List.replicate 13 0)
    (List.replicate 14 0) (by decide) (by decide) (by decide)
  exact ⟨args, ha, hl⟩

end BoundsClaims

section BoundsClaims2

variable {α : Type} [Field α]

/-- C8: the two variable bound vectors built by `Solve` have length `n_vars`; at every index
below `delta_start` the bounds are `[-1.0e19, 1.0e19]`, from `delta_start` up to `a_start`
they are `[-0.436332, 0.436332]`, from `a_start` up to `n_vars` they are `[-1.0, 1.0]`; and
no element below `n_vars` is left unassigned. -/
theorem vars_bounds_by_block (N : Nat) (hN : 2 ≤ N) :
    ∃ lb ub : List (Option α), Solve_vars_bounds N = Except.ok (lb, ub) ∧
      lb.length = n_vars N ∧ ub.length = n_vars N ∧
      (∀ i, i < delta_start N →
        lb[i]? = some (some (-1.0e19)) ∧ ub[i]? = some (some 1.0e19)) ∧
      (∀ i, delta_start N ≤ i → i < a_start N →
        lb[i]? = some (some (-0.436332)) ∧ ub[i]? = some (some 0.436332)) ∧
      (∀ i, a_start N ≤ i → i < n_vars N →
        lb[i]? = some (some (-1.0)) ∧ ub[i]? = some (some 1.0)) ∧
      (∀ i, i < n_vars N → lb[i]? ≠ some none ∧ ub[i]? ≠ some none) := by
  have e6 := delta_start_eq N
  have e7 := a_start_eq N
  have en : n_vars N = 6 * N + 2 * (N - 1) := rfl
  obtain ⟨lb, ub, e, ll, lu, gl, gu⟩ := Solve_vars_bounds_ok (α := α) N hN
  refine ⟨lb, ub, e, ll, lu, fun i h => ?_, fun i h1 h2 => ?_, fun i h1 h2 => ?_, fun i h => ?_⟩
  · rw [gl i (by omega), gu i (by omega)]
    simp only [vars_lower, vars_upper, h, if_true, and_self]
  · have h3 : ¬ i < delta_start N := by omega
    rw [gl i (by omega), gu i (by omega)]
    simp only [vars_lower, vars_upper, h3, h2, if_true, if_false, and_self]
  · have h3 : ¬ i < delta_start N := by omega
    have h4 : ¬ i < a_start N := by omega
    rw [gl i (by omega), gu i (by omega)]
    simp only [vars_lower, vars_upper, h3, h4, if_false, and_self]
  · rw [gl i h, gu i h]
    simp

theorem vars_bounds_by_block_witness :
    2 ≤ 2 ∧ ∃ lb ub : List (Option ℚ), Solve_vars_bounds 2 = Except.ok (lb, ub) ∧
      lb.length = n_vars 2 ∧ ub.length = n_vars 2 := by
  refine ⟨by decide, ?_⟩
  obtain ⟨lb, ub, e, l1, l2, -⟩ := vars_bounds_by_block (α := ℚ) 2 (by decide)
  exact ⟨lb, ub, e, l1, l2⟩

theorem Solve_result_congr {β : Type} (N : Nat) (s1 s2 : solve_result β) (h : s1.x = s2.x) :
    Solve_result N s1 = Solve_result N s2 := by
  simp only [Solve_result, h]

/-- C10: what `Solve` returns is a function of the optimiser's final decision vector only.
For two optimisers whose results have the same vector `x` (of length `n_vars`), whatever
their status and objective value, `Solve` returns the same list, and it does return one. -/
theorem Solve_ignores_status (solve1 solve2 : solve_args α → solve_result α)
    (cos sin atan : α → α) (N n_delay : Nat) (state : Fin 8 → α) (coeffs : Fin 4 → α)
    (hN : 2 ≤ N) (hx : ∀ args, (solve1 args).x = (solve2 args).x)
    (hlen : ∀ args, Solve_args cos sin atan N n_delay state coeffs = Except.ok args →
      (solve1 args).x.length = n_vars N) :
    Solve solve1 cos sin atan N n_delay state coeffs =
        Solve solve2 cos sin atan N n_delay state coeffs ∧
      ∃ result, Solve solve1 cos sin atan N n_delay state coeffs = Except.ok result := by
  obtain ⟨args, ha, -⟩ := Solve_args_ok cos sin atan N n_delay state coeffs hN
  refine ⟨?_, _, Solve_ok solve1 cos sin atan N n_delay state coeffs hN args ha (hlen args ha)⟩
  simp only [Solve, ha, ok_bind]
  exact Solve_result_congr N _ _ (hx args)

theorem Solve_ignores_status_witness :
    2 ≤ 2 ∧
    (∀ args : solve_args ℚ,
      ((fun _ => ⟨status_type.success, List.replicate 14 0, 0⟩ :
        solve_args ℚ → solve_result ℚ) args).x =
      ((fun _ => ⟨status_type.failure 3, List.replicate 14 0, 5⟩ :
        solve_args ℚ → solve_result ℚ) args).x) ∧
    Solve (fun _ => ⟨status_type.success, List.replicate 14 0, 0⟩) (fun x : ℚ => x)
        (fun x => x) (fun x => x) 2 1 (fun _ => 0) (fun _ => 0) =
      Solve (fun _ => ⟨status_type.failure 3, List.replicate 14 0, 5⟩) (fun x : ℚ => x)
        (fun x => x) (fun x => x) 2 1 (fun _ => 0) (fun _ => 0) :=
  ⟨by decide, fun _ => rfl,
    (Solve_ignores_status (fun _ => ⟨status_type.success, List.replicate 14 0, 0⟩)
      (fun _ => ⟨status_type.failure 3, List.replicate 14 0, 5⟩) (fun x : ℚ => x)
      (fun x => x) (fun x => x) 2 1 (fun _ => 0) (fun _ => 0) (by decide) (fun _ => rfl)
      (fun _ _ => rfl)).1⟩

end BoundsClaims2

/-! ## Waypoint transform and telemetry state -/

section TelemetryLemmas

variable {α : Type} [Field α]

/-- The waypoint loop in closed form: with a `ptsy` entry for every waypoint used, the
transform returns without a fault two vectors of length `min ptsx.size() MAX_POLY_FIT_NUM`
whose elements are all assigned. -/
theorem transform_waypoints_ok (cos sin : α → α) (ptsx ptsy : List α) (px py psi : α)
    (h : min ptsx.length MAX_POLY_FIT_NUM ≤ ptsy.length) :
    ∃ tx ty : List (Option α), transform_waypoints cos sin ptsx ptsy px py psi =
        Except.ok (tx, ty) ∧
      tx.length = min ptsx.length MAX_POLY_FIT_NUM ∧
      ty.length = min ptsx.length MAX_POLY_FIT_NUM ∧
      ∀ i, i < min ptsx.length MAX_POLY_FIT_NUM →
        tx[i]? = some (some ((ptsx.getD i 0 - px) * cos (-psi) -
          (ptsy.getD i 0 - py) * sin (-psi))) ∧
        ty[i]? = some (some ((ptsx.getD i 0 - px) * sin (-psi) +
          (ptsy.getD i 0 - py) * cos (-psi))) := by
  have hD : (Dvector α (min ptsx.length MAX_POLY_FIT_NUM)).length =
      min ptsx.length MAX_POLY_FIT_NUM := by simp [Dvector]
  have hI := forLoop_inv (transform_step cos sin ptsx ptsy px py psi)
    (fun t b => b.1.length = min ptsx.length MAX_POLY_FIT_NUM ∧
      b.2.length = min ptsx.length MAX_POLY_FIT_NUM ∧
      ∀ i, i < t →
        b.1[i]? = some (some ((ptsx.getD i 0 - px) * cos (-psi) -
          (ptsy.getD i 0 - py) * sin (-psi))) ∧
        b.2[i]? = some (some ((ptsx.getD i 0 - px) * sin (-psi) +
          (ptsy.getD i 0 - py) * cos (-psi))))
    (min ptsx.length MAX_POLY_FIT_NUM - 0) 0
    (Dvector α (min ptsx.length MAX_POLY_FIT_NUM), Dvector α (min ptsx.length MAX_POLY_FIT_NUM))
    ⟨hD, hD, fun i hi => absurd hi (Nat.not_lt_zero i)⟩
    (fun t b _ h2 hi => by
      obtain ⟨l1, l2, g⟩ := hi
      have hx : t < ptsx.length := by omega
      have hy : t < ptsy.length := by omega
      refine ⟨(b.1.set t (some ((ptsx.getD t 0 - px) * cos (-psi) -
          (ptsy.getD t 0 - py) * sin (-psi))),
        b.2.set t (some ((ptsx.getD t 0 - px) * sin (-psi) +
          (ptsy.getD t 0 - py) * cos (-psi)))), ?_, ?_, ?_, ?_⟩
      · simp (disch := omega) only [transform_step, ↓bind_rd_ok, ↓bind_wr_ok, pure_eq_ok]
      · simpa using l1
      · simpa using l2
      · intro i hi
        by_cases hit : i = t
        · subst hit
          exact ⟨List.getElem?_set_self (by omega), List.getElem?_set_self (by omega)⟩
        · rw [List.getElem?_set_ne (Ne.symm hit), List.getElem?_set_ne (Ne.symm hit)]
          exact g i (by omega))
  obtain ⟨b, e, l1, l2, g⟩ := hI
  exact ⟨b.1, b.2, e, l1, l2, fun i hi => g i (by omega)⟩

end TelemetryLemmas

section TelemetryClaims

/-- C12: for every pose and every pair of waypoint arrays (with a `ptsy` entry for every
waypoint used), the frame transform returns arrays of length `min(len(ptsx), 10)` whose
entry `i` is the `i`-th waypoint translated by `(-px, -py)` and rotated by `-psi`:
`(dx cos psi + dy sin psi, -dx sin psi + dy cos psi)`; pose `(1, 1, 0)` and waypoint `(2, 1)`
give `(1, 0)`, and empty input gives empty output. -/
theorem transform_waypoints_rotates (ptsx ptsy : List ℝ) (px py psi : ℝ)
    (h : min ptsx.length MAX_POLY_FIT_NUM ≤ ptsy.length) :
    (∃ tx ty : List (Option ℝ), transform_waypoints Real.cos Real.sin ptsx ptsy px py psi =
        Except.ok (tx, ty) ∧
      tx.length = min ptsx.length 10 ∧ ty.length = min ptsx.length 10 ∧
      ∀ i, i < min ptsx.length 10 →
        tx[i]? = some (some ((ptsx.getD i 0 - px) * Real.cos psi +
          (ptsy.getD i 0 - py) * Real.sin psi)) ∧
        ty[i]? = some (some (-(ptsx.getD i 0 - px) * Real.sin psi +
          (ptsy.getD i 0 - py) * Real.cos psi))) ∧
    transform_waypoints Real.cos Real.sin [2] [1] 1 1 0 = Except.ok ([some 1], [some 0]) ∧
    transform_waypoints Real.cos Real.sin [] [] px py psi = Except.ok ([], []) := by
  refine ⟨?_, ?_, ?_⟩
  · obtain ⟨tx, ty, e, l1, l2, g⟩ :=
      transform_waypoints_ok Real.cos Real.sin ptsx ptsy px py psi h
    refine ⟨tx, ty, e, l1, l2, fun i hi => ?_⟩
    obtain ⟨g1, g2⟩ := g i hi
    rw [g1, g2, Real.cos_neg, Real.sin_neg]
    constructor
    · congr 2; ring
    · congr 2; ring
  · simp [transform_waypoints, MAX_POLY_FIT_NUM, Dvector, forLoop, transform_step, rd, wr,
      ok_bind, pure_eq_ok]
    norm_num
  · simp [transform_waypoints, MAX_POLY_FIT_NUM, Dvector, forLoop]

theorem transform_waypoints_rotates_witness :
    min ([2] : List ℝ).length MAX_POLY_FIT_NUM ≤ ([1] : List ℝ).length ∧
    transform_waypoints Real.cos Real.sin [2] [1] 1 1 0 = Except.ok ([some 1], [some 0]) :=
  ⟨by decide, (transform_waypoints_rotates [2] [1] 1 1 0 (by decide)).2.1⟩

/-- C19: the frame transform is a rigid motion centred on the vehicle.  For every pose and
every two waypoints `i`, `j` it transforms, the transformed point `i` has the squared norm
`(wx-px)^2 + (wy-py)^2`, it is `(0, 0)` when the waypoint is at the vehicle position, and
the squared distance between the transformed points `i` and `j` is that between the
waypoints. -/
theorem transform_waypoints_rigid (ptsx ptsy : List ℝ) (px py psi : ℝ)
    (h : min ptsx.length MAX_POLY_FIT_NUM ≤ ptsy.length) :
    ∃ tx ty : List (Option ℝ), transform_waypoints Real.cos Real.sin ptsx ptsy px py psi =
        Except.ok (tx, ty) ∧
      ∀ i, i < min ptsx.length MAX_POLY_FIT_NUM →
        ∃ xi yi, tx[i]? = some (some xi) ∧ ty[i]? = some (some yi) ∧
          xi ^ 2 + yi ^ 2 = (ptsx.getD i 0 - px) ^ 2 + (ptsy.getD i 0 - py) ^ 2 ∧
          (ptsx.getD i 0 = px → ptsy.getD i 0 = py → xi = 0 ∧ yi = 0) ∧
          ∀ j, j < min ptsx.length MAX_POLY_FIT_NUM →
            ∃ xj yj, tx[j]? = some (some xj) ∧ ty[j]? = some (some yj) ∧
              (xi - xj) ^ 2 + (yi - yj) ^ 2 =
                (ptsx.getD i 0 - ptsx.getD j 0) ^ 2 + (ptsy.getD i 0 - ptsy.getD j 0) ^ 2 := by
  obtain ⟨tx, ty, e, -, -, g⟩ :=
    transform_waypoints_ok Real.cos Real.sin ptsx ptsy px py psi h
  refine ⟨tx, ty, e, fun i hi => ⟨_, _, (g i hi).1, (g i hi).2, ?_, ?_, fun j hj =>
    ⟨_, _, (g j hj).1, (g j hj).2, ?_⟩⟩⟩
  · have hcs := Real.cos_sq_add_sin_sq (-psi)
    linear_combination ((ptsx.getD i 0 - px) ^ 2 + (ptsy.getD i 0 - py) ^ 2) * hcs
  · intro hx hy
    rw [hx, hy]
    simp
  · have hcs := Real.cos_sq_add_sin_sq (-psi)
    linear_combination
      ((ptsx.getD i 0 - ptsx.getD j 0) ^ 2 + (ptsy.getD i 0 - ptsy.getD j 0) ^ 2) * hcs

theorem transform_waypoints_rigid_witness :
    min ([2, 5] : List ℝ).length MAX_POLY_FIT_NUM ≤ ([1, 3] : List ℝ).length ∧
    ∃ tx ty : List (Option ℝ), transform_waypoints Real.cos Real.sin [2, 5] [1, 3] 1 1 0 =
      Except.ok (tx, ty) := by
  refine ⟨by decide, ?_⟩
  obtain ⟨tx, ty, e, -⟩ := transform_waypoints_rigid [2, 5] [1, 3] 1 1 0 (by decide)
  exact ⟨tx, ty, e⟩

/-- C13: for every raw steering value `s` with `-0.436332 ≤ s ≤ 0.436332`, the steering
command of the reply, `s / deg2rad(25) = s / (25 π / 180)`, lies in `[-1, 1]`, and the
throttle command is the raw throttle unchanged. -/
theorem steering_command_normalised (result : List ℝ) (s throttle : ℝ)
    (h0 : result[0]? = some s) (h1 : result[1]? = some throttle)
    (hlo : -0.436332 ≤ s) (hhi : s ≤ 0.436332) :
    command Real.pi result = Except.ok (s / deg2rad Real.pi 25, throttle) ∧
      deg2rad Real.pi 25 = 25 * Real.pi / 180 ∧
      -1 ≤ s / deg2rad Real.pi 25 ∧ s / deg2rad Real.pi 25 ≤ 1 := by
  have hpi := Real.pi_gt_d6
  have hd : deg2rad Real.pi 25 = 25 * Real.pi / 180 := rfl
  have hpos : (0 : ℝ) < deg2rad Real.pi 25 := by rw [hd]; positivity
  have hge : (0.436332 : ℝ) ≤ deg2rad Real.pi 25 := by
    rw [hd]; norm_num at hpi ⊢; linarith
  refine ⟨?_, hd, ?_, ?_⟩
  · simp only [command, rd_of_get _ _ _ h0, rd_of_get _ _ _ h1, ok_bind, pure_eq_ok]
  · rw [le_div_iff₀ hpos]; linarith
  · rw [div_le_iff₀ hpos]; linarith

theorem steering_command_normalised_witness :
    ([0.2, 0.5] : List ℝ)[0]? = some (0.2 : ℝ) ∧ ([0.2, 0.5] : List ℝ)[1]? = some (0.5 : ℝ) ∧
    (-0.436332 : ℝ) ≤ 0.2 ∧ (0.2 : ℝ) ≤ 0.436332 ∧
    command Real.pi [0.2, 0.5] = Except.ok (0.2 / deg2rad Real.pi 25, 0.5) :=
  ⟨by simp, by simp, by norm_num, by norm_num,
    (steering_command_normalised [0.2, 0.5] 0.2 0.5 (by simp) (by simp) (by norm_num)
      (by norm_num)).1⟩

end TelemetryClaims

section TelemetryClaims2

variable {α : Type} [LinearOrderedField α]

/-- C15: for every cubic coefficient vector `c`, speed and last actuator values, the handler
derives `cte0 = polyeval(c, 0) = c0` and `epsi0 = -atan(c1)` and passes `Solve` the state
`(0, 0, 0, v, c0, -atan(c1), steering_angle, throttle)`; for `c = [2, 0.5, -0.1, 0]` this is
`cte0 = 2` and `epsi0 = -atan(0.5)`. -/
theorem telemetry_state_eq (atan : α → α) (c : Fin 4 → α) (v steer_value throttle_value : α) :
    polyeval c 0 = c 0 ∧
    telemetry_state atan c v steer_value throttle_value =
      ![0, 0, 0, v, c 0, -atan (c 1), steer_value, throttle_value] ∧
    telemetry_state atan ![2, 0.5, -0.1, 0] v steer_value throttle_value =
      ![0, 0, 0, v, 2, -atan 0.5, steer_value, throttle_value] ∧
    ∀ (solve : solve_args α → solve_result α) (polyfit : List α → List α → Nat → Fin 4 → α)
      (cos sin : α → α) (pi : α) (N n_delay : Nat) (ptsx ptsy : List α) (px py psi : α)
      (tx ty : List (Option α)) (xs ys : List α),
      transform_waypoints cos sin ptsx ptsy px py psi = Except.ok (tx, ty) →
      values tx = Except.ok xs → values ty = Except.ok ys → polyfit xs ys 3 = c →
      on_telemetry solve polyfit cos sin atan pi N n_delay ptsx ptsy px py psi v steer_value
          throttle_value =
        (Solve solve cos sin atan N n_delay
          ![0, 0, 0, v, c 0, -atan (c 1), steer_value, throttle_value] c >>= fun result =>
            command pi result >>= fun steer_throttle =>
              mpc_vals result >>= fun mpc_xy => pure (steer_throttle, mpc_xy)) := by
  have h0 : polyeval c 0 = c 0 := by simp [polyeval]
  have h1 : telemetry_state atan c v steer_value throttle_value =
      ![0, 0, 0, v, c 0, -atan (c 1), steer_value, throttle_value] := by
    simp only [telemetry_state, h0]
  refine ⟨h0, h1, ?_, ?_⟩
  · simp [telemetry_state, polyeval]
  · intro solve polyfit cos sin pi N n_delay ptsx ptsy px py psi tx ty xs ys ht hx hy hc
    simp only [on_telemetry, ht, hx, hy, hc, h1, ok_bind]

end TelemetryClaims2

/-! ## Initial point, cost sign and unused actuators -/

section InitialGuess

variable {α : Type} [Field α]

/-- C14: the initial point `Solve` passes to the optimiser has length `n_vars`, holds the six
state components at `x_start`, ..., `epsi_start`, the previous delta and throttle at
`delta_start` and `a_start`, and 0 at every other index. -/
theorem Solve_initial_guess (cos sin atan : α → α) (N n_delay : Nat) (state : Fin 8 → α)
    (coeffs : Fin 4 → α) (hN : 2 ≤ N) :
    ∃ args : solve_args α, Solve_args cos sin atan N n_delay state coeffs = Except.ok args ∧
      args.xi.length = n_vars N ∧
      args.xi[x_start]? = some (state 0) ∧ args.xi[y_start N]? = some (state 1) ∧
      args.xi[psi_start N]? = some (state 2) ∧ args.xi[v_start N]? = some (state 3) ∧
      args.xi[cte_start N]? = some (state 4) ∧ args.xi[epsi_start N]? = some (state 5) ∧
      args.xi[delta_start N]? = some (state 6) ∧ args.xi[a_start N]? = some (state 7) ∧
      ∀ j, j < n_vars N →
        j ∉ [x_start, y_start N, psi_start N, v_start N, cte_start N, epsi_start N,
          delta_start N, a_start N] → args.xi[j]? = some 0 := by
  have e0 : x_start = 0 := rfl
  have e1 := y_start_eq N
  have e2 := psi_start_eq N
  have e3 := v_start_eq N
  have e4 := cte_start_eq N
  have e5 := epsi_start_eq N
  have e6 := delta_start_eq N
  have e7 := a_start_eq N
  have en : n_vars N = 6 * N + 2 * (N - 1) := rfl
  obtain ⟨args, ha, -, lxi, -, -, -, -, hx, -⟩ :=
    Solve_args_ok cos sin atan N n_delay state coeffs hN
  refine ⟨args, ha, lxi, ?_, ?_, ?_, ?_, ?_, ?_, ?_, ?_, ?_⟩
  · rw [(hx x_start (by omega)).1]
    simp (disch := omega) only [initial_value, if_true]
  · rw [(hx (y_start N) (by omega)).1]
    simp (disch := omega) only [initial_value, if_neg, if_true]
  · rw [(hx (psi_start N) (by omega)).1]
    simp (disch := omega) only [initial_value, if_neg, if_true]
  · rw [(hx (v_start N) (by omega)).1]
    simp (disch := omega) only [initial_value, if_neg, if_true]
  · rw [(hx (cte_start N) (by omega)).1]
    simp (disch := omega) only [initial_value, if_neg, if_true]
  · rw [(hx (epsi_start N) (by omega)).1]
    simp (disch := omega) only [initial_value, if_neg, if_true]
  · rw [(hx (delta_start N) (by omega)).1]
    simp (disch := omega) only [initial_value, if_neg, if_true]
  · rw [(hx (a_start N) (by omega)).1]
    simp (disch := omega) only [initial_value, if_neg, if_true]
  · intro j hj hnot
    simp only [List.mem_cons, List.mem_singleton, List.not_mem_nil, or_false, not_or] at hnot
    obtain ⟨n0, n1, n2, n3, n4, n5, n6, n7⟩ := hnot
    rw [(hx j hj).1]
    simp only [initial_value, n0, n1, n2, n3, n4, n5, n6, n7, if_false]

theorem Solve_initial_guess_witness :
    2 ≤ 2 ∧ ∃ args : solve_args ℚ, Solve_args (fun x : ℚ => x) (fun x => x) (fun x => x) 2 1
      ![1, 2, 3, 4, 5, 6, 7, 8] (fun _ => 0) = Except.ok args ∧
      args.xi[delta_start 2]? = some 7 := by
  refine ⟨by decide, ?_⟩
  obtain ⟨args, ha, -, -, -, -, -, -, -, h6, -⟩ := Solve_initial_guess (fun x : ℚ => x)
    (fun x => x) (fun x => x) 2 1 ![1, 2, 3, 4, 5, 6, 7, 8] (fun _ => 0) (by decide)
  exact ⟨args, ha, by simpa using h6⟩

end InitialGuess

section CostSign

variable {α : Type} [LinearOrderedField α]

theorem reference_term_nonneg (a b c : α) :
    0 ≤ kCTE * a ^ 2 + kEPSI * b ^ 2 + kRefV * (c - ref_v) ^ 2 := by
  simp only [kCTE, kEPSI, kRefV, ref_v]
  positivity

theorem actuator_term_nonneg (d a v : α) :
    0 ≤ kDelta * d ^ 2 + kA * a ^ 2 + kDeltaCrossA * (d * v) ^ 2 := by
  simp only [kDelta, kA, kDeltaCrossA]
  positivity

theorem sequential_term_nonneg (d1 d0 a1 a0 : α) :
    0 ≤ kSeqDelta * (d1 - d0) ^ 2 + kSeqA * (a1 - a0) ^ 2 := by
  simp only [kSeqDelta, kSeqA]
  positivity

theorem reference_term_eq_zero (a b c : α)
    (h : kCTE * a ^ 2 + kEPSI * b ^ 2 + kRefV * (c - ref_v) ^ 2 = 0) :
    a = 0 ∧ b = 0 ∧ c = 60 := by
  simp only [kCTE, kEPSI, kRefV, ref_v] at h
  have ha := sq_nonneg a
  have hb := sq_nonneg b
  have hc := sq_nonneg (c - 60)
  have h1 : (1.0 : α) = 1 := by norm_num
  rw [h1] at h
  have a0 : a ^ 2 = 0 := by linarith
  have b0 : b ^ 2 = 0 := by linarith
  have c0 : (c - 60) ^ 2 = 0 := by linarith
  exact ⟨pow_eq_zero_iff (two_ne_zero) |>.mp a0, pow_eq_zero_iff (two_ne_zero) |>.mp b0,
    sub_eq_zero.mp (pow_eq_zero_iff (two_ne_zero) |>.mp c0)⟩

theorem actuator_term_eq_zero (d a v : α)
    (h : kDelta * d ^ 2 + kA * a ^ 2 + kDeltaCrossA * (d * v) ^ 2 = 0) :
    d = 0 ∧ a = 0 := by
  simp only [kDelta, kA, kDeltaCrossA] at h
  have hd := sq_nonneg d
  have ha := sq_nonneg a
  have hc := sq_nonneg (d * v)
  have h1 : (1.0 : α) = 1 := by norm_num
  rw [h1] at h
  have d0 : d ^ 2 = 0 := by linarith
  have a0 : a ^ 2 = 0 := by linarith
  exact ⟨pow_eq_zero_iff (two_ne_zero) |>.mp d0, pow_eq_zero_iff (two_ne_zero) |>.mp a0⟩

/-- The objective in closed form is never negative. -/
theorem cost_sum_nonneg (N : Nat) (vars : List α) : 0 ≤ cost_sum N vars := by
  unfold cost_sum
  have h1 := Finset.sum_nonneg (s := Finset.range N) (fun t _ =>
    reference_term_nonneg (vars.getD (cte_start N + t) 0) (vars.getD (epsi_start N + t) 0)
      (vars.getD (v_start N + t) 0))
  have h2 := Finset.sum_nonneg (s := Finset.range (N - 1)) (fun t _ =>
    actuator_term_nonneg (vars.getD (delta_start N + t) 0) (vars.getD (a_start N + t) 0)
      (vars.getD (v_start N + t) 0))
  have h3 := Finset.sum_nonneg (s := Finset.range (N - 2)) (fun t _ =>
    sequential_term_nonneg (vars.getD (delta_start N + t + 1) 0)
      (vars.getD (delta_start N + t) 0) (vars.getD (a_start N + t + 1) 0)
      (vars.getD (a_start N + t) 0))
  linarith

/-- The objective in closed form is 0 exactly when every tracking error is 0, every speed
is `ref_v = 60` and every actuator value is 0. -/
theorem cost_sum_eq_zero_iff (N : Nat) (vars : List α) :
    cost_sum N vars = 0 ↔
      (∀ t, t < N → vars.getD (cte_start N + t) 0 = 0 ∧ vars.getD (epsi_start N + t) 0 = 0 ∧
        vars.getD (v_start N + t) 0 = 60) ∧
      (∀ t, t < N - 1 → vars.getD (delta_start N + t) 0 = 0 ∧
        vars.getD (a_start N + t) 0 = 0) := by
  have h1 := Finset.sum_nonneg (s := Finset.range N) (fun t _ =>
    reference_term_nonneg (vars.getD (cte_start N + t) 0) (vars.getD (epsi_start N + t) 0)
      (vars.getD (v_start N + t) 0))
  have h2 := Finset.sum_nonneg (s := Finset.range (N - 1)) (fun t _ =>
    actuator_term_nonneg (vars.getD (delta_start N + t) 0) (vars.getD (a_start N + t) 0)
      (vars.getD (v_start N + t) 0))
  have h3 := Finset.sum_nonneg (s := Finset.range (N - 2)) (fun t _ =>
    sequential_term_nonneg (vars.getD (delta_start N + t + 1) 0)
      (vars.getD (delta_start N + t) 0) (vars.getD (a_start N + t + 1) 0)
      (vars.getD (a_start N + t) 0))
  constructor
  · intro h
    unfold cost_sum at h
    have s1 : (∑ t in Finset.range N, (kCTE * (vars.getD (cte_start N + t) 0) ^ 2 +
        kEPSI * (vars.getD (epsi_start N + t) 0) ^ 2 +
        kRefV * (vars.getD (v_start N + t) 0 - ref_v) ^ 2)) = 0 := by linarith
    have s2 : (∑ t in Finset.range (N - 1), (kDelta * (vars.getD (delta_start N + t) 0) ^ 2 +
        kA * (vars.getD (a_start N + t) 0) ^ 2 +
        kDeltaCrossA * (vars.getD (delta_start N + t) 0 * vars.getD (v_start N + t) 0) ^ 2)) =
        0 := by linarith
    rw [Finset.sum_eq_zero_iff_of_nonneg (fun t _ => reference_term_nonneg _ _ _)] at s1
    rw [Finset.sum_eq_zero_iff_of_nonneg (fun t _ => actuator_term_nonneg _ _ _)] at s2
    exact ⟨fun t ht => reference_term_eq_zero _ _ _ (s1 t (Finset.mem_range.mpr ht)),
      fun t ht => actuator_term_eq_zero _ _ _ (s2 t (Finset.mem_range.mpr ht))⟩
  · rintro ⟨g1, g2⟩
    unfold cost_sum
    have s1 : (∑ t in Finset.range N, (kCTE * (vars.getD (cte_start N + t) 0) ^ 2 +
        kEPSI * (vars.getD (epsi_start N + t) 0) ^ 2 +
        kRefV * (vars.getD (v_start N + t) 0 - ref_v) ^ 2)) = 0 := by
      apply Finset.sum_eq_zero
      intro t ht
      obtain ⟨a, b, c⟩ := g1 t (Finset.mem_range.mp ht)
      rw [a, b, c]
      simp [ref_v]
    have s2 : (∑ t in Finset.range (N - 1), (kDelta * (vars.getD (delta_start N + t) 0) ^ 2 +
        kA * (vars.getD (a_start N + t) 0) ^ 2 +
        kDeltaCrossA * (vars.getD (delta_start N + t) 0 * vars.getD (v_start N + t) 0) ^ 2)) =
        0 := by
      apply Finset.sum_eq_zero
      intro t ht
      obtain ⟨a, b⟩ := g2 t (Finset.mem_range.mp ht)
      rw [a, b]
      simp
    have s3 : (∑ t in Finset.range (N - 2),
        (kSeqDelta * (vars.getD (delta_start N + t + 1) 0 -
          vars.getD (delta_start N + t) 0) ^ 2 +
        kSeqA * (vars.getD (a_start N + t + 1) 0 - vars.getD (a_start N + t) 0) ^ 2)) = 0 := by
      apply Finset.sum_eq_zero
      intro t ht
      have ht' := Finset.mem_range.mp ht
      obtain ⟨a, b⟩ := g2 t (by omega)
      obtain ⟨a', b'⟩ := g2 (t + 1) (by omega)
      rw [a, b, Nat.add_assoc, a', Nat.add_assoc, b']
      simp
    rw [s1, s2, s3]
    simp

/-- C18: for every decision vector the objective `fg[0]` computed by `FG_eval` is not
negative, and it is 0 if and only if `cte[t] = 0`, `epsi[t] = 0` and `v[t] = 60` for every
`t` in `[0,N)` and `delta[t] = 0` and `throttle[t] = 0` for every `t` in `[0,N-1)`. -/
theorem FG_eval_cost_nonneg (cos sin atan : α → α) (N n_delay : Nat) (coeffs : Fin 4 → α)
    (fg vars : List α) (hN : 2 ≤ N) (hv : vars.length = n_vars N)
    (hfg : fg.length = 1 + n_constraints N) :
    ∃ fg' c, FG_eval cos sin atan N n_delay coeffs fg vars = Except.ok fg' ∧
      fg'[0]? = some c ∧ 0 ≤ c ∧
      (c = 0 ↔
        (∀ t, t < N → vars.getD (cte_start N + t) 0 = 0 ∧
          vars.getD (epsi_start N + t) 0 = 0 ∧ vars.getD (v_start N + t) 0 = 60) ∧
        (∀ t, t < N - 1 → vars.getD (delta_start N + t) 0 = 0 ∧
          vars.getD (a_start N + t) 0 = 0)) := by
  obtain ⟨fg', e, -, hc, -⟩ := FG_eval_spec cos sin atan N n_delay coeffs fg vars hN hv hfg
  exact ⟨fg', _, e, hc, cost_sum_nonneg N vars, cost_sum_eq_zero_iff N vars⟩

theorem FG_eval_cost_nonneg_witness :
    2 ≤ 2 ∧ (List.replicate 14 (0 : ℚ)).length = n_vars 2 ∧
    (List.replicate 13 (0 : ℚ)).length = 1 + n_constraints 2 ∧
    ∃ fg' c, FG_eval (fun x : ℚ => x) (fun x => x) (fun x => x) 2 1 (fun _ => 0)
      (List.replicate 13 0) (List.replicate 14 0) = Except.ok fg' ∧ fg'[0]? = some c ∧
      0 ≤ c := by
  refine ⟨by decide, by decide, by decide, ?_⟩
  obtain ⟨fg', c, e, h, hc, -⟩ := FG_eval_cost_nonneg (fun x : ℚ => x) (fun x => x)
    (fun x => x) 2 1 (fun _ => 0) (List.replicate 13 0) (List.replicate 14 0) (by decide)
    (by decide) (by decide)
  exact ⟨fg', c, e, h, hc⟩

end CostSign

/-! ## Index safety and the rows of `fg` -/

section IndexLemmas

/-- Every constraint index is an offset of one of the six state blocks plus a step. -/
theorem forall_constraint_index (N : Nat) (P : Nat → Prop)
    (h : ∀ t, t < N → P (x_start + t) ∧ P (y_start N + t) ∧ P (psi_start N + t) ∧
      P (v_start N + t) ∧ P (cte_start N + t) ∧ P (epsi_start N + t)) :
    ∀ k, k < n_constraints N → P k := by
  have e0 : x_start = 0 := rfl
  have e1 := y_start_eq N
  have e2 := psi_start_eq N
  have e3 := v_start_eq N
  have e4 := cte_start_eq N
  have e5 := epsi_start_eq N
  have ec : n_constraints N = 6 * N := rfl
  intro k hk
  by_cases h1 : k < N
  · have := (h k h1).1
    rwa [show x_start + k = k by omega] at this
  by_cases h2 : k < 2 * N
  · have := (h (k - N) (by omega)).2.1
    rwa [show y_start N + (k - N) = k by omega] at this
  by_cases h3 : k < 3 * N
  · have := (h (k - 2 * N) (by omega)).2.2.1
    rwa [show psi_start N + (k - 2 * N) = k by omega] at this
  by_cases h4 : k < 4 * N
  · have := (h (k - 3 * N) (by omega)).2.2.2.1
    rwa [show v_start N + (k - 3 * N) = k by omega] at this
  by_cases h5 : k < 5 * N
  · have := (h (k - 4 * N) (by omega)).2.2.2.2.1
    rwa [show cte_start N + (k - 4 * N) = k by omega] at this
  · have := (h (k - 5 * N) (by omega)).2.2.2.2.2
    rwa [show epsi_start N + (k - 5 * N) = k by omega] at this

theorem length_flatMap_const {ι β : Type} (f : ι → List β) (c : Nat)
    (h : ∀ x, (f x).length = c) (l : List ι) : (l.flatMap f).length = c * l.length := by
  induction l with
  | nil => rfl
  | cons a l ih =>
    simp only [List.flatMap_cons, List.length_append, ih, h, List.length_cons]
    rw [Nat.mul_succ, Nat.add_comm]

theorem mem_FG_eval_writes (N k : Nat) (hN : 1 ≤ N) :
    k ∈ FG_eval_writes N ↔ 1 ≤ k ∧ k ≤ 6 * N := by
  have e0 : x_start = 0 := rfl
  have e1 := y_start_eq N
  have e2 := psi_start_eq N
  have e3 := v_start_eq N
  have e4 := cte_start_eq N
  have e5 := epsi_start_eq N
  simp only [FG_eval_writes, constraint_step_writes, List.mem_append, List.mem_cons,
    List.mem_singleton, List.not_mem_nil, or_false, List.mem_flatMap, List.mem_range'_1]
  constructor
  · rintro (h | ⟨t, ht, h⟩) <;> omega
  · intro hk
    have hP := forall_constraint_index N
      (fun j => (1 + j = 1 + x_start ∨ 1 + j = 1 + y_start N ∨ 1 + j = 1 + psi_start N ∨
          1 + j = 1 + v_start N ∨ 1 + j = 1 + cte_start N ∨ 1 + j = 1 + epsi_start N) ∨
        ∃ t, (1 ≤ t ∧ t < 1 + (N - 1)) ∧
          (1 + j = 1 + x_start + t ∨ 1 + j = 1 + y_start N + t ∨ 1 + j = 1 + psi_start N + t ∨
            1 + j = 1 + v_start N + t ∨ 1 + j = 1 + cte_start N + t ∨
            1 + j = 1 + epsi_start N + t))
      (fun t ht => by
        by_cases h0 : t = 0
        · subst h0
          refine ⟨Or.inl ?_, Or.inl ?_, Or.inl ?_, Or.inl ?_, Or.inl ?_, Or.inl ?_⟩ <;> omega
        · refine ⟨Or.inr ⟨t, by omega, ?_⟩, Or.inr ⟨t, by omega, ?_⟩, Or.inr ⟨t, by omega, ?_⟩,
            Or.inr ⟨t, by omega, ?_⟩, Or.inr ⟨t, by omega, ?_⟩, Or.inr ⟨t, by omega, ?_⟩⟩ <;>
            omega)
      (k - 1) (by show k - 1 < 6 * N; omega)
    beta_reduce at hP
    rw [show 1 + (k - 1) = k by omega] at hP
    exact hP

theorem length_FG_eval_writes (N : Nat) (hN : 1 ≤ N) : (FG_eval_writes N).length = 6 * N := by
  simp only [FG_eval_writes, List.length_append, List.length_cons, List.length_nil,
    length_flatMap_const (constraint_step_writes N) 6 (fun _ => rfl), List.length_range']
  omega

theorem nodup_FG_eval_writes (N : Nat) (hN : 1 ≤ N) : (FG_eval_writes N).Nodup := by
  have hset : (FG_eval_writes N).toFinset = Finset.Icc 1 (6 * N) := by
    ext k
    rw [List.mem_toFinset, mem_FG_eval_writes N k hN, Finset.mem_Icc]
  have hcard : (FG_eval_writes N).dedup.length = (FG_eval_writes N).length := by
    rw [← List.card_toFinset, hset, Nat.card_Icc, length_FG_eval_writes N hN]
    omega
  have hsub : (FG_eval_writes N).dedup.Sublist (FG_eval_writes N) := List.dedup_sublist _
  have := hsub.eq_of_length hcard
  exact List.dedup_eq_self.mp this

theorem mem_FG_eval_reads_lt (N n_delay i : Nat) (hN : 2 ≤ N)
    (hi : i ∈ FG_eval_reads N n_delay) : i < n_vars N := by
  have e0 : x_start = 0 := rfl
  have e1 := y_start_eq N
  have e2 := psi_start_eq N
  have e3 := v_start_eq N
  have e4 := cte_start_eq N
  have e5 := epsi_start_eq N
  have e6 := delta_start_eq N
  have e7 := a_start_eq N
  have en : n_vars N = 6 * N + 2 * (N - 1) := rfl
  simp only [FG_eval_reads, cost_reads, constraint_step_reads, List.mem_append, List.mem_cons,
    List.mem_singleton, List.not_mem_nil, or_false, List.mem_flatMap, List.mem_range'_1] at hi
  rcases hi with (((⟨t, ht, h⟩ | ⟨t, ht, h⟩) | ⟨t, ht, h⟩) | h) | ⟨t, ht, h | h⟩
  · omega
  · omega
  · omega
  · omega
  · omega
  · split at h
    · simp only [List.mem_cons, List.mem_singleton, List.not_mem_nil, or_false] at h
      omega
    · simp at h

end IndexLemmas


section RowLemmas

variable {α : Type} [Field α]

/-- The constraint entries of the evaluator's result are determined by the step-0 entries
of the decision vector and by the residuals of the steps `1 ≤ t < N`. -/
theorem FG_eval_rows_congr (cos sin atan : α → α) (N n_delay : Nat) (coeffs : Fin 4 → α)
    (fg1 fg2 vars1 vars2 : List α) (hN : 2 ≤ N)
    (hv1 : vars1.length = n_vars N) (hv2 : vars2.length = n_vars N)
    (hf1 : fg1.length = 1 + n_constraints N) (hf2 : fg2.length = 1 + n_constraints N)
    (h0 : state_at vars1 N 0 = state_at vars2 N 0)
    (ht : ∀ t, 1 ≤ t → t < N → residuals cos sin atan N n_delay coeffs vars1 t =
      residuals cos sin atan N n_delay coeffs vars2 t) :
    ∃ r1 r2, FG_eval cos sin atan N n_delay coeffs fg1 vars1 = Except.ok r1 ∧
      FG_eval cos sin atan N n_delay coeffs fg2 vars2 = Except.ok r2 ∧
      r1.length = 1 + n_constraints N ∧ r2.length = 1 + n_constraints N ∧
      r1[0]? = some (cost_sum N vars1) ∧ r2[0]? = some (cost_sum N vars2) ∧
      ∀ k, k < n_constraints N → r1[1 + k]? = r2[1 + k]? := by
  obtain ⟨r1, e1, l1, c1, z1, t1⟩ :=
    FG_eval_spec cos sin atan N n_delay coeffs fg1 vars1 hN hv1 hf1
  obtain ⟨r2, e2, l2, c2, z2, t2⟩ :=
    FG_eval_spec cos sin atan N n_delay coeffs fg2 vars2 hN hv2 hf2
  refine ⟨r1, r2, e1, e2, l1, l2, c1, c2, ?_⟩
  apply forall_constraint_index N (fun k => r1[1 + k]? = r2[1 + k]?)
  intro t htN
  have hrows : rows r1 N t = rows r2 N t := by
    by_cases h : t = 0
    · subst h; rw [z1, z2, h0]
    · rw [t1 t (by omega) htN, t2 t (by omega) htN, ht t (by omega) htN]
  simp only [rows, List.cons.injEq, and_true] at hrows
  simp only [← Nat.add_assoc]
  exact hrows

/-- The result of the evaluator does not depend on what `fg` held before the call. -/
theorem FG_eval_overwrites (cos sin atan : α → α) (N n_delay : Nat) (coeffs : Fin 4 → α)
    (fg1 fg2 vars : List α) (hN : 2 ≤ N) (hv : vars.length = n_vars N)
    (hf1 : fg1.length = 1 + n_constraints N) (hf2 : fg2.length = 1 + n_constraints N) :
    FG_eval cos sin atan N n_delay coeffs fg1 vars =
      FG_eval cos sin atan N n_delay coeffs fg2 vars := by
  obtain ⟨r1, r2, e1, e2, l1, l2, c1, c2, hr⟩ := FG_eval_rows_congr cos sin atan N n_delay
    coeffs fg1 fg2 vars vars hN hv hv hf1 hf2 rfl (fun _ _ _ => rfl)
  rw [e1, e2]
  congr 1
  apply List.ext_getElem?
  intro k
  by_cases h0 : k = 0
  · subst h0; rw [c1, c2]
  by_cases hk : k < 1 + n_constraints N
  · have := hr (k - 1) (by omega)
    rwa [show 1 + (k - 1) = k by omega] at this
  · rw [List.getElem?_eq_none (by omega), List.getElem?_eq_none (by omega)]

end RowLemmas

/-! ## The recorded run of `FG_eval` -/

section TraceTools

variable {β γ σ : Type}

theorem rd_vars_bind (vars : List β) (i : Nat) (tr : Trace)
    (f : β × Trace → Except Fault γ) :
    (rd_vars vars i tr >>= f) =
      (rd vars i >>= fun a => f (a, ⟨tr.reads ++ [i], tr.writes⟩)) := by
  simp only [rd_vars, bind_assoc, pure_bind]

theorem wr_fg_bind (fg : List β) (i : Nat) (a : β) (tr : Trace)
    (f : List β × Trace → Except Fault γ) :
    (wr_fg fg i a tr >>= f) =
      (wr fg i a >>= fun fg => f (fg, ⟨tr.reads, tr.writes ++ [i]⟩)) := by
  simp only [wr_fg, bind_assoc, pure_bind]

/-- A loop whose body is a recorded copy of `body` is a recorded copy of the loop. -/
theorem forLoop_traced (body : Nat → σ → Except Fault σ)
    (bodyT : Nat → σ × Trace → Except Fault (σ × Trace)) (rs ws : Nat → List Nat)
    (h : ∀ t s tr, bodyT t (s, tr) =
      (body t s >>= fun s' => pure (s', ⟨tr.reads ++ rs t, tr.writes ++ ws t⟩))) :
    ∀ count lo s tr, forLoop bodyT lo count (s, tr) =
      (forLoop body lo count s >>= fun s' => pure (s',
        ⟨tr.reads ++ (List.range' lo count).flatMap rs,
          tr.writes ++ (List.range' lo count).flatMap ws⟩)) := by
  intro count
  induction count with
  | zero =>
    intro lo s tr
    cases tr
    simp [forLoop, pure_eq_ok, ok_bind]
  | succ n ih =>
    intro lo s tr
    simp only [forLoop, h, bind_assoc, pure_bind]
    cases hb : body lo s with
    | error e => rfl
    | ok s' =>
      simp only [ok_bind, ih, List.range'_succ, List.flatMap_cons, List.append_assoc]

end TraceTools

section TraceLemmas

variable {α : Type} [Field α]

theorem cost_reference_step_traced_eq (N : Nat) (vars : List α) (t : Nat) (fg : List α)
    (tr : Trace) :
    cost_reference_step_traced N vars t (fg, tr) =
      (cost_reference_step N vars t fg >>= fun fg => pure (fg,
        ⟨tr.reads ++ [cte_start N + t, epsi_start N + t, v_start N + t],
          tr.writes ++ [0, 0, 0]⟩)) := by
  simp only [cost_reference_step_traced, cost_reference_step, rd_vars_bind, wr_fg_bind,
    bind_assoc, pure_bind, List.append_assoc, List.singleton_append, List.cons_append,
    List.nil_append, wr_fg]

theorem cost_actuator_step_traced_eq (N : Nat) (vars : List α) (t : Nat) (fg : List α)
    (tr : Trace) :
    cost_actuator_step_traced N vars t (fg, tr) =
      (cost_actuator_step N vars t fg >>= fun fg => pure (fg,
        ⟨tr.reads ++ [delta_start N + t, a_start N + t, delta_start N + t, v_start N + t],
          tr.writes ++ [0, 0, 0]⟩)) := by
  simp only [cost_actuator_step_traced, cost_actuator_step, rd_vars_bind, wr_fg_bind,
    bind_assoc, pure_bind, List.append_assoc, List.singleton_append, List.cons_append,
    List.nil_append, wr_fg]

theorem cost_sequential_step_traced_eq (N : Nat) (vars : List α) (t : Nat) (fg : List α)
    (tr : Trace) :
    cost_sequential_step_traced N vars t (fg, tr) =
      (cost_sequential_step N vars t fg >>= fun fg => pure (fg,
        ⟨tr.reads ++ [delta_start N + t + 1, delta_start N + t, a_start N + t + 1,
            a_start N + t],
          tr.writes ++ [0, 0]⟩)) := by
  simp only [cost_sequential_step_traced, cost_sequential_step, rd_vars_bind, wr_fg_bind,
    bind_assoc, pure_bind, List.append_assoc, List.singleton_append, List.cons_append,
    List.nil_append, wr_fg]

/-- The recorded constraint step is `constraint_step` together with the record of the
indices listed by `constraint_step_reads` and `constraint_step_writes`, on every input. -/
theorem constraint_step_traced_eq (cos sin atan : α → α) (N n_delay : Nat)
    (coeffs : Fin 4 → α) (vars : List α) (t : Nat) (fg : List α) (tr : Trace) :
    constraint_step_traced cos sin atan N n_delay coeffs vars t (fg, tr) =
      (constraint_step cos sin atan N n_delay coeffs vars t fg >>= fun fg => pure (fg,
        ⟨tr.reads ++ constraint_step_reads N n_delay t,
          tr.writes ++ constraint_step_writes N t⟩)) := by
  by_cases hc : t > n_delay
  · simp only [constraint_step_traced, constraint_step, constraint_step_reads,
      constraint_step_writes, hc, if_true, rd_vars_bind, wr_fg_bind,
      bind_assoc, pure_bind, List.append_assoc, List.singleton_append, List.cons_append,
      List.nil_append, wr_fg]
  · simp only [constraint_step_traced, constraint_step, constraint_step_reads,
      constraint_step_writes, hc, if_false, rd_vars_bind, wr_fg_bind,
      bind_assoc, pure_bind, List.append_assoc, List.singleton_append, List.cons_append,
      List.nil_append, List.append_nil, wr_fg]

/-- The recorded evaluator is `FG_eval` together with the record of the indices listed by
`FG_eval_reads`, `cost_writes` and `FG_eval_writes`, on every input. -/
theorem FG_eval_traced_eq (cos sin atan : α → α) (N n_delay : Nat) (coeffs : Fin 4 → α)
    (fg vars : List α) (tr : Trace) :
    FG_eval_traced cos sin atan N n_delay coeffs fg vars tr =
      (FG_eval cos sin atan N n_delay coeffs fg vars >>= fun fg => pure (fg,
        ⟨tr.reads ++ FG_eval_reads N n_delay,
          tr.writes ++ (cost_writes N ++ FG_eval_writes N)⟩)) := by
  simp only [FG_eval_traced, FG_eval, FG_eval_reads, FG_eval_writes, cost_reads, cost_writes,
    rd_vars_bind, wr_fg_bind,
    forLoop_traced _ _ _ _ (cost_reference_step_traced_eq N vars),
    forLoop_traced _ _ _ _ (cost_actuator_step_traced_eq N vars),
    forLoop_traced _ _ _ _ (cost_sequential_step_traced_eq N vars),
    forLoop_traced _ _ _ _ (constraint_step_traced_eq cos sin atan N n_delay coeffs vars),
    bind_assoc, pure_bind, List.append_assoc, List.singleton_append, List.cons_append,
    List.nil_append]

end TraceLemmas

section IndexClaims

variable {α : Type} [Field α]

theorem mem_cost_writes (N k : Nat) (h : k ∈ cost_writes N) : k = 0 := by
  simp only [cost_writes, List.mem_append, List.mem_flatMap, List.mem_cons, List.mem_singleton,
    List.not_mem_nil, or_false, or_self] at h
  rcases h with ((h | ⟨_, _, h⟩) | ⟨_, _, h⟩) | ⟨_, _, h⟩ <;> exact h

theorem count_cost_writes (N k : Nat) (hk : 1 ≤ k) : (cost_writes N).count k = 0 := by
  rw [List.count_eq_zero]
  intro h
  have := mem_cost_writes N k h
  omega

/-- C16: for every `N ≥ 2` and every `n_delay`, the run of `FG_eval` on a decision vector
of length `n_vars`, with its element accesses recorded, ends without a fault; the recorded
run returns what `FG_eval` returns (on every input, faulting ones included); every index
it reads from the decision vector is below `n_vars`; the delayed actuator indices
`t - 1 - n_delay` are not read at a step `t ≤ n_delay`, and at a step `t > n_delay` they are
read and are differences without truncation; the assignments to `fg` are those of the cost
part, all at index 0, followed by those of the constraint part, which hit exactly the
indices `1..6N`, each exactly once, so that `fg[1 + k]` is assigned once for every
constraint `k` in `[0, n_constraints)` and holds the row of that constraint (the copy of the
state entry at step 0, the model residual at a step `t ≥ 1`); what `fg` held before the call
has no effect on the result. -/
theorem FG_eval_index_safety (N n_delay : Nat) (hN : 2 ≤ N) (cos sin atan : α → α)
    (coeffs : Fin 4 → α) (fg vars : List α) (hv : vars.length = n_vars N)
    (hfg : fg.length = 1 + n_constraints N) :
    ∃ fg' tr,
      FG_eval_traced cos sin atan N n_delay coeffs fg vars ⟨[], []⟩ = Except.ok (fg', tr) ∧
      FG_eval cos sin atan N n_delay coeffs fg vars = Except.ok fg' ∧
      (∀ (fg0 vars0 : List α) (tr0 : Trace),
        FG_eval_traced cos sin atan N n_delay coeffs fg0 vars0 tr0 =
          (FG_eval cos sin atan N n_delay coeffs fg0 vars0 >>= fun r => pure (r,
            ⟨tr0.reads ++ FG_eval_reads N n_delay,
              tr0.writes ++ (cost_writes N ++ FG_eval_writes N)⟩))) ∧
      (∀ (t : Nat) (fg0 vars0 : List α) (tr0 : Trace),
        constraint_step_traced cos sin atan N n_delay coeffs vars0 t (fg0, tr0) =
          (constraint_step cos sin atan N n_delay coeffs vars0 t fg0 >>= fun r => pure (r,
            ⟨tr0.reads ++ constraint_step_reads N n_delay t,
              tr0.writes ++ constraint_step_writes N t⟩))) ∧
      tr.reads = FG_eval_reads N n_delay ∧
      tr.writes = cost_writes N ++ FG_eval_writes N ∧
      (∀ i, i ∈ tr.reads → i < n_vars N) ∧
      (∀ t, t ≤ n_delay →
        constraint_step_reads N n_delay t = (constraint_step_reads N n_delay t).take 14) ∧
      (∀ t, 1 ≤ t → t < N → t > n_delay →
        delta_start N + t - 1 - n_delay ∈ tr.reads ∧ a_start N + t - 1 - n_delay ∈ tr.reads ∧
        delta_start N + t - 1 - n_delay + n_delay + 1 = delta_start N + t ∧
        a_start N + t - 1 - n_delay + n_delay + 1 = a_start N + t) ∧
      (∀ k, k ∈ cost_writes N → k = 0) ∧
      (FG_eval_writes N).Nodup ∧
      (∀ k, k ∈ FG_eval_writes N ↔ 1 ≤ k ∧ k ≤ 6 * N) ∧
      (∀ k, k ∈ tr.writes → k ≤ 6 * N) ∧
      (∀ k, 1 ≤ k → k ≤ 6 * N → tr.writes.count k = 1) ∧
      (∀ k, k < n_constraints N → tr.writes.count (1 + k) = 1) ∧
      fg'.length = 1 + n_constraints N ∧
      rows fg' N 0 = (state_at vars N 0).map some ∧
      (∀ t, 1 ≤ t → t < N →
        rows fg' N t = (residuals cos sin atan N n_delay coeffs vars t).map some) ∧
      (∀ fg2 : List α, fg2.length = 1 + n_constraints N →
        FG_eval cos sin atan N n_delay coeffs fg2 vars = Except.ok fg') := by
  obtain ⟨fg', e, l, -, r0, rt⟩ := FG_eval_spec cos sin atan N n_delay coeffs fg vars hN hv hfg
  have ec : n_constraints N = 6 * N := rfl
  have hcount : ∀ k, 1 ≤ k → k ≤ 6 * N →
      (cost_writes N ++ FG_eval_writes N).count k = 1 := by
    intro k h1 h2
    rw [List.count_append, count_cost_writes N k h1,
      List.count_eq_one_of_mem (nodup_FG_eval_writes N (by omega))
        ((mem_FG_eval_writes N k (by omega)).mpr ⟨h1, h2⟩)]
  refine ⟨fg', ⟨FG_eval_reads N n_delay, cost_writes N ++ FG_eval_writes N⟩, ?_, e,
    FG_eval_traced_eq cos sin atan N n_delay coeffs,
    fun t fg0 vars0 tr0 => constraint_step_traced_eq cos sin atan N n_delay coeffs vars0 t fg0 tr0,
    rfl, rfl, fun i hi => mem_FG_eval_reads_lt N n_delay i hN hi, ?_, ?_,
    mem_cost_writes N, nodup_FG_eval_writes N (by omega),
    fun k => mem_FG_eval_writes N k (by omega), ?_, hcount,
    fun k hk => hcount (1 + k) (by omega) (by omega), l, r0, rt, ?_⟩
  · rw [FG_eval_traced_eq, e]
    rfl
  · intro t ht
    have h : ¬ t > n_delay := by omega
    simp [constraint_step_reads, h]
  · intro t h1 h2 h3
    have e6 := delta_start_eq N
    have e7 := a_start_eq N
    have hm : ∀ i, i ∈ constraint_step_reads N n_delay t → i ∈ FG_eval_reads N n_delay := by
      intro i hi
      simp only [FG_eval_reads, List.mem_append, List.mem_flatMap, List.mem_range'_1]
      exact Or.inr ⟨t, ⟨h1, by omega⟩, hi⟩
    refine ⟨hm _ ?_, hm _ ?_, by omega, by omega⟩
    · simp [constraint_step_reads, h3]
    · simp [constraint_step_reads, h3]
  · intro k hk
    rcases List.mem_append.mp hk with h | h
    · have := mem_cost_writes N k h
      omega
    · exact ((mem_FG_eval_writes N k (by omega)).mp h).2
  · intro fg2 h2
    rw [← e]
    exact FG_eval_overwrites cos sin atan N n_delay coeffs fg2 fg vars hN hv h2 hfg

theorem FG_eval_index_safety_witness :
    2 ≤ 10 ∧ (List.replicate 78 (1 : ℚ)).length = n_vars 10 ∧
    (List.replicate 61 (0 : ℚ)).length = 1 + n_constraints 10 ∧
    ∃ fg' tr,
      FG_eval_traced (fun x : ℚ => x) (fun x => x) (fun x => x) 10 1 (fun _ => 0)
        (List.replicate 61 0) (List.replicate 78 1) ⟨[], []⟩ = Except.ok (fg', tr) ∧
      FG_eval (fun x : ℚ => x) (fun x => x) (fun x => x) 10 1 (fun _ => 0)
        (List.replicate 61 0) (List.replicate 78 1) = Except.ok fg' ∧
      (∀ i, i ∈ tr.reads → i < n_vars 10) ∧
      (∀ k, 1 ≤ k → k ≤ 6 * 10 → tr.writes.count k = 1) := by
  refine ⟨by decide, rfl, rfl, ?_⟩
  obtain ⟨fg', tr, h1, h2, -, -, -, -, h7, -, -, -, -, -, -, h14, -⟩ :=
    FG_eval_index_safety 10 1 (by decide) (fun x : ℚ => x) (fun x => x) (fun x => x)
      (fun _ => 0) (List.replicate 61 0) (List.replicate 78 1) rfl rfl
  exact ⟨fg', tr, h1, h2, h7, h14⟩

end IndexClaims
section UnusedActuators

variable {α : Type} [Field α]

/-- C17: with `n_delay = 1` (and `N ≥ 3`, as for the source's `N = 10`), the last actuator
pair `(delta[N-2], throttle[N-2])` is not read by any constraint row: two decision vectors
that differ only at the indices `delta_start + N - 2` and `a_start + N - 2` give identical
entries `fg[1..6N]`; and the rows of step 1 and of step 2 are both computed from actuator
index 0. -/
theorem last_actuators_unused (cos sin atan : α → α) (N : Nat) (coeffs : Fin 4 → α)
    (fg1 fg2 vars1 vars2 : List α) (hN : 3 ≤ N)
    (hv1 : vars1.length = n_vars N) (hv2 : vars2.length = n_vars N)
    (hf1 : fg1.length = 1 + n_constraints N) (hf2 : fg2.length = 1 + n_constraints N)
    (hsame : ∀ j, j ≠ delta_start N + N - 2 → j ≠ a_start N + N - 2 →
      vars1.getD j 0 = vars2.getD j 0) :
    ∃ r1 r2, FG_eval cos sin atan N n_delay coeffs fg1 vars1 = Except.ok r1 ∧
      FG_eval cos sin atan N n_delay coeffs fg2 vars2 = Except.ok r2 ∧
      (∀ k, 1 ≤ k → k ≤ 6 * N → r1[k]? = r2[k]?) ∧
      (∀ t, t = 1 ∨ t = 2 →
        r1[1 + v_start N + t]? = some (vars1.getD (v_start N + t) 0 -
          (vars1.getD (v_start N + t - 1) 0 + vars1.getD (a_start N + 0) 0 * dt)) ∧
        r1[1 + psi_start N + t]? = some (vars1.getD (psi_start N + t) 0 -
          (vars1.getD (psi_start N + t - 1) 0 - vars1.getD (v_start N + t - 1) 0 *
            vars1.getD (delta_start N + 0) 0 / Lf * dt))) := by
  have e0 : x_start = 0 := rfl
  have e1 := y_start_eq N
  have e2 := psi_start_eq N
  have e3 := v_start_eq N
  have e4 := cte_start_eq N
  have e5 := epsi_start_eq N
  have e6 := delta_start_eq N
  have e7 := a_start_eq N
  have ec : n_constraints N = 6 * N := rfl
  have hidx : ∀ t, 1 ≤ t → t < N → actuator_index n_delay t ≤ N - 3 := by
    intro t h1 h2
    rw [n_delay_eq]
    unfold actuator_index
    split <;> omega
  obtain ⟨r1, r2, q1, q2, -, -, -, -, hr⟩ := FG_eval_rows_congr cos sin atan N n_delay coeffs
    fg1 fg2 vars1 vars2 (by omega) hv1 hv2 hf1 hf2
    (by simp (disch := omega) only [state_at, hsame])
    (fun t h1 h2 => by
      have := hidx t h1 h2
      simp (disch := omega) only [residuals, hsame])
  refine ⟨r1, r2, q1, q2, fun k h1 h2 => ?_, fun t ht => ?_⟩
  · have := hr (k - 1) (by omega)
    rwa [show 1 + (k - 1) = k by omega] at this
  · obtain ⟨r, e, -, -, -, hrow⟩ :=
      FG_eval_spec cos sin atan N n_delay coeffs fg1 vars1 (by omega) hv1 hf1
    rw [q1] at e
    cases e
    have h := hrow t (by omega) (by omega)
    have hi : actuator_index n_delay t = 0 := by
      rw [n_delay_eq]
      rcases ht with rfl | rfl <;> rfl
    simp only [rows, residuals, hi, List.map_cons, List.map_nil, List.cons.injEq,
      and_true] at h
    exact ⟨h.2.2.2.1, h.2.2.1⟩

theorem last_actuators_unused_witness :
    3 ≤ 3 ∧ (List.replicate 22 (0 : ℚ)).length = n_vars 3 ∧
    ((List.replicate 22 (0 : ℚ)).set (delta_start 3 + 3 - 2) 1).length = n_vars 3 ∧
    (List.replicate 19 (0 : ℚ)).length = 1 + n_constraints 3 ∧
    (∀ j, j ≠ delta_start 3 + 3 - 2 → j ≠ a_start 3 + 3 - 2 →
      (List.replicate 22 (0 : ℚ)).getD j 0 =
        ((List.replicate 22 (0 : ℚ)).set (delta_start 3 + 3 - 2) 1).getD j 0) ∧
    ∃ r1 r2, FG_eval (fun x : ℚ => x) (fun x => x) (fun x => x) 3 n_delay (fun _ => 0)
        (List.replicate 19 0) (List.replicate 22 0) = Except.ok r1 ∧
      FG_eval (fun x : ℚ => x) (fun x => x) (fun x => x) 3 n_delay (fun _ => 0)
        (List.replicate 19 0) ((List.replicate 22 (0 : ℚ)).set (delta_start 3 + 3 - 2) 1) =
        Except.ok r2 ∧
      ∀ k, 1 ≤ k → k ≤ 6 * 3 → r1[k]? = r2[k]? := by
  have hs : ∀ j, j ≠ delta_start 3 + 3 - 2 → j ≠ a_start 3 + 3 - 2 →
      (List.replicate 22 (0 : ℚ)).getD j 0 =
        ((List.replicate 22 (0 : ℚ)).set (delta_start 3 + 3 - 2) 1).getD j 0 := by
    intro j h1 _
    rw [List.getD_eq_getElem?_getD, List.getD_eq_getElem?_getD,
      List.getElem?_set_ne (Ne.symm h1)]
  refine ⟨by decide, by decide, by simp [n_vars], by decide, hs, ?_⟩
  obtain ⟨r1, r2, q1, q2, h, -⟩ := last_actuators_unused (fun x : ℚ => x) (fun x => x)
    (fun x => x) 3 (fun _ => 0) (List.replicate 19 0) (List.replicate 19 0)
    (List.replicate 22 0) ((List.replicate 22 (0 : ℚ)).set (delta_start 3 + 3 - 2) 1)
    (by decide) (by decide) (by simp [n_vars]) (by decide) (by decide) hs
  exact ⟨r1, r2, q1, q2, h⟩

end UnusedActuators

/-! ## The optimisation problem posed by `Solve` -/

section ProblemLemmas

variable {α : Type} [LinearOrderedField α]

theorem constraints_bound_at (N : Nat) (state : Fin 8 → α) (hN : 2 ≤ N) (t : Nat)
    (ht : t < N) :
    constraints_bound N state (x_start + t) = (if t = 0 then state 0 else 0) ∧
    constraints_bound N state (y_start N + t) = (if t = 0 then state 1 else 0) ∧
    constraints_bound N state (psi_start N + t) = (if t = 0 then state 2 else 0) ∧
    constraints_bound N state (v_start N + t) = (if t = 0 then state 3 else 0) ∧
    constraints_bound N state (cte_start N + t) = (if t = 0 then state 4 else 0) ∧
    constraints_bound N state (epsi_start N + t) = (if t = 0 then state 5 else 0) := by
  have e0 : x_start = 0 := rfl
  have e1 := y_start_eq N
  have e2 := psi_start_eq N
  have e3 := v_start_eq N
  have e4 := cte_start_eq N
  have e5 := epsi_start_eq N
  by_cases h : t = 0
  · subst h
    simp (disch := omega) only [constraints_bound, Nat.add_zero, if_neg, if_true, and_self]
  · simp (disch := omega) only [constraints_bound, if_neg, h, if_false, and_self]

/-- The objective of the problem `Solve` poses is `cost_sum`. -/
theorem objective_eq_cost_sum (cos sin atan : α → α) (N n_delay : Nat) (state : Fin 8 → α)
    (coeffs : Fin 4 → α) (hN : 2 ≤ N) (args : solve_args α)
    (ha : Solve_args cos sin atan N n_delay state coeffs = Except.ok args)
    (vars : List α) (hv : vars.length = n_vars N) :
    objective args vars = some (cost_sum N vars) := by
  obtain ⟨hf, -, -, -, lgl, -, -, -⟩ :=
    Solve_args_spec cos sin atan N n_delay state coeffs hN args ha
  obtain ⟨fg', e, -, hc, -⟩ := FG_eval_spec cos sin atan N n_delay coeffs
    (List.replicate (1 + args.gl.length) 0) vars hN hv (by simp [lgl])
  simp only [objective, evaluate, hf, e, hc]

theorem getD_of_rows {β : Type} [Zero β] (fg : List β) (N t : Nat) (l : List β)
    (h : rows fg N t = l.map some) :
    [fg.getD (1 + (x_start + t)) 0, fg.getD (1 + (y_start N + t)) 0,
      fg.getD (1 + (psi_start N + t)) 0, fg.getD (1 + (v_start N + t)) 0,
      fg.getD (1 + (cte_start N + t)) 0, fg.getD (1 + (epsi_start N + t)) 0] = l := by
  rcases l with _ | ⟨a, _ | ⟨b, _ | ⟨c, _ | ⟨d, _ | ⟨e, _ | ⟨f, _ | ⟨g, l⟩⟩⟩⟩⟩⟩⟩ <;>
    simp only [rows, List.map_cons, List.map_nil, List.cons.injEq, and_true, and_false,
      reduceCtorEq] at h
  obtain ⟨h1, h2, h3, h4, h5, h6⟩ := h
  simp only [List.getD_eq_getElem?_getD, ← Nat.add_assoc, h1, h2, h3, h4, h5, h6,
    Option.getD_some]

/-- What the evaluator handed to the optimiser leaves in `fg`. -/
theorem evaluate_spec (cos sin atan : α → α) (N n_delay : Nat) (state : Fin 8 → α)
    (coeffs : Fin 4 → α) (hN : 2 ≤ N) (args : solve_args α)
    (ha : Solve_args cos sin atan N n_delay state coeffs = Except.ok args)
    (vars : List α) (hv : vars.length = n_vars N) :
    ∃ fg, evaluate args vars = Except.ok fg ∧ fg[0]? = some (cost_sum N vars) ∧
      rows fg N 0 = (state_at vars N 0).map some ∧
      ∀ t, 1 ≤ t → t < N →
        rows fg N t = (residuals cos sin atan N n_delay coeffs vars t).map some := by
  obtain ⟨hf, -, -, -, lgl, -, -, -⟩ :=
    Solve_args_spec cos sin atan N n_delay state coeffs hN args ha
  obtain ⟨fg', e, -, hc, h0, ht⟩ := FG_eval_spec cos sin atan N n_delay coeffs
    (List.replicate (1 + args.gl.length) 0) vars hN hv (by simp [lgl])
  exact ⟨fg', by simp only [evaluate, hf, e], hc, h0, ht⟩

/-- Feasibility for the problem `Solve` poses, in closed form: the right length, the box
bounds, the step-0 entries equal to the state, and all residuals 0. -/
theorem feasible_iff (cos sin atan : α → α) (N n_delay : Nat) (state : Fin 8 → α)
    (coeffs : Fin 4 → α) (hN : 2 ≤ N) (args : solve_args α)
    (ha : Solve_args cos sin atan N n_delay state coeffs = Except.ok args) (vars : List α) :
    feasible args vars ↔
      vars.length = n_vars N ∧
      (∀ j, j < n_vars N → vars_lower N j ≤ vars.getD j 0 ∧ vars.getD j 0 ≤ vars_upper N j) ∧
      state_at vars N 0 = [state 0, state 1, state 2, state 3, state 4, state 5] ∧
      ∀ t, 1 ≤ t → t < N →
        residuals cos sin atan N n_delay coeffs vars t = [0, 0, 0, 0, 0, 0] := by
  obtain ⟨hf, lxi, -, -, lgl, -, hx, hg⟩ :=
    Solve_args_spec cos sin atan N n_delay state coeffs hN args ha
  have e0 : x_start = 0 := rfl
  have e1 := y_start_eq N
  have e2 := psi_start_eq N
  have e3 := v_start_eq N
  have e4 := cte_start_eq N
  have e5 := epsi_start_eq N
  have ec : n_constraints N = 6 * N := rfl
  have hbox : ∀ j, j < n_vars N →
      ((args.xl.getD j 0 ≤ vars.getD j 0 ∧ vars.getD j 0 ≤ args.xu.getD j 0) ↔
        (vars_lower N j ≤ vars.getD j 0 ∧ vars.getD j 0 ≤ vars_upper N j)) := by
    intro j hj
    rw [List.getD_eq_getElem?_getD args.xl, List.getD_eq_getElem?_getD args.xu, (hx j hj).2.1,
      (hx j hj).2.2, Option.getD_some, Option.getD_some]
  have hgb : ∀ k, k < n_constraints N → ∀ x : α,
      ((args.gl.getD k 0 ≤ x ∧ x ≤ args.gu.getD k 0) ↔ x = constraints_bound N state k) := by
    intro k hk x
    rw [List.getD_eq_getElem?_getD args.gl, List.getD_eq_getElem?_getD args.gu, (hg k hk).1,
      (hg k hk).2, Option.getD_some]
    exact ⟨fun h => le_antisymm h.2 h.1, fun h => by rw [h]; exact ⟨le_refl _, le_refl _⟩⟩
  unfold feasible
  rw [lxi, lgl]
  constructor
  · rintro ⟨hl, hb, fg', e, hc⟩
    refine ⟨hl, fun j hj => (hbox j hj).mp (hb j (hl ▸ hj)), ?_⟩
    obtain ⟨r, er, -, hr0, hrt⟩ :=
      evaluate_spec cos sin atan N n_delay state coeffs hN args ha vars hl
    rw [e] at er
    cases er
    have hrow : ∀ t, t < N →
        [fg'.getD (1 + (x_start + t)) 0, fg'.getD (1 + (y_start N + t)) 0,
          fg'.getD (1 + (psi_start N + t)) 0, fg'.getD (1 + (v_start N + t)) 0,
          fg'.getD (1 + (cte_start N + t)) 0, fg'.getD (1 + (epsi_start N + t)) 0] =
        [if t = 0 then state 0 else 0, if t = 0 then state 1 else 0,
          if t = 0 then state 2 else 0, if t = 0 then state 3 else 0,
          if t = 0 then state 4 else 0, if t = 0 then state 5 else 0] := by
      intro t ht
      obtain ⟨b0, b1, b2, b3, b4, b5⟩ := constraints_bound_at N state hN t ht
      rw [← b0, ← b1, ← b2, ← b3, ← b4, ← b5,
        (hgb _ (by omega) _).mp (hc (x_start + t) (by omega)),
        (hgb _ (by omega) _).mp (hc (y_start N + t) (by omega)),
        (hgb _ (by omega) _).mp (hc (psi_start N + t) (by omega)),
        (hgb _ (by omega) _).mp (hc (v_start N + t) (by omega)),
        (hgb _ (by omega) _).mp (hc (cte_start N + t) (by omega)),
        (hgb _ (by omega) _).mp (hc (epsi_start N + t) (by omega))]
    constructor
    · have h := hrow 0 (by omega)
      rw [getD_of_rows fg' N 0 _ hr0] at h
      simpa using h
    · intro t h1 h2
      have h := hrow t h2
      rw [getD_of_rows fg' N t _ (hrt t h1 h2)] at h
      have ht0 : t ≠ 0 := by omega
      simpa [ht0] using h
  · rintro ⟨hl, hb, h0, ht⟩
    refine ⟨hl, fun j hj => (hbox j (hl ▸ hj)).mpr (hb j (hl ▸ hj)), ?_⟩
    obtain ⟨r, er, -, hr0, hrt⟩ :=
      evaluate_spec cos sin atan N n_delay state coeffs hN args ha vars hl
    refine ⟨r, er, ?_⟩
    apply forall_constraint_index N
      (fun k => args.gl.getD k 0 ≤ r.getD (1 + k) 0 ∧ r.getD (1 + k) 0 ≤ args.gu.getD k 0)
    intro t htN
    obtain ⟨b0, b1, b2, b3, b4, b5⟩ := constraints_bound_at N state hN t htN
    have hrow : [r.getD (1 + (x_start + t)) 0, r.getD (1 + (y_start N + t)) 0,
          r.getD (1 + (psi_start N + t)) 0, r.getD (1 + (v_start N + t)) 0,
          r.getD (1 + (cte_start N + t)) 0, r.getD (1 + (epsi_start N + t)) 0] =
        [if t = 0 then state 0 else 0, if t = 0 then state 1 else 0,
          if t = 0 then state 2 else 0, if t = 0 then state 3 else 0,
          if t = 0 then state 4 else 0, if t = 0 then state 5 else 0] := by
      by_cases h : t = 0
      · subst h
        rw [getD_of_rows r N 0 _ hr0, h0]
        simp
      · rw [getD_of_rows r N t _ (hrt t (by omega) htN), ht t (by omega) htN]
        simp [h]
    simp only [List.cons.injEq, and_true] at hrow
    obtain ⟨r0, r1, r2, r3, r4, r5⟩ := hrow
    refine ⟨(hgb _ (by omega) _).mpr ?_, (hgb _ (by omega) _).mpr ?_,
      (hgb _ (by omega) _).mpr ?_, (hgb _ (by omega) _).mpr ?_, (hgb _ (by omega) _).mpr ?_,
      (hgb _ (by omega) _).mpr ?_⟩
    · rw [r0, b0]
    · rw [r1, b1]
    · rw [r2, b2]
    · rw [r3, b3]
    · rw [r4, b4]
    · rw [r5, b5]

end ProblemLemmas

/-! ## The straight-line scenario -/

section ScenarioLemmas

theorem length_decision_vector {α : Type} [LinearOrderedField α] (N : Nat) (f : Nat → α) :
    (decision_vector N f).length = n_vars N := by
  simp [decision_vector]

theorem getD_decision_vector {α : Type} [LinearOrderedField α] (N : Nat) (f : Nat → α)
    (j : Nat) (hj : j < n_vars N) : (decision_vector N f).getD j 0 = f j := by
  simp [decision_vector, List.getD_eq_getElem?_getD, List.getElem?_map, List.getElem?_range hj]

theorem straight_line_state (N : Nat) (v : ℝ) (hN : 2 ≤ N) :
    state_at (straight_line N v) N 0 = [0, 0, 0, v, 0, 0] := by
  have e0 : x_start = 0 := rfl
  have e1 := y_start_eq N
  have e2 := psi_start_eq N
  have e3 := v_start_eq N
  have e4 := cte_start_eq N
  have e5 := epsi_start_eq N
  have en : n_vars N = 6 * N + 2 * (N - 1) := rfl
  simp (disch := omega) only [state_at, straight_line, getD_decision_vector, Nat.add_zero,
    if_pos, if_neg]
  simp [x_start]

theorem straight_line_residuals (N n_delay : Nat) (v : ℝ) (hN : 2 ≤ N) (t : Nat)
    (h1 : 1 ≤ t) (h2 : t < N) :
    residuals Real.cos Real.sin Real.arctan N n_delay (fun _ => 0) (straight_line N v) t =
      [0, 0, 0, 0, 0, 0] := by
  have e0 : x_start = 0 := rfl
  have e1 := y_start_eq N
  have e2 := psi_start_eq N
  have e3 := v_start_eq N
  have e4 := cte_start_eq N
  have e5 := epsi_start_eq N
  have e6 := delta_start_eq N
  have e7 := a_start_eq N
  have en : n_vars N = 6 * N + 2 * (N - 1) := rfl
  have hi : actuator_index n_delay t < N - 1 := by
    unfold actuator_index; split <;> omega
  obtain ⟨s, rfl⟩ : ∃ s, t = s + 1 := ⟨t - 1, by omega⟩
  have hx0 : x_start + (s + 1) = s + 1 := by omega
  have hx1 : x_start + (s + 1) - 1 = s := by omega
  simp (disch := omega) only [residuals, straight_line, getD_decision_vector, if_pos, if_neg]
  simp only [hx0, hx1]
  simp
  ring

theorem straight_line_box (N : Nat) (v : ℝ) (hN : 2 ≤ N) (hN' : N ≤ 1000) (hv0 : 0 ≤ v)
    (hv1 : v ≤ 1000) (j : Nat) (hj : j < n_vars N) :
    vars_lower N j ≤ (straight_line N v).getD j 0 ∧
      (straight_line N v).getD j 0 ≤ vars_upper N j := by
  have e1 := y_start_eq N
  have e3 := v_start_eq N
  have e4 := cte_start_eq N
  have e6 := delta_start_eq N
  have e7 := a_start_eq N
  have en : n_vars N = 6 * N + 2 * (N - 1) := rfl
  rw [straight_line, getD_decision_vector N _ j hj]
  by_cases c1 : j < y_start N
  · have hj0 : (0 : ℝ) ≤ (j : ℝ) := Nat.cast_nonneg j
    have hj1 : (j : ℝ) ≤ 1000 := by exact_mod_cast (by omega : j ≤ 1000)
    have a1 : 0 ≤ (j : ℝ) * v := mul_nonneg hj0 hv0
    have a2 : (j : ℝ) * v ≤ 1000 * 1000 := mul_le_mul hj1 hv1 hv0 (by norm_num)
    have c2 : j < delta_start N := by omega
    simp only [c1, c2, if_true, vars_lower, vars_upper, dt]
    generalize (j : ℝ) * v = A at a1 a2 ⊢
    constructor <;> norm_num <;> linarith
  · by_cases c2 : v_start N ≤ j ∧ j < cte_start N
    · have c3 : j < delta_start N := by omega
      simp only [c1, c2, c3, if_true, if_false, and_self, vars_lower, vars_upper]
      constructor <;> norm_num <;> linarith
    · by_cases c4 : j < delta_start N
      · simp only [c1, c2, c4, if_true, if_false, vars_lower, vars_upper]
        constructor <;> norm_num
      · by_cases c5 : j < a_start N
        · simp only [c1, c2, c4, c5, if_true, if_false, vars_lower, vars_upper]
          constructor <;> norm_num
        · simp only [c1, c2, c4, c5, if_false, vars_lower, vars_upper]
          constructor <;> norm_num

theorem straight_line_cost (N : Nat) (v : ℝ) (hN : 2 ≤ N) :
    cost_sum N (straight_line N v) = (N : ℝ) * (v - 60) ^ 2 := by
  have e0 : x_start = 0 := rfl
  have e1 := y_start_eq N
  have e2 := psi_start_eq N
  have e3 := v_start_eq N
  have e4 := cte_start_eq N
  have e5 := epsi_start_eq N
  have e6 := delta_start_eq N
  have e7 := a_start_eq N
  have en : n_vars N = 6 * N + 2 * (N - 1) := rfl
  have s1 : (∑ t in Finset.range N,
      (kCTE * ((straight_line N v).getD (cte_start N + t) 0) ^ 2 +
        kEPSI * ((straight_line N v).getD (epsi_start N + t) 0) ^ 2 +
        kRefV * ((straight_line N v).getD (v_start N + t) 0 - ref_v) ^ 2)) =
      (N : ℝ) * (v - 60) ^ 2 := by
    rw [Finset.sum_congr rfl (g := fun _ => (v - 60) ^ 2)]
    · simp
    · intro t ht
      have ht' := Finset.mem_range.mp ht
      simp (disch := omega) only [straight_line, getD_decision_vector, if_pos, if_neg]
      simp [kRefV, ref_v]
      norm_num
  have s2 : (∑ t in Finset.range (N - 1),
      (kDelta * ((straight_line N v).getD (delta_start N + t) 0) ^ 2 +
        kA * ((straight_line N v).getD (a_start N + t) 0) ^ 2 +
        kDeltaCrossA * ((straight_line N v).getD (delta_start N + t) 0 *
          (straight_line N v).getD (v_start N + t) 0) ^ 2)) = 0 := by
    apply Finset.sum_eq_zero
    intro t ht
    have ht' := Finset.mem_range.mp ht
    simp (disch := omega) only [straight_line, getD_decision_vector, if_pos, if_neg]
    simp
  have s3 : (∑ t in Finset.range (N - 2),
      (kSeqDelta * ((straight_line N v).getD (delta_start N + t + 1) 0 -
          (straight_line N v).getD (delta_start N + t) 0) ^ 2 +
        kSeqA * ((straight_line N v).getD (a_start N + t + 1) 0 -
          (straight_line N v).getD (a_start N + t) 0) ^ 2)) = 0 := by
    apply Finset.sum_eq_zero
    intro t ht
    have ht' := Finset.mem_range.mp ht
    simp (disch := omega) only [straight_line, getD_decision_vector, if_pos, if_neg]
    simp
  unfold cost_sum
  rw [s1, s2, s3]
  ring

theorem full_throttle_state (N : Nat) (v : ℝ) (hN : 2 ≤ N) :
    state_at (full_throttle_line N v) N 0 = [0, 0, 0, v, 0, 0] := by
  have e0 : x_start = 0 := rfl
  have e1 := y_start_eq N
  have e2 := psi_start_eq N
  have e3 := v_start_eq N
  have e4 := cte_start_eq N
  have e5 := epsi_start_eq N
  have e7 := a_start_eq N
  have en : n_vars N = 6 * N + 2 * (N - 1) := rfl
  simp (disch := omega) only [state_at, full_throttle_line, getD_decision_vector, Nat.add_zero,
    if_pos, if_neg]
  simp [x_start]

theorem full_throttle_residuals (N n_delay : Nat) (v : ℝ) (hN : 2 ≤ N) (t : Nat)
    (h1 : 1 ≤ t) (h2 : t < N) :
    residuals Real.cos Real.sin Real.arctan N n_delay (fun _ => 0) (full_throttle_line N v) t =
      [0, 0, 0, 0, 0, 0] := by
  have e0 : x_start = 0 := rfl
  have e1 := y_start_eq N
  have e2 := psi_start_eq N
  have e3 := v_start_eq N
  have e4 := cte_start_eq N
  have e5 := epsi_start_eq N
  have e6 := delta_start_eq N
  have e7 := a_start_eq N
  have en : n_vars N = 6 * N + 2 * (N - 1) := rfl
  have hi : actuator_index n_delay t < N - 1 := by
    unfold actuator_index; split <;> omega
  obtain ⟨s, rfl⟩ : ∃ s, t = s + 1 := ⟨t - 1, by omega⟩
  have hx0 : x_start + (s + 1) = s + 1 := by omega
  have hx1 : x_start + (s + 1) - 1 = s := by omega
  have hv0 : v_start N + (s + 1) - v_start N = s + 1 := by omega
  have hv1 : v_start N + (s + 1) - 1 - v_start N = s := by omega
  simp (disch := omega) only [residuals, full_throttle_line, getD_decision_vector, if_pos,
    if_neg]
  simp only [hx0, hx1, hv0, hv1]
  simp
  constructor <;> ring

theorem full_throttle_box (N : Nat) (v : ℝ) (hN : 2 ≤ N) (hN' : N ≤ 1000) (hv0 : 0 ≤ v)
    (hv1 : v ≤ 1000) (j : Nat) (hj : j < n_vars N) :
    vars_lower N j ≤ (full_throttle_line N v).getD j 0 ∧
      (full_throttle_line N v).getD j 0 ≤ vars_upper N j := by
  have e1 := y_start_eq N
  have e3 := v_start_eq N
  have e4 := cte_start_eq N
  have e6 := delta_start_eq N
  have e7 := a_start_eq N
  have en : n_vars N = 6 * N + 2 * (N - 1) := rfl
  rw [full_throttle_line, getD_decision_vector N _ j hj]
  by_cases c1 : j < y_start N
  · have hj0 : (0 : ℝ) ≤ (j : ℝ) := Nat.cast_nonneg j
    have hj1 : (j : ℝ) ≤ 1000 := by exact_mod_cast (by omega : j ≤ 1000)
    have a1 : 0 ≤ (j : ℝ) * v := mul_nonneg hj0 hv0
    have a2 : (j : ℝ) * v ≤ 1000 * 1000 := mul_le_mul hj1 hv1 hv0 (by norm_num)
    have a3 : (j : ℝ) * (j : ℝ) ≤ 1000 * 1000 := mul_le_mul hj1 hj1 hj0 (by norm_num)
    have a4 : 0 ≤ (j : ℝ) * (j : ℝ) := mul_nonneg hj0 hj0
    have a5 : (j : ℝ) * ((j : ℝ) - 1) = (j : ℝ) * (j : ℝ) - (j : ℝ) := by ring
    have c2 : j < delta_start N := by omega
    simp only [c1, c2, if_true, vars_lower, vars_upper, dt, a5]
    generalize (j : ℝ) * v = A at a1 a2 ⊢
    generalize (j : ℝ) * (j : ℝ) = B at a3 a4 ⊢
    constructor <;> norm_num <;> linarith
  · by_cases c2 : v_start N ≤ j ∧ j < cte_start N
    · have hk0 : (0 : ℝ) ≤ ((j - v_start N : Nat) : ℝ) := Nat.cast_nonneg _
      have hk1 : ((j - v_start N : Nat) : ℝ) ≤ 1000 := by
        exact_mod_cast (by omega : j - v_start N ≤ 1000)
      have c3 : j < delta_start N := by omega
      simp only [c1, c2, c3, if_true, if_false, and_self, vars_lower, vars_upper, dt]
      constructor <;> norm_num <;> linarith
    · by_cases c3 : a_start N ≤ j
      · have c4 : ¬ j < delta_start N := by omega
        have c5 : ¬ j < a_start N := by omega
        simp only [c1, c2, c3, c4, c5, if_true, if_false, vars_lower, vars_upper]
        constructor <;> norm_num
      · by_cases c4 : j < delta_start N
        · simp only [c1, c2, c3, c4, if_true, if_false, vars_lower, vars_upper]
          constructor <;> norm_num
        · have c5 : j < a_start N := by omega
          simp only [c1, c2, c3, c4, c5, if_true, if_false, vars_lower, vars_upper]
          constructor <;> norm_num

end ScenarioLemmas

section ScenarioLemmas2

theorem full_throttle_cost (N : Nat) (v : ℝ) (hN : 2 ≤ N) :
    cost_sum N (full_throttle_line N v) =
      (∑ t in Finset.range N, (v + (t : ℝ) * dt - 60) ^ 2) + ((N - 1 : Nat) : ℝ) := by
  have e0 : x_start = 0 := rfl
  have e1 := y_start_eq N
  have e2 := psi_start_eq N
  have e3 := v_start_eq N
  have e4 := cte_start_eq N
  have e5 := epsi_start_eq N
  have e6 := delta_start_eq N
  have e7 := a_start_eq N
  have en : n_vars N = 6 * N + 2 * (N - 1) := rfl
  have s1 : (∑ t in Finset.range N,
      (kCTE * ((full_throttle_line N v).getD (cte_start N + t) 0) ^ 2 +
        kEPSI * ((full_throttle_line N v).getD (epsi_start N + t) 0) ^ 2 +
        kRefV * ((full_throttle_line N v).getD (v_start N + t) 0 - ref_v) ^ 2)) =
      ∑ t in Finset.range N, (v + (t : ℝ) * dt - 60) ^ 2 := by
    apply Finset.sum_congr rfl
    intro t ht
    have ht' := Finset.mem_range.mp ht
    have hv0 : v_start N + t - v_start N = t := by omega
    simp (disch := omega) only [full_throttle_line, getD_decision_vector, if_pos, if_neg]
    simp [kRefV, ref_v, hv0]
    norm_num
  have s2 : (∑ t in Finset.range (N - 1),
      (kDelta * ((full_throttle_line N v).getD (delta_start N + t) 0) ^ 2 +
        kA * ((full_throttle_line N v).getD (a_start N + t) 0) ^ 2 +
        kDeltaCrossA * ((full_throttle_line N v).getD (delta_start N + t) 0 *
          (full_throttle_line N v).getD (v_start N + t) 0) ^ 2)) = ((N - 1 : Nat) : ℝ) := by
    rw [Finset.sum_congr rfl (g := fun _ => (1 : ℝ))]
    · simp
    · intro t ht
      have ht' := Finset.mem_range.mp ht
      simp (disch := omega) only [full_throttle_line, getD_decision_vector, if_pos, if_neg]
      simp [kA]
      norm_num
  have s3 : (∑ t in Finset.range (N - 2),
      (kSeqDelta * ((full_throttle_line N v).getD (delta_start N + t + 1) 0 -
          (full_throttle_line N v).getD (delta_start N + t) 0) ^ 2 +
        kSeqA * ((full_throttle_line N v).getD (a_start N + t + 1) 0 -
          (full_throttle_line N v).getD (a_start N + t) 0) ^ 2)) = 0 := by
    apply Finset.sum_eq_zero
    intro t ht
    have ht' := Finset.mem_range.mp ht
    simp (disch := omega) only [full_throttle_line, getD_decision_vector, if_pos, if_neg]
    simp
  unfold cost_sum
  rw [s1, s2, s3]
  ring

theorem full_throttle_cost_ten :
    cost_sum N (full_throttle_line N (10 : ℝ)) = 24561.85 := by
  rw [full_throttle_cost N 10 (by decide)]
  simp only [N, Finset.sum_range_succ, Finset.sum_range_zero, dt]
  norm_num

/-- Sufficient conditions for feasibility: see `feasible_iff`. -/
theorem scenario_feasible (v : ℝ) (hv0 : 0 ≤ v) (hv1 : v ≤ 1000) (args : solve_args ℝ)
    (ha : Solve_args Real.cos Real.sin Real.arctan N n_delay ![0, 0, 0, v, 0, 0, 0, 0]
      (fun _ => 0) = Except.ok args) :
    feasible args (straight_line N v) ∧ feasible args (full_throttle_line N v) := by
  constructor
  · rw [feasible_iff Real.cos Real.sin Real.arctan N n_delay _ _ (by decide) args ha]
    refine ⟨length_decision_vector N _,
      fun j hj => straight_line_box N v (by decide) (by decide) hv0 hv1 j hj, ?_,
      fun t h1 h2 => straight_line_residuals N n_delay v (by decide) t h1 h2⟩
    rw [straight_line_state N v (by decide)]
    rfl
  · rw [feasible_iff Real.cos Real.sin Real.arctan N n_delay _ _ (by decide) args ha]
    refine ⟨length_decision_vector N _,
      fun j hj => full_throttle_box N v (by decide) (by decide) hv0 hv1 j hj, ?_,
      fun t h1 h2 => full_throttle_residuals N n_delay v (by decide) t h1 h2⟩
    rw [full_throttle_state N v (by decide)]
    rfl

end ScenarioLemmas2

section ScenarioClaims

/-- C11 (as stated, refuted): for the state `(0, 0, 0, 10, 0, 0, 0, 0)`, coefficients
`[0, 0, 0, 0]` and the source's `N`, `dt`, `n_delay`, the straight-line vector with zero
steering and throttle is feasible and has cost 25000 (the speed 10 is 50 below
`ref_v = 60` at each of the 10 steps), while the vector that holds full throttle is
feasible too and has the lower cost 24561.85: the straight line is not optimal. -/
theorem straight_line_not_optimal_at_speed_ten :
    ∃ args : solve_args ℝ,
      Solve_args Real.cos Real.sin Real.arctan N n_delay ![0, 0, 0, 10, 0, 0, 0, 0]
        (fun _ => 0) = Except.ok args ∧
      feasible args (straight_line N 10) ∧
      objective args (straight_line N 10) = some 25000 ∧
      feasible args (full_throttle_line N 10) ∧
      objective args (full_throttle_line N 10) = some 24561.85 ∧
      (24561.85 : ℝ) < 25000 ∧
      ¬ optimal args (straight_line N 10) := by
  obtain ⟨args, ha, -⟩ := Solve_args_ok Real.cos Real.sin Real.arctan N n_delay
    ![0, 0, 0, 10, 0, 0, 0, 0] (fun _ => 0) (by decide)
  obtain ⟨f1, f2⟩ := scenario_feasible 10 (by norm_num) (by norm_num) args ha
  have o1 : objective args (straight_line N 10) = some 25000 := by
    rw [objective_eq_cost_sum Real.cos Real.sin Real.arctan N n_delay _ _ (by decide) args ha
      (straight_line N 10) (length_decision_vector N _), straight_line_cost N 10 (by decide)]
    simp only [N]
    norm_num
  have o2 : objective args (full_throttle_line N 10) = some 24561.85 := by
    rw [objective_eq_cost_sum Real.cos Real.sin Real.arctan N n_delay _ _ (by decide) args ha
      (full_throttle_line N 10) (length_decision_vector N _), full_throttle_cost_ten]
  refine ⟨args, ha, f1, o1, f2, o2, by norm_num, fun h => ?_⟩
  have h3 := h.2 _ f2 _ _ o1 o2
  norm_num at h3

end ScenarioClaims

section Uniqueness

theorem eq_decision_vector {α : Type} [LinearOrderedField α] (N : Nat) (f : Nat → α)
    (w : List α) (hlen : w.length = n_vars N)
    (h : ∀ j, j < n_vars N → w.getD j 0 = f j) : w = decision_vector N f := by
  apply List.ext_getElem?
  intro j
  by_cases hj : j < n_vars N
  · have hj' : j < w.length := by omega
    have := h j hj
    rw [List.getD_eq_getElem?_getD, List.getElem?_eq_getElem hj'] at this
    simp only [Option.getD_some] at this
    simp [decision_vector, List.getElem?_map, List.getElem?_range hj,
      List.getElem?_eq_getElem hj', this]
  · rw [List.getElem?_eq_none (by omega),
      List.getElem?_eq_none (by rw [length_decision_vector]; omega)]

/-- A vector of length `n_vars` that starts in the state `(0, 0, 0, 60, 0, 0)`, satisfies the
model equations for the zero polynomial and has cost 0 is the straight line at speed 60. -/
theorem zero_cost_feasible_unique (N n_delay : Nat) (hN : 2 ≤ N) (w : List ℝ)
    (hlen : w.length = n_vars N)
    (h0 : state_at w N 0 = [0, 0, 0, 60, 0, 0])
    (hr : ∀ t, 1 ≤ t → t < N →
      residuals Real.cos Real.sin Real.arctan N n_delay (fun _ => 0) w t = [0, 0, 0, 0, 0, 0])
    (hc : cost_sum N w = 0) : w = straight_line N 60 := by
  have e0 : x_start = 0 := rfl
  have e1 := y_start_eq N
  have e2 := psi_start_eq N
  have e3 := v_start_eq N
  have e4 := cte_start_eq N
  have e5 := epsi_start_eq N
  have e6 := delta_start_eq N
  have e7 := a_start_eq N
  have en : n_vars N = 6 * N + 2 * (N - 1) := rfl
  obtain ⟨hA, hB⟩ := (cost_sum_eq_zero_iff N w).mp hc
  have hxyz : ∀ t, t < N → w.getD (x_start + t) 0 = (t : ℝ) * 60 * dt ∧
      w.getD (y_start N + t) 0 = 0 ∧ w.getD (psi_start N + t) 0 = 0 := by
    intro t
    induction t with
    | zero =>
      intro _
      simp only [state_at, List.cons.injEq, and_true] at h0
      refine ⟨?_, h0.2.1, h0.2.2.1⟩
      rw [h0.1]
      simp
    | succ s ih =>
      intro hs
      obtain ⟨ix, iy, ip⟩ := ih (by omega)
      have r := hr (s + 1) (by omega) hs
      have hi : actuator_index n_delay (s + 1) < N - 1 := by
        unfold actuator_index; split <;> omega
      have hx1 : x_start + (s + 1) - 1 = x_start + s := by omega
      have hy1 : y_start N + (s + 1) - 1 = y_start N + s := by omega
      have hp1 : psi_start N + (s + 1) - 1 = psi_start N + s := by omega
      have hv1 : v_start N + (s + 1) - 1 = v_start N + s := by omega
      have he1 : epsi_start N + (s + 1) - 1 = epsi_start N + s := by omega
      simp only [residuals, hx1, hy1, hp1, hv1, he1, ix, iy, ip, (hA s (by omega)).2.2,
        (hB _ hi).1, List.cons.injEq, and_true, Real.cos_zero, Real.sin_zero] at r
      obtain ⟨r1, r2, r3, -⟩ := r
      refine ⟨?_, ?_, ?_⟩
      · push_cast
        linarith
      · linarith
      · simp only [mul_zero, zero_div, zero_mul, sub_zero] at r3
        linarith
  unfold straight_line
  apply eq_decision_vector N _ w hlen
  intro j hj
  by_cases c1 : j < y_start N
  · have h := (hxyz j (by omega)).1
    rw [e0, Nat.zero_add] at h
    rw [if_pos c1, h]
  by_cases c2 : j < psi_start N
  · obtain ⟨t, rfl⟩ : ∃ t, j = y_start N + t := ⟨j - y_start N, by omega⟩
    simp (disch := omega) only [if_neg]
    exact (hxyz t (by omega)).2.1
  by_cases c3 : j < v_start N
  · obtain ⟨t, rfl⟩ : ∃ t, j = psi_start N + t := ⟨j - psi_start N, by omega⟩
    simp (disch := omega) only [if_neg]
    exact (hxyz t (by omega)).2.2
  by_cases c4 : j < cte_start N
  · obtain ⟨t, rfl⟩ : ∃ t, j = v_start N + t := ⟨j - v_start N, by omega⟩
    simp (disch := omega) only [if_neg, if_pos]
    exact (hA t (by omega)).2.2
  by_cases c5 : j < epsi_start N
  · obtain ⟨t, rfl⟩ : ∃ t, j = cte_start N + t := ⟨j - cte_start N, by omega⟩
    simp (disch := omega) only [if_neg]
    exact (hA t (by omega)).1
  by_cases c6 : j < delta_start N
  · obtain ⟨t, rfl⟩ : ∃ t, j = epsi_start N + t := ⟨j - epsi_start N, by omega⟩
    simp (disch := omega) only [if_neg]
    exact (hA t (by omega)).2.1
  by_cases c7 : j < a_start N
  · obtain ⟨t, rfl⟩ : ∃ t, j = delta_start N + t := ⟨j - delta_start N, by omega⟩
    simp (disch := omega) only [if_neg]
    exact (hB t (by omega)).1
  · obtain ⟨t, rfl⟩ : ∃ t, j = a_start N + t := ⟨j - a_start N, by omega⟩
    simp (disch := omega) only [if_neg]
    exact (hB t (by omega)).2

end Uniqueness

section ScenarioResult

theorem flatMap_congr_mem {β γ : Type} (l : List β) (f g : β → List γ)
    (h : ∀ x, x ∈ l → f x = g x) : l.flatMap f = l.flatMap g := by
  induction l with
  | nil => rfl
  | cons a l ih =>
    simp only [List.flatMap_cons]
    rw [h a (List.mem_cons_self _ _), ih (fun x hx => h x (List.mem_cons_of_mem _ hx))]

/-- What `Solve` extracts from the straight line at speed `v`. -/
theorem straight_line_result (N : Nat) (v : ℝ) (hN : 2 ≤ N) :
    [(straight_line N v).getD (delta_start N) 0, (straight_line N v).getD (a_start N) 0] ++
        (List.range' 1 (N - 1)).flatMap (fun i =>
          [(straight_line N v).getD (x_start + i) 0,
            (straight_line N v).getD (y_start N + i) 0]) =
      [0, 0] ++ (List.range' 1 (N - 1)).flatMap (fun i => [(i : ℝ) * v * dt, 0]) := by
  have e0 : x_start = 0 := rfl
  have e1 := y_start_eq N
  have e2 := psi_start_eq N
  have e3 := v_start_eq N
  have e4 := cte_start_eq N
  have e6 := delta_start_eq N
  have e7 := a_start_eq N
  have en : n_vars N = 6 * N + 2 * (N - 1) := rfl
  congr 1
  · simp (disch := omega) only [straight_line, getD_decision_vector, if_neg]
  · apply flatMap_congr_mem
    intro i hi
    rw [List.mem_range'_1] at hi
    have hx : x_start + i = i := by omega
    rw [hx]
    simp (disch := omega) only [straight_line, getD_decision_vector, if_neg, if_pos]

/-- With the state at the reference speed, the straight line is the only optimal vector. -/
theorem scenario_optimal_iff (args : solve_args ℝ)
    (ha : Solve_args Real.cos Real.sin Real.arctan N n_delay ![0, 0, 0, 60, 0, 0, 0, 0]
      (fun _ => 0) = Except.ok args) :
    objective args (straight_line N 60) = some 0 ∧
    (∀ w c, feasible args w → objective args w = some c → 0 ≤ c) ∧
    (∀ w, feasible args w → objective args w = some 0 → w = straight_line N 60) ∧
    (∀ w, optimal args w ↔ w = straight_line N 60) := by
  have f1 := (scenario_feasible 60 (by norm_num) (by norm_num) args ha).1
  have o1 : objective args (straight_line N 60) = some 0 := by
    rw [objective_eq_cost_sum Real.cos Real.sin Real.arctan N n_delay _ _ (by decide) args ha
      (straight_line N 60) (length_decision_vector N _), straight_line_cost N 60 (by decide)]
    simp
  have o2 : ∀ w c, feasible args w → objective args w = some c → 0 ≤ c := by
    intro w c fw ow
    have hl := ((feasible_iff Real.cos Real.sin Real.arctan N n_delay _ _ (by decide) args ha
      w).mp fw).1
    rw [objective_eq_cost_sum Real.cos Real.sin Real.arctan N n_delay _ _ (by decide) args ha
      w hl] at ow
    cases ow
    exact cost_sum_nonneg N w
  have o3 : ∀ w, feasible args w → objective args w = some 0 → w = straight_line N 60 := by
    intro w fw ow
    obtain ⟨hl, -, hs, hr⟩ := (feasible_iff Real.cos Real.sin Real.arctan N n_delay _ _
      (by decide) args ha w).mp fw
    rw [objective_eq_cost_sum Real.cos Real.sin Real.arctan N n_delay _ _ (by decide) args ha
      w hl] at ow
    exact zero_cost_feasible_unique N n_delay (by decide) w hl hs hr (Option.some.inj ow)
  refine ⟨o1, o2, o3, fun w => ⟨?_, ?_⟩⟩
  · rintro ⟨fw, hw⟩
    have hl := ((feasible_iff Real.cos Real.sin Real.arctan N n_delay _ _ (by decide) args ha
      w).mp fw).1
    have ow := objective_eq_cost_sum Real.cos Real.sin Real.arctan N n_delay _ _ (by decide)
      args ha w hl
    have h1 := hw _ f1 _ _ ow o1
    have h2 := cost_sum_nonneg N w
    rw [le_antisymm h1 h2] at ow
    exact o3 w fw ow
  · rintro rfl
    exact ⟨f1, fun w' fw' c c' hc hc' => by
      rw [o1] at hc
      cases hc
      exact o2 w' c' fw' hc'⟩

end ScenarioResult

section ScenarioClaims2

/-- C11 (amended): for the state `(0, 0, 0, 60, 0, 0, 0, 0)`, whose speed is `ref_v`,
coefficients `[0, 0, 0, 0]` and the source's `N`, `dt`, `n_delay`, the straight-line vector
`x[t] = t * 60 * dt`, `v[t] = 60`, all else 0, is feasible for the problem `Solve` assembles
and has cost 0; no feasible vector has a negative cost and no other feasible vector has
cost 0, so a vector is optimal exactly when it is this one; and when the optimiser returns
an optimal vector, `Solve` returns steering 0, throttle 0 and the points `(i * 60 * dt, 0)`,
`i = 1..N-1`. -/
theorem straight_line_optimal_at_reference_speed (solve : solve_args ℝ → solve_result ℝ)
    (hopt : ∀ args, Solve_args Real.cos Real.sin Real.arctan N n_delay
      ![0, 0, 0, 60, 0, 0, 0, 0] (fun _ => 0) = Except.ok args →
        optimal args (solve args).x) :
    ∃ args, Solve_args Real.cos Real.sin Real.arctan N n_delay ![0, 0, 0, 60, 0, 0, 0, 0]
        (fun _ => 0) = Except.ok args ∧
      feasible args (straight_line N 60) ∧
      objective args (straight_line N 60) = some 0 ∧
      (∀ w c, feasible args w → objective args w = some c → 0 ≤ c) ∧
      (∀ w, feasible args w → objective args w = some 0 → w = straight_line N 60) ∧
      (∀ w, optimal args w ↔ w = straight_line N 60) ∧
      (solve args).x = straight_line N 60 ∧
      Solve solve Real.cos Real.sin Real.arctan N n_delay ![0, 0, 0, 60, 0, 0, 0, 0]
        (fun _ => 0) = Except.ok
          ([0, 0] ++ (List.range' 1 (N - 1)).flatMap (fun i => [(i : ℝ) * 60 * dt, 0])) := by
  obtain ⟨args, ha, -⟩ := Solve_args_ok Real.cos Real.sin Real.arctan N n_delay
    ![0, 0, 0, 60, 0, 0, 0, 0] (fun _ => 0) (by decide)
  obtain ⟨o1, o2, o3, o4⟩ := scenario_optimal_iff args ha
  have hx := (o4 _).mp (hopt args ha)
  refine ⟨args, ha, (scenario_feasible 60 (by norm_num) (by norm_num) args ha).1, o1, o2, o3,
    o4, hx, ?_⟩
  rw [Solve_ok solve Real.cos Real.sin Real.arctan N n_delay _ _ (by decide) args ha
    (by rw [hx]; exact length_decision_vector N _), hx, straight_line_result N 60 (by decide)]

theorem straight_line_optimal_at_reference_speed_witness :
    (∀ args, Solve_args Real.cos Real.sin Real.arctan N n_delay
      ![0, 0, 0, 60, 0, 0, 0, 0] (fun _ => 0) = Except.ok args →
        optimal args
          ((fun _ => ⟨status_type.success, straight_line N 60, 0⟩ :
            solve_args ℝ → solve_result ℝ) args).x) ∧
    Solve (fun _ => ⟨status_type.success, straight_line N 60, 0⟩) Real.cos Real.sin
      Real.arctan N n_delay ![0, 0, 0, 60, 0, 0, 0, 0] (fun _ => 0) = Except.ok
        ([0, 0] ++ (List.range' 1 (N - 1)).flatMap (fun i => [(i : ℝ) * 60 * dt, 0])) := by
  have h : ∀ args, Solve_args Real.cos Real.sin Real.arctan N n_delay
      ![0, 0, 0, 60, 0, 0, 0, 0] (fun _ => 0) = Except.ok args →
        optimal args
          ((fun _ => ⟨status_type.success, straight_line N 60, 0⟩ :
            solve_args ℝ → solve_result ℝ) args).x :=
    fun args ha => ((scenario_optimal_iff args ha).2.2.2 _).mpr rfl
  obtain ⟨_, -, -, -, -, -, -, -, h8⟩ := straight_line_optimal_at_reference_speed
    (fun _ => ⟨status_type.success, straight_line N 60, 0⟩) h
  exact ⟨h, h8⟩

end ScenarioClaims2

end MPC
